import Mathlib

/-!
Shallow embedding of the `email-format` crate (RFC 5322 parser/serializer).

Conventions of the embedding:

* Bytes are `Nat` values (the crate never performs wrapping byte arithmetic:
  every numeric computation in the sources stays far below any overflow
  boundary, so `Nat`/`Int` model `u8`/`u32`/`i32` exactly on the ranges that
  occur).
* A byte slice `&[u8]` is a `List Nat`; the "remainder" returned by a parser
  is the suffix of the input that was not consumed, exactly as in the source.
* `Parsable::parse` becomes `... → Except ParseError (α × List Nat)`.
* `Streamable::stream` becomes a pure function returning the pair
  `(bytes written to the sink, count returned to the caller)`.  The modelled
  sink is an in-memory buffer (like `Vec<u8>`), whose `write` accepts the
  whole buffer and returns its length, so the two components differ exactly
  where the source returns a hard-coded count.  `Month::stream` and
  `DayName::stream` can fail with an I/O error; streams whose values can
  reach them return `Except String (List Nat × Nat)` where the `String` is
  the error message passed to `IoError::new`.
* Recursive parsers and parser loops are written in fuel-passing style
  (structural recursion on the fuel).  Exhausted fuel makes a parser fail
  with `ParseError.InternalError` and makes a `while let Ok(..)` loop stop,
  which is unreachable behaviour for the fuel supplied by the public
  wrappers (`parseFuel input = 4 * input.length + 64`, far above the bound
  `2·|input| + constant` on the number of loop steps and nesting levels,
  each of which consumes at least one input byte).
* The snapshot's `rfc5322/error.rs` declares a `ParseError` enum that is
  older than the rest of the sources: `types.rs`, `headers.rs` and `lib.rs`
  construct `Eof`/`NotFound` with a production name and use the variants
  `TrailingInput`, `Parse` and `InternalError`, none of which exist in the
  declared enum, while `mod.rs` constructs `Eof`/`NotFound` without a
  payload.  The union of all constructions is embedded below as
  `ParseError` (payload-less `Eof`/`NotFound` occurrences from `mod.rs` are
  embedded with the empty production name ""), and the enum exactly as
  declared in `error.rs` is embedded separately as `ErrorRs.ParseError`.
-/

namespace EmailFormat

/-- The effective parse error type: the union of every `ParseError`
construction appearing in `mod.rs`, `types.rs`, `headers.rs` and `lib.rs`
(see the module comment about the version skew with `error.rs`). -/
inductive ParseError : Type where
  | Eof (production : String)
  | NotFound (production : String)
  | Expected (bytes : List Nat)
  | ExpectedType (t : String)
  | Io
  | InvalidBodyChar (c : Nat)
  | LineTooLong (lineNumber : Nat)
  | TrailingInput (production : String) (offset : Nat)
  | Parse (production : String) (nested : ParseError)
  | InternalError
deriving DecidableEq, Repr

/-- Result of `Parsable::parse`: the parsed value and the unconsumed
remainder, or a parse error. -/
abbrev PR (α : Type) := Except ParseError (α × List Nat)

/-- `PanicOr α`: the outcome of a Rust computation that can panic
(out-of-bounds slice index, `unreachable!()`): either a panic, or a
returned value. -/
inductive PanicOr (α : Type) : Type where
  | panicked
  | returned (a : α)
deriving DecidableEq, Repr

/-- Byte string of an ASCII string literal. -/
def strBytes (s : String) : List Nat := s.toList.map Char.toNat

end EmailFormat

namespace EmailFormat.ErrorRs

/-- The `ParseError` enum exactly as declared in `src/rfc5322/error.rs`
lines 6-14 of the snapshot (an older revision than the code using it):
`Eof`, `NotFound`, `Expected(Vec<u8>)`, `ExpectedType(&'static str)`,
`Io(IoError)`, `InvalidBodyChar(u8)`, `LineTooLong(usize)`. -/
inductive ParseError : Type where
  | Eof
  | NotFound
  | Expected (bytes : List Nat)
  | ExpectedType (t : String)
  | Io
  | InvalidBodyChar (c : Nat)
  | LineTooLong (line : Nat)
deriving DecidableEq, Repr

/-- Name of the variant (error kind) of a declared `ParseError`. -/
def ParseError.kind : ParseError → String
  | .Eof => "Eof"
  | .NotFound => "NotFound"
  | .Expected _ => "Expected"
  | .ExpectedType _ => "ExpectedType"
  | .Io => "Io"
  | .InvalidBodyChar _ => "InvalidBodyChar"
  | .LineTooLong _ => "LineTooLong"

/-- The `description` method from `impl StdError for ParseError` in
`error.rs`. -/
def ParseError.description : ParseError → String
  | .Eof => "End of File"
  | .NotFound => "Not Found"
  | .Expected _ => "Expectation Failed"
  | .ExpectedType _ => "Expectation Failed"
  | .Io => "I/O Error"
  | .InvalidBodyChar _ => "Invalid Body Character"
  | .LineTooLong _ => "Line too long"

end EmailFormat.ErrorRs

namespace EmailFormat

/-! ### Byte predicates (RFC 5234 core rules and RFC 5322 character classes) -/

/-- `is_vchar` from `types.rs`: VCHAR = %x21-7E. -/
def is_vchar (c : Nat) : Bool := 0x21 ≤ c && c ≤ 0x7E

/-- `is_wsp` from `types.rs`: WSP = SP / HTAB. -/
def is_wsp (c : Nat) : Bool := c == 32 || c == 9

/-- `is_digit` from `types.rs`: DIGIT = %x30-39. -/
def is_digit (c : Nat) : Bool := 0x30 ≤ c && c ≤ 0x39

/-- `is_alpha` from `types.rs`: ALPHA = %x41-5A / %x61-7A. -/
def is_alpha (c : Nat) : Bool := (0x41 ≤ c && c ≤ 0x5A) || (0x61 ≤ c && c ≤ 0x7A)

/-- `is_ctext` from `types.rs`. -/
def is_ctext (c : Nat) : Bool :=
  (33 ≤ c && c ≤ 39) || (42 ≤ c && c ≤ 91) || (93 ≤ c && c ≤ 126)

/-- `is_atext` from `types.rs`. -/
def is_atext (c : Nat) : Bool :=
  is_alpha c || is_digit c
    || c == 33 || c == 35 || c == 36 || c == 37
    || c == 38 || c == 39 || c == 42 || c == 43
    || c == 45 || c == 47 || c == 61 || c == 63
    || c == 94 || c == 95 || c == 96 || c == 123
    || c == 124 || c == 125 || c == 126

/-- `is_qtext` from `types.rs`. -/
def is_qtext (c : Nat) : Bool := c == 33 || (35 ≤ c && c ≤ 91) || (93 ≤ c && c ≤ 126)

/-- `is_dtext` from `types.rs`. -/
def is_dtext (c : Nat) : Bool := (33 ≤ c && c ≤ 90) || (94 ≤ c && c ≤ 126)

/-- `is_ftext` from `types.rs`. -/
def is_ftext (c : Nat) : Bool := (33 ≤ c && c ≤ 57) || (59 ≤ c && c ≤ 126)

/-- `is_text` from `mod.rs`: body text characters (excludes NUL, CR, LF and
bytes above 127). -/
def is_text (c : Nat) : Bool := (1 ≤ c && c ≤ 9) || c == 11 || c == 12 || (14 ≤ c && c ≤ 127)

/-- `u8::to_ascii_lowercase` for one byte. -/
def toLower (c : Nat) : Nat := if 65 ≤ c ∧ c ≤ 90 then c + 32 else c

/-! ### The `def_cclass!` parser and the shared `req!`-style helpers -/

/-- Parser generated by the `def_cclass!` macro in `mod.rs`: scan forward
while the predicate holds; succeed with the (necessarily non-empty) matched
prefix and the rest of the input, otherwise fail with `Eof` when the scan
stopped at the end of the input (which, with zero bytes matched, means the
input was empty) and `NotFound` otherwise.  The macro (defined in the older
`mod.rs`) constructs `Eof`/`NotFound` without a production name; these are
embedded with the name "". -/
def cclassParse (test : Nat → Bool) (input : List Nat) :
    Except ParseError (List Nat × List Nat) :=
  let output := input.takeWhile test
  if output.length > 0 then .ok (output, input.dropWhile test)
  else if input.length = 0 then .error (.Eof "") else .error (.NotFound "")

/-- Stream implementation generated by `def_cclass!`: write the owned bytes
verbatim; the returned count is what `w.write` returned. -/
def cclassStream (bytes : List Nat) : List Nat × Nat := (bytes, bytes.length)

/-- The `req!` macro from `mod.rs`: require a literal byte sequence at the
front of the remainder (`Eof` when the remainder is shorter than the
literal, `Expected` when it does not match). -/
def req (rem : List Nat) (bytes : List Nat) : Except ParseError (List Nat) :=
  if rem.length < bytes.length then .error (.Eof "")
  else if rem.take bytes.length ≠ bytes then .error (.Expected bytes)
  else .ok (rem.drop bytes.length)

/-- The `req_name!` macro from `headers.rs`: case-insensitive match of a
header-name literal (given lowercase) at the front of the remainder. -/
def req_name (rem : List Nat) (name : String) : Except ParseError (List Nat) :=
  let bs := strBytes name
  if rem.length < bs.length ∨ (rem.take bs.length).map toLower ≠ bs then
    .error (.NotFound name)
  else .ok (rem.drop bs.length)

/-- The `req_crlf!` macro from `headers.rs`. -/
def req_crlf (rem : List Nat) : Except ParseError (List Nat) :=
  if rem.length < 2 then .error (.NotFound "CRLF")
  else if rem.take 2 ≠ [13, 10] then .error (.NotFound "CRLF")
  else .ok (rem.drop 2)

/-! ### Decimal formatting (Rust `write!` with `{}`, `{:02}`, `{:04}`) -/

/-- Fuel-passing digit accumulator for `decDigits` (the fuel `n + 1`
always exceeds the number of decimal digits). -/
def decDigitsAux : Nat → Nat → List Nat
  | 0, _ => []
  | fuel+1, n => if n < 10 then [48 + n] else decDigitsAux fuel (n / 10) ++ [48 + n % 10]

/-- Decimal digits (as ASCII bytes) of a natural number, no padding —
Rust's `{}` format for an unsigned integer. -/
def decDigits (n : Nat) : List Nat := decDigitsAux (n + 1) n

/-- Zero-padded decimal — Rust's `{:0w}` format for an unsigned integer. -/
def zeroPad (w : Nat) (n : Nat) : List Nat :=
  List.replicate (w - (decDigits n).length) 48 ++ decDigits n

end EmailFormat

namespace EmailFormat

/-! ### Grammar value types (from `types.rs`), lexical and address layers.
Rust tuple-struct fields `.0` are named `bytes`/`parts`/etc. -/

/-- `VChar` character-class token (`def_cclass!(VChar, is_vchar)`). -/
structure VChar where
  bytes : List Nat

/-- `WSP` character-class token. -/
structure WSP where
  bytes : List Nat

/-- `ASCII` character-class token. -/
structure ASCII where
  bytes : List Nat

/-- `Digit` character-class token. -/
structure Digit where
  bytes : List Nat

/-- `Alpha` character-class token. -/
structure Alpha where
  bytes : List Nat

/-- `CText` character-class token. -/
structure CText where
  bytes : List Nat

/-- `AText` character-class token. -/
structure AText where
  bytes : List Nat

/-- `QText` character-class token. -/
structure QText where
  bytes : List Nat

/-- `DText` character-class token. -/
structure DText where
  bytes : List Nat

/-- `FText` character-class token. -/
structure FText where
  bytes : List Nat

/-- `Text` character-class token (body text, from `mod.rs`). -/
structure Text where
  bytes : List Nat

/-- `QuotedPair(pub u8)`: backslash followed by a VCHAR or WSP byte; the
stored byte is the escaped one. -/
structure QuotedPair where
  c : Nat

/-- `FWS`: folding white space (no stored content). -/
structure FWS where

mutual
/-- `CContent`: ctext, quoted-pair, or a nested comment (mutually recursive
with `Comment`, as in `types.rs`). -/
inductive CContent : Type where
  | CText (x : EmailFormat.CText)
  | QuotedPair (x : EmailFormat.QuotedPair)
  | Comment (x : Comment)
/-- `Comment`: `"(" *([FWS] ccontent) [FWS] ")"`, where each ccontent entry
records whether folding white space preceded it. -/
inductive Comment : Type where
  | mk (ccontent : List (Bool × CContent)) (trailing_ws : Bool)
end

/-- Accessor for `Comment.ccontent`. -/
def Comment.ccontent : Comment → List (Bool × CContent)
  | .mk l _ => l

/-- Accessor for `Comment.trailing_ws`. -/
def Comment.trailing_ws : Comment → Bool
  | .mk _ b => b

/-- `CFWS`: a sequence of (whitespace-flag, comment) pairs plus a trailing
whitespace flag. -/
structure CFWS where
  comments : List (Bool × Comment)
  trailing_ws : Bool

/-- `Atom`: `[CFWS] 1*atext [CFWS]`. -/
structure Atom where
  pre_cfws : Option CFWS
  atext : AText
  post_cfws : Option CFWS

/-- `DotAtomText`: `1*atext *("." 1*atext)`. -/
structure DotAtomText where
  parts : List AText

/-- `DotAtom`: `[CFWS] dot-atom-text [CFWS]`. -/
structure DotAtom where
  pre_cfws : Option CFWS
  dot_atom_text : DotAtomText
  post_cfws : Option CFWS

/-- `QContent`: qtext or quoted-pair. -/
inductive QContent : Type where
  | QText (x : EmailFormat.QText)
  | QuotedPair (x : EmailFormat.QuotedPair)

/-- `QuotedString`: `[CFWS] DQUOTE *([FWS] qcontent) [FWS] DQUOTE [CFWS]`. -/
structure QuotedString where
  pre_cfws : Option CFWS
  qcontent : List (Bool × QContent)
  trailing_ws : Bool
  post_cfws : Option CFWS

/-- `Word`: atom or quoted-string. -/
inductive Word : Type where
  | Atom (x : EmailFormat.Atom)
  | QuotedString (x : EmailFormat.QuotedString)

/-- `Phrase`: `1*word`. -/
structure Phrase where
  words : List Word

/-- `Unstructured`: leading-FWS flag, VChar runs (separated by whitespace),
trailing-WSP flag. -/
structure Unstructured where
  leading_ws : Bool
  parts : List VChar
  trailing_ws : Bool

/-- `LocalPart`: dot-atom or quoted-string. -/
inductive LocalPart : Type where
  | DotAtom (x : EmailFormat.DotAtom)
  | QuotedString (x : EmailFormat.QuotedString)

/-- `DomainLiteral`: `[CFWS] "[" *([FWS] dtext) [FWS] "]" [CFWS]`. -/
structure DomainLiteral where
  pre_cfws : Option CFWS
  dtext : List (Bool × DText)
  trailing_ws : Bool
  post_cfws : Option CFWS

/-- `Domain`: dot-atom or domain-literal. -/
inductive Domain : Type where
  | DotAtom (x : EmailFormat.DotAtom)
  | DomainLiteral (x : EmailFormat.DomainLiteral)

/-- `AddrSpec`: `local-part "@" domain`. -/
structure AddrSpec where
  local_part : LocalPart
  domain : Domain

/-- `AngleAddr`: `[CFWS] "<" addr-spec ">" [CFWS]`. -/
structure AngleAddr where
  pre_cfws : Option CFWS
  addr_spec : AddrSpec
  post_cfws : Option CFWS

/-- `DisplayName`: a phrase. -/
structure DisplayName where
  phrase : Phrase

/-- `NameAddr`: `[display-name] angle-addr`. -/
structure NameAddr where
  display_name : Option DisplayName
  angle_addr : AngleAddr

/-- `Mailbox`: name-addr or addr-spec. -/
inductive Mailbox : Type where
  | NameAddr (x : EmailFormat.NameAddr)
  | AddrSpec (x : EmailFormat.AddrSpec)

/-- `MailboxList`: `mailbox *("," mailbox)`. -/
structure MailboxList where
  mailboxes : List Mailbox

/-- `GroupList`: mailbox-list or CFWS. -/
inductive GroupList : Type where
  | MailboxList (x : EmailFormat.MailboxList)
  | CFWS (x : EmailFormat.CFWS)

/-- `Group`: `display-name ":" [group-list] ";" [CFWS]`. -/
structure Group where
  display_name : DisplayName
  group_list : Option GroupList
  cfws : Option CFWS

/-- `Address`: mailbox or group. -/
inductive Address : Type where
  | Mailbox (x : EmailFormat.Mailbox)
  | Group (x : EmailFormat.Group)

/-- `AddressList`: `address *("," address)`. -/
structure AddressList where
  addresses : List Address

end EmailFormat

namespace EmailFormat

/-! ### Date/time, message-id, trace and field-name value types -/

/-- `Zone(pub i32)`: signed ±HHMM offset stored as an integer. -/
structure Zone where
  v : Int

/-- `Second(pub u8)`. -/
structure Second where
  v : Nat

/-- `Minute(pub u8)`. -/
structure Minute where
  v : Nat

/-- `Hour(pub u8)`. -/
structure Hour where
  v : Nat

/-- `TimeOfDay`: `hour ":" minute [":" second]`. -/
structure TimeOfDay where
  hour : Hour
  minute : Minute
  second : Option Second

/-- `Time`: `time-of-day zone`. -/
structure Time where
  time_of_day : TimeOfDay
  zone : Zone

/-- `Year(pub u32)`. -/
structure Year where
  v : Nat

/-- `Month(pub u8)`: 1-12. -/
structure Month where
  v : Nat

/-- `Day(pub u8)`. -/
structure Day where
  v : Nat

/-- `Date`: `day month year`. -/
structure Date where
  day : Day
  month : Month
  year : Year

/-- `DayName(pub u8)`: 1-7 (Sun=1). -/
structure DayName where
  v : Nat

/-- `DayOfWeek`: `[FWS] day-name`. -/
structure DayOfWeek where
  pre_fws : Option FWS
  day_name : DayName

/-- `DateTime`: `[day-of-week ","] date time [CFWS]`. -/
structure DateTime where
  day_of_week : Option DayOfWeek
  date : Date
  time : Time
  post_cfws : Option CFWS

/-- `NoFoldLiteral`: `"[" *dtext "]"`. -/
structure NoFoldLiteral where
  dtext : DText

/-- `IdRight`: dot-atom-text or no-fold-literal. -/
inductive IdRight : Type where
  | DotAtomText (x : EmailFormat.DotAtomText)
  | NoFoldLiteral (x : EmailFormat.NoFoldLiteral)

/-- `IdLeft`: dot-atom-text. -/
structure IdLeft where
  dat : DotAtomText

/-- `MsgId`: `[CFWS] "<" id-left "@" id-right ">" [CFWS]`. -/
structure MsgId where
  pre_cfws : Option CFWS
  id_left : IdLeft
  id_right : IdRight
  post_cfws : Option CFWS

/-- `ReceivedToken`: word, angle-addr, addr-spec or domain. -/
inductive ReceivedToken : Type where
  | Word (x : EmailFormat.Word)
  | AngleAddr (x : EmailFormat.AngleAddr)
  | AddrSpec (x : EmailFormat.AddrSpec)
  | Domain (x : EmailFormat.Domain)

/-- `Path`: angle-addr, or `[CFWS] "<" [CFWS] ">" [CFWS]`. -/
inductive Path : Type where
  | AngleAddr (x : EmailFormat.AngleAddr)
  | Other (c1 : Option CFWS) (c2 : Option CFWS) (c3 : Option CFWS)

/-- `FieldName`: `1*ftext`. -/
structure FieldName where
  ftext : FText

/-! ### Header field value types (from `headers.rs`) -/

/-- `OrigDate`: `"Date:" date-time CRLF`. -/
structure OrigDate where
  dt : DateTime

/-- `From`: `"From:" mailbox-list CRLF`. -/
structure From where
  ml : MailboxList

/-- `Sender`: `"Sender:" mailbox CRLF`. -/
structure Sender where
  mb : Mailbox

/-- `ReplyTo`: `"Reply-To:" address-list CRLF`. -/
structure ReplyTo where
  al : AddressList

/-- `To`: `"To:" address-list CRLF`. -/
structure To where
  al : AddressList

/-- `Cc`: `"Cc:" address-list CRLF`. -/
structure Cc where
  al : AddressList

/-- `Bcc`: `"Bcc:" [address-list / CFWS] CRLF`. -/
inductive Bcc : Type where
  | AddressList (x : EmailFormat.AddressList)
  | CFWS (x : EmailFormat.CFWS)
  | Empty

/-- `MessageId`: `"Message-ID:" msg-id CRLF`. -/
structure MessageId where
  msg_id : MsgId

/-- `InReplyTo`: `"In-Reply-To:" 1*msg-id CRLF`. -/
structure InReplyTo where
  msg_ids : List MsgId

/-- `References`: `"References:" 1*msg-id CRLF`. -/
structure References where
  msg_ids : List MsgId

/-- `Subject`: `"Subject:" unstructured CRLF`. -/
structure Subject where
  u : Unstructured

/-- `Comments`: `"Comments:" unstructured CRLF`. -/
structure Comments where
  u : Unstructured

/-- `Keywords`: `"Keywords:" phrase *("," phrase) CRLF`. -/
structure Keywords where
  phrases : List Phrase

/-- `ResentDate`: `"Resent-Date:" date-time CRLF`. -/
structure ResentDate where
  dt : DateTime

/-- `ResentFrom`: `"Resent-From:" mailbox-list CRLF`. -/
structure ResentFrom where
  ml : MailboxList

/-- `ResentSender`: `"Resent-Sender:" mailbox CRLF`. -/
structure ResentSender where
  mb : Mailbox

/-- `ResentTo`: `"Resent-To:" address-list CRLF`. -/
structure ResentTo where
  al : AddressList

/-- `ResentCc`: `"Resent-Cc:" address-list CRLF`. -/
structure ResentCc where
  al : AddressList

/-- `ResentBcc`: `"Resent-Bcc:" [address-list / CFWS] CRLF`. -/
inductive ResentBcc : Type where
  | AddressList (x : EmailFormat.AddressList)
  | CFWS (x : EmailFormat.CFWS)
  | Empty

/-- `ResentMessageId`: `"Resent-Message-ID:" msg-id CRLF`. -/
structure ResentMessageId where
  msg_id : MsgId

/-- `ReceivedTokens`: received tokens or a CFWS comment (errata 3979). -/
inductive ReceivedTokens : Type where
  | Tokens (x : List ReceivedToken)
  | Comment (x : CFWS)

/-- `Received`: `"Received:" [1*received-token / CFWS] ";" date-time CRLF`. -/
structure Received where
  received_tokens : ReceivedTokens
  date_time : DateTime

/-- `Return`: `"Return-Path:" path CRLF`. -/
structure Return where
  path : Path

/-- `OptionalField`: `field-name ":" unstructured CRLF`. -/
structure OptionalField where
  name : FieldName
  value : Unstructured

/-! ### Message assembly types (from `mod.rs`) -/

/-- `Trace`: `[return] 1*received`. -/
structure Trace where
  return_path : Option Return
  received : List Received

/-- `ResentField`: one of the resent-* header fields. -/
inductive ResentField : Type where
  | Date (x : ResentDate)
  | From (x : ResentFrom)
  | Sender (x : ResentSender)
  | To (x : ResentTo)
  | Cc (x : ResentCc)
  | Bcc (x : ResentBcc)
  | MessageId (x : ResentMessageId)

/-- `Field`: one of the ordinary header fields. -/
inductive Field : Type where
  | OrigDate (x : EmailFormat.OrigDate)
  | From (x : EmailFormat.From)
  | Sender (x : EmailFormat.Sender)
  | ReplyTo (x : EmailFormat.ReplyTo)
  | To (x : EmailFormat.To)
  | Cc (x : EmailFormat.Cc)
  | Bcc (x : EmailFormat.Bcc)
  | MessageId (x : EmailFormat.MessageId)
  | InReplyTo (x : EmailFormat.InReplyTo)
  | References (x : EmailFormat.References)
  | Subject (x : EmailFormat.Subject)
  | Comments (x : EmailFormat.Comments)
  | Keywords (x : EmailFormat.Keywords)
  | OptionalField (x : EmailFormat.OptionalField)

/-- `ResentTraceBlock`: a trace followed by at least one resent field. -/
structure ResentTraceBlock where
  trace : Trace
  resent_fields : List ResentField

/-- `OptTraceBlock`: a trace followed by at least one optional field. -/
structure OptTraceBlock where
  trace : Trace
  opt_fields : List OptionalField

/-- `TraceBlock`: resent or optional trace block. -/
inductive TraceBlock : Type where
  | Resent (x : ResentTraceBlock)
  | Opt (x : OptTraceBlock)

/-- `Fields`: trace blocks followed by ordinary fields. -/
structure Fields where
  trace_blocks : List TraceBlock
  fields : List Field

/-- `Body(pub Vec<u8>)`: the message body bytes. -/
structure Body where
  bytes : List Nat

/-- `Message`: fields plus optional body. -/
structure Message where
  fields : Fields
  body : Option Body

/-- `Email` (from `lib.rs`): wraps a `Message`. -/
structure Email where
  message : Message

end EmailFormat

namespace EmailFormat

/-! ### Parsers: lexical and address layers -/

/-- The `parse!(T, rem).ok()` pattern: attempt a sub-parse, advancing the
remainder only on success. -/
def tryParse {α : Type} (p : List Nat → PR α) (rem : List Nat) :
    Option α × List Nat :=
  match p rem with
  | .ok (v, r) => (some v, r)
  | .error _ => (none, rem)

/-- Fuel supplied by the public parser wrappers; far above the recursion
depth and loop step count any input can cause (both are bounded by the
input length, each unit consuming at least one byte). -/
def parseFuel (input : List Nat) : Nat := 4 * input.length + 64

/-- `VChar::parse`. -/
def VChar.parse (input : List Nat) : PR VChar :=
  (cclassParse is_vchar input).map (fun p => (⟨p.1⟩, p.2))

/-- `WSP::parse`. -/
def WSP.parse (input : List Nat) : PR WSP :=
  (cclassParse is_wsp input).map (fun p => (⟨p.1⟩, p.2))

/-- `CText::parse`. -/
def CText.parse (input : List Nat) : PR CText :=
  (cclassParse is_ctext input).map (fun p => (⟨p.1⟩, p.2))

/-- `AText::parse`. -/
def AText.parse (input : List Nat) : PR AText :=
  (cclassParse is_atext input).map (fun p => (⟨p.1⟩, p.2))

/-- `QText::parse`. -/
def QText.parse (input : List Nat) : PR QText :=
  (cclassParse is_qtext input).map (fun p => (⟨p.1⟩, p.2))

/-- `DText::parse`. -/
def DText.parse (input : List Nat) : PR DText :=
  (cclassParse is_dtext input).map (fun p => (⟨p.1⟩, p.2))

/-- `FText::parse`. -/
def FText.parse (input : List Nat) : PR FText :=
  (cclassParse is_ftext input).map (fun p => (⟨p.1⟩, p.2))

/-- `Text::parse` (from `mod.rs`). -/
def Text.parse (input : List Nat) : PR Text :=
  (cclassParse is_text input).map (fun p => (⟨p.1⟩, p.2))

/-- `QuotedPair::parse`: a backslash followed by one VCHAR-or-WSP byte. -/
def QuotedPair.parse (input : List Nat) : PR QuotedPair :=
  match input with
  | [] => .error (.Eof "Quoted Pair")
  | [_] => .error (.NotFound "Quoted Pair")
  | b0 :: b1 :: rest =>
    if b0 ≠ 92 then .error (.NotFound "Quoted Pair")
    else if is_vchar b1 || is_wsp b1 then .ok (⟨b1⟩, rest)
    else .error (.NotFound "Quoted Pair")

/-- The scanning loop of `FWS::parse`: repeatedly drop a WSP byte, or a
CRLF followed by a WSP byte (the source requires `rem.len() > 2` for the
folding step, i.e. at least three remaining bytes). -/
def fwsAux : List Nat → List Nat
  | [] => []
  | b :: rest =>
    if is_wsp b then fwsAux rest
    else
      match rest with
      | b2 :: c :: rest2 =>
        if b == 13 && b2 == 10 && is_wsp c then fwsAux rest2 else b :: rest
      | _ => b :: rest

/-- `FWS::parse`: fails on empty input with `Eof` and with `NotFound` when
zero bytes were consumed. -/
def FWS.parse (input : List Nat) : PR FWS :=
  if input.length = 0 then .error (.Eof "Folding White Space")
  else
    let rem := fwsAux input
    if rem.length = input.length then .error (.NotFound "Folding White Space")
    else .ok (⟨⟩, rem)

/-- `QContent::parse`: qtext, else quoted-pair. -/
def QContent.parse (input : List Nat) : PR QContent :=
  if input.length = 0 then .error (.Eof "QContent")
  else
    match QText.parse input with
    | .ok (x, rem) => .ok (.QText x, rem)
    | .error _ =>
      match QuotedPair.parse input with
      | .ok (x, rem) => .ok (.QuotedPair x, rem)
      | .error _ => .error (.NotFound "QContent")

mutual
/-- `Comment::parse` (fuel-passing): `"("`, then the content loop, then
`")"`.  Out of fuel means `InternalError` (unreachable at wrapper fuel). -/
def commentParse : Nat → List Nat → PR Comment
  | 0, _ => .error .InternalError
  | fuel+1, input =>
    if input.length = 0 then .error (.Eof "Comment")
    else
      match req input [40] with
      | .error e => .error e
      | .ok rem =>
        match commentLoop fuel false rem with
        | (ccontent, ws, rem2) =>
          match req rem2 [41] with
          | .error e => .error e
          | .ok rem3 => .ok (.mk ccontent ws, rem3)
/-- The `while rem.len() > 0 { FWS?; ccontent }` loop of `Comment::parse`.
Returns the collected (ws, ccontent) pairs, the last ws flag, and the
remainder; out of fuel stops the loop. -/
def commentLoop : Nat → Bool → List Nat → List (Bool × CContent) × Bool × List Nat
  | 0, ws, rem => ([], ws, rem)
  | fuel+1, ws, rem =>
    if rem.length = 0 then ([], ws, rem)
    else
      let st := match FWS.parse rem with
        | .ok (_, r) => (true, r)
        | .error _ => (false, rem)
      match ccontentParse fuel st.2 with
      | .ok (cc, rem2) =>
        match commentLoop fuel st.1 rem2 with
        | (l, wfin, rfin) => ((st.1, cc) :: l, wfin, rfin)
      | .error _ => ([], st.1, st.2)
/-- `CContent::parse`: ctext, else quoted-pair, else nested comment. -/
def ccontentParse : Nat → List Nat → PR CContent
  | 0, _ => .error .InternalError
  | fuel+1, input =>
    match CText.parse input with
    | .ok (x, rem) => .ok (.CText x, rem)
    | .error _ =>
      match QuotedPair.parse input with
      | .ok (x, rem) => .ok (.QuotedPair x, rem)
      | .error _ =>
        match commentParse fuel input with
        | .ok (x, rem) => .ok (.Comment x, rem)
        | .error _ => .error (.NotFound "CContent")
end

/-- The `while rem.len() > 0 { FWS?; comment }` loop of `CFWS::parse`. -/
def cfwsLoop : Nat → Bool → List Nat → List (Bool × Comment) × Bool × List Nat
  | 0, ws, rem => ([], ws, rem)
  | fuel+1, ws, rem =>
    if rem.length = 0 then ([], ws, rem)
    else
      let st := match FWS.parse rem with
        | .ok (_, r) => (true, r)
        | .error _ => (false, rem)
      match commentParse fuel st.2 with
      | .ok (c, rem2) =>
        match cfwsLoop fuel st.1 rem2 with
        | (l, wfin, rfin) => ((st.1, c) :: l, wfin, rfin)
      | .error _ => ([], st.1, st.2)

/-- `CFWS::parse`: one-or-more (ws?, comment) pairs or bare FWS; fails with
`NotFound` when neither a comment nor whitespace was consumed. -/
def cfwsParse (fuel : Nat) (input : List Nat) : PR CFWS :=
  if input.length = 0 then .error (.Eof "Comment Folding White Space")
  else
    match cfwsLoop fuel false input with
    | (comments, ws, rem) =>
      if comments.length > 0 || ws then .ok (⟨comments, ws⟩, rem)
      else .error (.NotFound "Comment Folding White Space")

/-- `Atom::parse`: `[CFWS] 1*atext [CFWS]`. -/
def atomParse (fuel : Nat) (input : List Nat) : PR Atom :=
  if input.length = 0 then .error (.Eof "Atom")
  else
    let (pre, rem) := tryParse (cfwsParse fuel) input
    match AText.parse rem with
    | .ok (a, rem2) =>
      let (post, rem3) := tryParse (cfwsParse fuel) rem2
      .ok (⟨pre, a, post⟩, rem3)
    | .error _ => .error (.NotFound "Atom")

/-- The `*("." 1*atext)` loop of `DotAtomText::parse`: consume a dot only
when an atext run follows it. -/
def datLoop : Nat → List Nat → List AText × List Nat
  | 0, rem => ([], rem)
  | fuel+1, rem =>
    match rem with
    | [] => ([], [])
    | b :: rest =>
      if b ≠ 46 then ([], b :: rest)
      else
        match AText.parse rest with
        | .ok (part, r) =>
          let (parts, fin) := datLoop fuel r
          (part :: parts, fin)
        | .error _ => ([], b :: rest)

/-- `DotAtomText::parse`: a required atext run, then the dot loop; the
error of the first run is propagated unchanged. -/
def dotAtomTextParse (fuel : Nat) (input : List Nat) : PR DotAtomText :=
  match AText.parse input with
  | .error e => .error e
  | .ok (part, rem) =>
    let (parts, fin) := datLoop fuel rem
    .ok (⟨part :: parts⟩, fin)

/-- `DotAtom::parse`: `[CFWS] dot-atom-text [CFWS]`. -/
def dotAtomParse (fuel : Nat) (input : List Nat) : PR DotAtom :=
  if input.length = 0 then .error (.Eof "DotAtom")
  else
    let (pre, rem) := tryParse (cfwsParse fuel) input
    match dotAtomTextParse fuel rem with
    | .ok (dat, rem2) =>
      let (post, rem3) := tryParse (cfwsParse fuel) rem2
      .ok (⟨pre, dat, post⟩, rem3)
    | .error _ => .error (.NotFound "DotAtom")

/-- The `while rem.len() > 0 { FWS?; qcontent }` loop of
`QuotedString::parse`. -/
def qsLoop : Nat → Bool → List Nat → List (Bool × QContent) × Bool × List Nat
  | 0, ws, rem => ([], ws, rem)
  | fuel+1, ws, rem =>
    if rem.length = 0 then ([], ws, rem)
    else
      let st := match FWS.parse rem with
        | .ok (_, r) => (true, r)
        | .error _ => (false, rem)
      match QContent.parse st.2 with
      | .ok (qc, rem2) =>
        match qsLoop fuel st.1 rem2 with
        | (l, wfin, rfin) => ((st.1, qc) :: l, wfin, rfin)
      | .error _ => ([], st.1, st.2)

/-- `QuotedString::parse`: `[CFWS] DQUOTE *([FWS] qcontent) [FWS] DQUOTE
[CFWS]`; an unterminated quote is a hard failure from `req!`. -/
def quotedStringParse (fuel : Nat) (input : List Nat) : PR QuotedString :=
  if input.length = 0 then .error (.Eof "QuotedString")
  else
    let (pre, rem) := tryParse (cfwsParse fuel) input
    match req rem [34] with
    | .error e => .error e
    | .ok rem1 =>
      match qsLoop fuel false rem1 with
      | (qcontent, ws, rem2) =>
        match req rem2 [34] with
        | .error e => .error e
        | .ok rem3 =>
          let (post, rem4) := tryParse (cfwsParse fuel) rem3
          .ok (⟨pre, qcontent, ws, post⟩, rem4)

/-- `Word::parse`: atom, else quoted-string. -/
def wordParse (fuel : Nat) (input : List Nat) : PR Word :=
  if input.length = 0 then .error (.Eof "Word")
  else
    match atomParse fuel input with
    | .ok (x, rem) => .ok (.Atom x, rem)
    | .error _ =>
      match quotedStringParse fuel input with
      | .ok (x, rem) => .ok (.QuotedString x, rem)
      | .error _ => .error (.NotFound "Word")

/-- The `while let Ok(word) = parse!(Word, rem)` loop of `Phrase::parse`. -/
def phraseLoop : Nat → List Nat → List Word × List Nat
  | 0, rem => ([], rem)
  | fuel+1, rem =>
    match wordParse fuel rem with
    | .ok (w, r) =>
      let (ws, fin) := phraseLoop fuel r
      (w :: ws, fin)
    | .error _ => ([], rem)

/-- `Phrase::parse`: `1*word`. -/
def phraseParse (fuel : Nat) (input : List Nat) : PR Phrase :=
  if input.length = 0 then .error (.Eof "Phrase")
  else
    let (output, rem) := phraseLoop fuel input
    if output.length = 0 then .error (.NotFound "Phrase")
    else .ok (⟨output⟩, rem)

/-- The lookahead loop of `Unstructured::parse`: tentatively consume FWS,
keep it only when a VChar run follows (otherwise the FWS is left for the
caller and the loop stops). -/
def unstrLoop : Nat → List Nat → List VChar × List Nat
  | 0, rem => ([], rem)
  | fuel+1, rem =>
    if rem.length = 0 then ([], rem)
    else
      let rem2 := match FWS.parse rem with
        | .ok (_, r) => r
        | .error _ => rem
      match VChar.parse rem2 with
      | .ok (v, r) =>
        let (vs, fin) := unstrLoop fuel r
        (v :: vs, fin)
      | .error _ => ([], rem)

/-- `Unstructured::parse`: leading-FWS flag, VChar runs with the
FWS-lookahead, then a trailing-WSP flag; `NotFound` when no VChar run was
found. -/
def unstructuredParse (fuel : Nat) (input : List Nat) : PR Unstructured :=
  if input.length = 0 then .error (.Eof "Unstructured")
  else
    let (lead, rem) := tryParse FWS.parse input
    match unstrLoop fuel rem with
    | (output, rem2) =>
      if output.length = 0 then .error (.NotFound "Unstructured")
      else
        let (t, rem3) := tryParse WSP.parse rem2
        .ok (⟨lead.isSome, output, t.isSome⟩, rem3)

/-- `LocalPart::parse`: dot-atom, else quoted-string. -/
def localPartParse (fuel : Nat) (input : List Nat) : PR LocalPart :=
  if input.length = 0 then .error (.Eof "LocalPart")
  else
    match dotAtomParse fuel input with
    | .ok (x, rem) => .ok (.DotAtom x, rem)
    | .error _ =>
      match quotedStringParse fuel input with
      | .ok (x, rem) => .ok (.QuotedString x, rem)
      | .error _ => .error (.NotFound "LocalPart")

/-- The `while rem.len() > 0 { FWS?; dtext }` loop of
`DomainLiteral::parse`. -/
def dlLoop : Nat → Bool → List Nat → List (Bool × DText) × Bool × List Nat
  | 0, ws, rem => ([], ws, rem)
  | fuel+1, ws, rem =>
    if rem.length = 0 then ([], ws, rem)
    else
      let st := match FWS.parse rem with
        | .ok (_, r) => (true, r)
        | .error _ => (false, rem)
      match DText.parse st.2 with
      | .ok (d, rem2) =>
        match dlLoop fuel st.1 rem2 with
        | (l, wfin, rfin) => ((st.1, d) :: l, wfin, rfin)
      | .error _ => ([], st.1, st.2)

/-- `DomainLiteral::parse`: `[CFWS] "[" *([FWS] dtext) [FWS] "]" [CFWS]`. -/
def domainLiteralParse (fuel : Nat) (input : List Nat) : PR DomainLiteral :=
  if input.length = 0 then .error (.Eof "DomainLiteral")
  else
    let (pre, rem) := tryParse (cfwsParse fuel) input
    match req rem [91] with
    | .error e => .error e
    | .ok rem1 =>
      match dlLoop fuel false rem1 with
      | (dtext, ws, rem2) =>
        match req rem2 [93] with
        | .error e => .error e
        | .ok rem3 =>
          let (post, rem4) := tryParse (cfwsParse fuel) rem3
          .ok (⟨pre, dtext, ws, post⟩, rem4)

/-- `Domain::parse`: dot-atom, else domain-literal. -/
def domainParse (fuel : Nat) (input : List Nat) : PR Domain :=
  if input.length = 0 then .error (.Eof "Domain")
  else
    match dotAtomParse fuel input with
    | .ok (x, rem) => .ok (.DotAtom x, rem)
    | .error _ =>
      match domainLiteralParse fuel input with
      | .ok (x, rem) => .ok (.DomainLiteral x, rem)
      | .error _ => .error (.NotFound "Domain")

/-- `AddrSpec::parse`: `local-part "@" domain`; any failure of the
sub-parses or a missing `@` yields `NotFound` for the whole production. -/
def addrSpecParse (fuel : Nat) (input : List Nat) : PR AddrSpec :=
  if input.length = 0 then .error (.Eof "AddrSpec")
  else
    match localPartParse fuel input with
    | .ok (lp, rem) =>
      match rem with
      | 64 :: rest =>
        match domainParse fuel rest with
        | .ok (d, rem2) => .ok (⟨lp, d⟩, rem2)
        | .error _ => .error (.NotFound "AddrSpec")
      | _ => .error (.NotFound "AddrSpec")
    | .error _ => .error (.NotFound "AddrSpec")

end EmailFormat

namespace EmailFormat

/-- `AngleAddr::parse`: `[CFWS] "<" addr-spec ">" [CFWS]`; the `req!`
failures propagate, an addr-spec failure yields `NotFound`. -/
def angleAddrParse (fuel : Nat) (input : List Nat) : PR AngleAddr :=
  if input.length = 0 then .error (.Eof "AngleAddr")
  else
    let (pre, rem) := tryParse (cfwsParse fuel) input
    match req rem [60] with
    | .error e => .error e
    | .ok rem1 =>
      match addrSpecParse fuel rem1 with
      | .ok (a, rem2) =>
        match req rem2 [62] with
        | .error e => .error e
        | .ok rem3 =>
          let (post, rem4) := tryParse (cfwsParse fuel) rem3
          .ok (⟨pre, a, post⟩, rem4)
      | .error _ => .error (.NotFound "AngleAddr")

/-- `DisplayName::parse`: a phrase. -/
def displayNameParse (fuel : Nat) (input : List Nat) : PR DisplayName :=
  (phraseParse fuel input).map (fun p => (⟨p.1⟩, p.2))

/-- `NameAddr::parse`: `[display-name] angle-addr`. -/
def nameAddrParse (fuel : Nat) (input : List Nat) : PR NameAddr :=
  if input.length = 0 then .error (.Eof "NameAddr")
  else
    let (dn, rem) := tryParse (displayNameParse fuel) input
    match angleAddrParse fuel rem with
    | .ok (aa, rem2) => .ok (⟨dn, aa⟩, rem2)
    | .error _ => .error (.NotFound "NameAddr")

/-- `Mailbox::parse`: name-addr, else addr-spec. -/
def mailboxParse (fuel : Nat) (input : List Nat) : PR Mailbox :=
  if input.length = 0 then .error (.Eof "Mailbox")
  else
    match nameAddrParse fuel input with
    | .ok (x, rem) => .ok (.NameAddr x, rem)
    | .error _ =>
      match addrSpecParse fuel input with
      | .ok (x, rem) => .ok (.AddrSpec x, rem)
      | .error _ => .error (.NotFound "Mailbox")

/-- The element/comma loop of `MailboxList::parse`: `savedrem` is the
position after the last successful element, restored when an element
attempt after a comma fails (a trailing comma is left in the remainder). -/
def mbListLoop : Nat → List Nat → List Nat → List Mailbox × List Nat
  | 0, saved, _ => ([], saved)
  | fuel+1, saved, rem =>
    match mailboxParse fuel rem with
    | .error _ => ([], saved)
    | .ok (mb, rem1) =>
      if rem1.length = 0 ∨ rem1.head? ≠ some 44 then ([mb], rem1)
      else
        let (rest, fin) := mbListLoop fuel rem1 (rem1.drop 1)
        (mb :: rest, fin)

/-- `MailboxList::parse`: `mailbox *("," mailbox)`. -/
def mailboxListParse (fuel : Nat) (input : List Nat) : PR MailboxList :=
  if input.length = 0 then .error (.Eof "Mailbox List")
  else
    let (output, rem) := mbListLoop fuel input input
    if output.length = 0 then .error (.NotFound "MailboxList")
    else .ok (⟨output⟩, rem)

/-- `GroupList::parse`: mailbox-list, else CFWS. -/
def groupListParse (fuel : Nat) (input : List Nat) : PR GroupList :=
  if input.length = 0 then .error (.Eof "Group List")
  else
    match mailboxListParse fuel input with
    | .ok (x, rem) => .ok (.MailboxList x, rem)
    | .error _ =>
      match cfwsParse fuel input with
      | .ok (x, rem) => .ok (.CFWS x, rem)
      | .error _ => .error (.NotFound "GroupList")

/-- `Group::parse`: `display-name ":" [group-list] ";" [CFWS]`. -/
def groupParse (fuel : Nat) (input : List Nat) : PR Group :=
  if input.length = 0 then .error (.Eof "Group")
  else
    match displayNameParse fuel input with
    | .ok (dn, rem) =>
      match req rem [58] with
      | .error e => .error e
      | .ok rem1 =>
        let (gl, rem2) := tryParse (groupListParse fuel) rem1
        match req rem2 [59] with
        | .error e => .error e
        | .ok rem3 =>
          let (c, rem4) := tryParse (cfwsParse fuel) rem3
          .ok (⟨dn, gl, c⟩, rem4)
    | .error _ => .error (.NotFound "Group")

/-- `Address::parse`: mailbox, else group. -/
def addressParse (fuel : Nat) (input : List Nat) : PR Address :=
  if input.length = 0 then .error (.Eof "Address")
  else
    match mailboxParse fuel input with
    | .ok (x, rem) => .ok (.Mailbox x, rem)
    | .error _ =>
      match groupParse fuel input with
      | .ok (x, rem) => .ok (.Group x, rem)
      | .error _ => .error (.NotFound "Address")

/-- The element/comma loop of `AddressList::parse` (same shape as the
mailbox-list loop). -/
def alListLoop : Nat → List Nat → List Nat → List Address × List Nat
  | 0, saved, _ => ([], saved)
  | fuel+1, saved, rem =>
    match addressParse fuel rem with
    | .error _ => ([], saved)
    | .ok (a, rem1) =>
      if rem1.length = 0 ∨ rem1.head? ≠ some 44 then ([a], rem1)
      else
        let (rest, fin) := alListLoop fuel rem1 (rem1.drop 1)
        (a :: rest, fin)

/-- `AddressList::parse`: `address *("," address)`. -/
def addressListParse (fuel : Nat) (input : List Nat) : PR AddressList :=
  if input.length = 0 then .error (.Eof "Address List")
  else
    let (output, rem) := alListLoop fuel input input
    if output.length = 0 then .error (.NotFound "AddressList")
    else .ok (⟨output⟩, rem)

/-! ### Parsers: date/time layer -/

/-- `Zone::parse`: required FWS, a sign, then exactly four digits. -/
def Zone.parse (input : List Nat) : PR Zone :=
  if input.length = 0 then .error (.Eof "Zone")
  else
    match FWS.parse input with
    | .error _ => .error (.NotFound "Zone")
    | .ok (_, rem) =>
      if rem.length < 5 then .error (.NotFound "Zone")
      else
        match rem with
        | b0 :: b1 :: b2 :: b3 :: b4 :: rest =>
          let sign : Int := if b0 = 43 then 1 else if b0 = 45 then -1 else 0
          if sign = 0 then .error (.NotFound "Zone")
          else if !is_digit b1 || !is_digit b2 || !is_digit b3 || !is_digit b4 then
            .error (.NotFound "Zone")
          else
            let v : Int := (1000 * ((b1 : Int) - 48) + 100 * ((b2 : Int) - 48)
              + 10 * ((b3 : Int) - 48) + ((b4 : Int) - 48)) * sign
            .ok (⟨v⟩, rest)
        | _ => .error (.NotFound "Zone")

/-- `Second::parse`: exactly two digits. -/
def Second.parse (input : List Nat) : PR Second :=
  match input with
  | [] => .error (.Eof "Second")
  | [_] => .error (.NotFound "Second")
  | b0 :: b1 :: rest =>
    if !is_digit b0 || !is_digit b1 then .error (.NotFound "Second")
    else .ok (⟨10 * (b0 - 48) + (b1 - 48)⟩, rest)

/-- `Minute::parse`: exactly two digits. -/
def Minute.parse (input : List Nat) : PR Minute :=
  match input with
  | [] => .error (.Eof "Minute")
  | [_] => .error (.NotFound "Minute")
  | b0 :: b1 :: rest =>
    if !is_digit b0 || !is_digit b1 then .error (.NotFound "Minute")
    else .ok (⟨10 * (b0 - 48) + (b1 - 48)⟩, rest)

/-- `Hour::parse`: exactly two digits. -/
def Hour.parse (input : List Nat) : PR Hour :=
  match input with
  | [] => .error (.Eof "Hour")
  | [_] => .error (.NotFound "Hour")
  | b0 :: b1 :: rest =>
    if !is_digit b0 || !is_digit b1 then .error (.NotFound "Hour")
    else .ok (⟨10 * (b0 - 48) + (b1 - 48)⟩, rest)

/-- `TimeOfDay::parse`: `hour ":" minute [":" second]`, rolling back the
colon when no second follows it. -/
def TimeOfDay.parse (input : List Nat) : PR TimeOfDay :=
  if input.length = 0 then .error (.Eof "TimeOfDay")
  else
    match Hour.parse input with
    | .ok (h, rem) =>
      match req rem [58] with
      | .error e => .error e
      | .ok rem1 =>
        match Minute.parse rem1 with
        | .ok (m, rem2) =>
          match rem2 with
          | 58 :: rest =>
            match Second.parse rest with
            | .ok (s, rem3) => .ok (⟨h, m, some s⟩, rem3)
            | .error _ => .ok (⟨h, m, none⟩, rem2)
          | _ => .ok (⟨h, m, none⟩, rem2)
        | .error _ => .error (.NotFound "TimeOfDay")
    | .error _ => .error (.NotFound "TimeOfDay")

/-- `Time::parse`: `time-of-day zone`. -/
def Time.parse (input : List Nat) : PR Time :=
  if input.length = 0 then .error (.Eof "Time")
  else
    match TimeOfDay.parse input with
    | .ok (tod, rem) =>
      match Zone.parse rem with
      | .ok (z, rem2) => .ok (⟨tod, z⟩, rem2)
      | .error _ => .error (.NotFound "Time")
    | .error _ => .error (.NotFound "Time")

/-- `Year::parse`: required FWS, four digits (with a fifth byte required to
be present), required FWS. -/
def Year.parse (input : List Nat) : PR Year :=
  if input.length = 0 then .error (.Eof "Year")
  else
    match FWS.parse input with
    | .error _ => .error (.NotFound "Year")
    | .ok (_, rem) =>
      if rem.length < 5 then .error (.NotFound "Year")
      else
        match rem with
        | b0 :: b1 :: b2 :: b3 :: rest =>
          if !is_digit b0 || !is_digit b1 || !is_digit b2 || !is_digit b3 then
            .error (.NotFound "Year")
          else
            let v := 1000 * (b0 - 48) + 100 * (b1 - 48) + 10 * (b2 - 48) + (b3 - 48)
            match FWS.parse rest with
            | .error _ => .error (.NotFound "Year")
            | .ok (_, rem2) => .ok (⟨v⟩, rem2)
        | _ => .error (.NotFound "Year")

/-- `Month::parse`: case-insensitive three-letter month name. -/
def Month.parse (input : List Nat) : PR Month :=
  if input.length = 0 then .error (.Eof "Month")
  else if input.length < 3 then .error (.NotFound "Month")
  else
    let three := (input.take 3).map toLower
    let rem := input.drop 3
    if three = strBytes "jan" then .ok (⟨1⟩, rem)
    else if three = strBytes "feb" then .ok (⟨2⟩, rem)
    else if three = strBytes "mar" then .ok (⟨3⟩, rem)
    else if three = strBytes "apr" then .ok (⟨4⟩, rem)
    else if three = strBytes "may" then .ok (⟨5⟩, rem)
    else if three = strBytes "jun" then .ok (⟨6⟩, rem)
    else if three = strBytes "jul" then .ok (⟨7⟩, rem)
    else if three = strBytes "aug" then .ok (⟨8⟩, rem)
    else if three = strBytes "sep" then .ok (⟨9⟩, rem)
    else if three = strBytes "oct" then .ok (⟨10⟩, rem)
    else if three = strBytes "nov" then .ok (⟨11⟩, rem)
    else if three = strBytes "dec" then .ok (⟨12⟩, rem)
    else .error (.NotFound "Month")

/-- `Day::parse`: optional FWS, one or two digits (with at least three
bytes remaining), required FWS. -/
def Day.parse (input : List Nat) : PR Day :=
  if input.length = 0 then .error (.Eof "Day")
  else
    let (_, rem) := tryParse FWS.parse input
    if rem.length < 3 then .error (.NotFound "Day")
    else
      match rem with
      | b0 :: b1 :: rest =>
        if !is_digit b0 || (!is_digit b1 && !is_wsp b1) then .error (.NotFound "Day")
        else
          let (v, rem2) :=
            if is_digit b1 then (10 * (b0 - 48) + (b1 - 48), rest)
            else (b0 - 48, b1 :: rest)
          match FWS.parse rem2 with
          | .error _ => .error (.NotFound "Day")
          | .ok (_, rem3) => .ok (⟨v⟩, rem3)
      | _ => .error (.NotFound "Day")

/-- `Date::parse`: `day month year`. -/
def Date.parse (input : List Nat) : PR Date :=
  if input.length = 0 then .error (.Eof "Date")
  else
    match Day.parse input with
    | .ok (d, rem) =>
      match Month.parse rem with
      | .ok (m, rem2) =>
        match Year.parse rem2 with
        | .ok (y, rem3) => .ok (⟨d, m, y⟩, rem3)
        | .error _ => .error (.NotFound "Date")
      | .error _ => .error (.NotFound "Date")
    | .error _ => .error (.NotFound "Date")

/-- `DayName::parse`: case-insensitive three-letter day name (Sun=1). -/
def DayName.parse (input : List Nat) : PR DayName :=
  if input.length = 0 then .error (.Eof "DayName")
  else if input.length < 3 then .error (.NotFound "DayName")
  else
    let three := (input.take 3).map toLower
    let rem := input.drop 3
    if three = strBytes "sun" then .ok (⟨1⟩, rem)
    else if three = strBytes "mon" then .ok (⟨2⟩, rem)
    else if three = strBytes "tue" then .ok (⟨3⟩, rem)
    else if three = strBytes "wed" then .ok (⟨4⟩, rem)
    else if three = strBytes "thu" then .ok (⟨5⟩, rem)
    else if three = strBytes "fri" then .ok (⟨6⟩, rem)
    else if three = strBytes "sat" then .ok (⟨7⟩, rem)
    else .error (.NotFound "DayName")

/-- `DayOfWeek::parse`: `[FWS] day-name`. -/
def DayOfWeek.parse (input : List Nat) : PR DayOfWeek :=
  if input.length = 0 then .error (.Eof "DayOfWeek")
  else
    let (f, rem) := tryParse FWS.parse input
    match DayName.parse rem with
    | .ok (dn, rem2) => .ok (⟨f, dn⟩, rem2)
    | .error _ => .error (.NotFound "DayOfWeek")

/-- `DateTime::parse`: the optional `day-of-week ","` prefix is kept only
when a comma immediately follows the day name, otherwise parsing restarts
from the original position. -/
def dateTimeParse (fuel : Nat) (input : List Nat) : PR DateTime :=
  if input.length = 0 then .error (.Eof "DateTime")
  else
    let (dow, rem) :=
      match DayOfWeek.parse input with
      | .ok (d, r) =>
        if r.length ≠ 0 ∧ r.head? = some 44 then (some d, r.drop 1) else (none, input)
      | .error _ => (none, input)
    match Date.parse rem with
    | .ok (date, rem1) =>
      match Time.parse rem1 with
      | .ok (time, rem2) =>
        let (post, rem3) := tryParse (cfwsParse fuel) rem2
        .ok (⟨dow, date, time, post⟩, rem3)
      | .error _ => .error (.NotFound "DateTime")
    | .error _ => .error (.NotFound "DateTime")

end EmailFormat

namespace EmailFormat

/-! ### Parsers: message-id, received-token, path, field-name -/

/-- `NoFoldLiteral::parse`: `"[" *dtext "]"` (the dtext run is in fact
required — a failure yields `NotFound`). -/
def NoFoldLiteral.parse (input : List Nat) : PR NoFoldLiteral :=
  if input.length = 0 then .error (.Eof "No-Fold Literal")
  else
    match req input [91] with
    | .error e => .error e
    | .ok rem =>
      match DText.parse rem with
      | .ok (d, rem1) =>
        match req rem1 [93] with
        | .error e => .error e
        | .ok rem2 => .ok (⟨d⟩, rem2)
      | .error _ => .error (.NotFound "No-Fold Literal")

/-- `IdRight::parse`: dot-atom-text, else no-fold-literal. -/
def idRightParse (fuel : Nat) (input : List Nat) : PR IdRight :=
  if input.length = 0 then .error (.Eof "Id-right")
  else
    match dotAtomTextParse fuel input with
    | .ok (x, rem) => .ok (.DotAtomText x, rem)
    | .error _ =>
      match NoFoldLiteral.parse input with
      | .ok (x, rem) => .ok (.NoFoldLiteral x, rem)
      | .error _ => .error (.NotFound "Id-right")

/-- `IdLeft::parse`: dot-atom-text. -/
def idLeftParse (fuel : Nat) (input : List Nat) : PR IdLeft :=
  if input.length = 0 then .error (.Eof "Id-left")
  else
    match dotAtomTextParse fuel input with
    | .ok (dat, rem) => .ok (⟨dat⟩, rem)
    | .error _ => .error (.NotFound "Id-left")

/-- `MsgId::parse`: `[CFWS] "<" id-left "@" id-right ">" [CFWS]`; id-left
and id-right errors propagate unchanged. -/
def msgIdParse (fuel : Nat) (input : List Nat) : PR MsgId :=
  if input.length = 0 then .error (.Eof "MsgId")
  else
    let (pre, rem) := tryParse (cfwsParse fuel) input
    match req rem [60] with
    | .error e => .error e
    | .ok rem1 =>
      match idLeftParse fuel rem1 with
      | .error e => .error e
      | .ok (idl, rem2) =>
        match req rem2 [64] with
        | .error e => .error e
        | .ok rem3 =>
          match idRightParse fuel rem3 with
          | .error e => .error e
          | .ok (idr, rem4) =>
            match req rem4 [62] with
            | .error e => .error e
            | .ok rem5 =>
              let (post, rem6) := tryParse (cfwsParse fuel) rem5
              .ok (⟨pre, idl, idr, post⟩, rem6)

/-- `ReceivedToken::parse`: word / angle-addr / addr-spec / domain. -/
def receivedTokenParse (fuel : Nat) (input : List Nat) : PR ReceivedToken :=
  if input.length = 0 then .error (.Eof "Received Token")
  else
    match wordParse fuel input with
    | .ok (x, rem) => .ok (.Word x, rem)
    | .error _ =>
      match angleAddrParse fuel input with
      | .ok (x, rem) => .ok (.AngleAddr x, rem)
      | .error _ =>
        match addrSpecParse fuel input with
        | .ok (x, rem) => .ok (.AddrSpec x, rem)
        | .error _ =>
          match domainParse fuel input with
          | .ok (x, rem) => .ok (.Domain x, rem)
          | .error _ => .error (.NotFound "Received Token")

/-- `Path::parse`: angle-addr, else `[CFWS] "<" [CFWS] ">" [CFWS]` (this
parser has no leading empty-input check; `req!` supplies `Eof`). -/
def pathParse (fuel : Nat) (input : List Nat) : PR Path :=
  match angleAddrParse fuel input with
  | .ok (aa, rem) => .ok (.AngleAddr aa, rem)
  | .error _ =>
    let (c1, rem1) := tryParse (cfwsParse fuel) input
    match req rem1 [60] with
    | .error e => .error e
    | .ok rem2 =>
      let (c2, rem3) := tryParse (cfwsParse fuel) rem2
      match req rem3 [62] with
      | .error e => .error e
      | .ok rem4 =>
        let (c3, rem5) := tryParse (cfwsParse fuel) rem4
        .ok (.Other c1 c2 c3, rem5)

/-- `FieldName::parse`: `1*ftext`. -/
def FieldName.parse (input : List Nat) : PR FieldName :=
  match FText.parse input with
  | .ok (f, rem) => .ok (⟨f⟩, rem)
  | .error _ => .error (.NotFound "Field Name")

end EmailFormat

namespace EmailFormat

/-! ### Parsers: header fields (`headers.rs`) -/

/-- `OrigDate::parse`: `"Date:" date-time CRLF`; a date-time failure is
wrapped as `Parse("Date", e)`. -/
def origDateParse (fuel : Nat) (input : List Nat) : PR OrigDate :=
  if input.length = 0 then .error (.Eof "Date")
  else
    match req_name input "date:" with
    | .error e => .error e
    | .ok rem =>
      match dateTimeParse fuel rem with
      | .ok (dt, rem1) =>
        match req_crlf rem1 with
        | .error e => .error e
        | .ok rem2 => .ok (⟨dt⟩, rem2)
      | .error e => .error (.Parse "Date" e)

/-- `From::parse`: `"From:" mailbox-list CRLF`. -/
def fromParse (fuel : Nat) (input : List Nat) : PR From :=
  if input.length = 0 then .error (.Eof "From")
  else
    match req_name input "from:" with
    | .error e => .error e
    | .ok rem =>
      match mailboxListParse fuel rem with
      | .ok (ml, rem1) =>
        match req_crlf rem1 with
        | .error e => .error e
        | .ok rem2 => .ok (⟨ml⟩, rem2)
      | .error e => .error (.Parse "From" e)

/-- `Sender::parse`: `"Sender:" mailbox CRLF`. -/
def senderParse (fuel : Nat) (input : List Nat) : PR Sender :=
  if input.length = 0 then .error (.Eof "Sender")
  else
    match req_name input "sender:" with
    | .error e => .error e
    | .ok rem =>
      match mailboxParse fuel rem with
      | .ok (mb, rem1) =>
        match req_crlf rem1 with
        | .error e => .error e
        | .ok rem2 => .ok (⟨mb⟩, rem2)
      | .error e => .error (.Parse "Sender" e)

/-- `ReplyTo::parse`: `"Reply-To:" address-list CRLF`. -/
def replyToParse (fuel : Nat) (input : List Nat) : PR ReplyTo :=
  if input.length = 0 then .error (.Eof "Reply-To")
  else
    match req_name input "reply-to:" with
    | .error e => .error e
    | .ok rem =>
      match addressListParse fuel rem with
      | .ok (al, rem1) =>
        match req_crlf rem1 with
        | .error e => .error e
        | .ok rem2 => .ok (⟨al⟩, rem2)
      | .error e => .error (.Parse "Reply-To" e)

/-- `To::parse`: `"To:" address-list CRLF`. -/
def toParse (fuel : Nat) (input : List Nat) : PR To :=
  if input.length = 0 then .error (.Eof "To")
  else
    match req_name input "to:" with
    | .error e => .error e
    | .ok rem =>
      match addressListParse fuel rem with
      | .ok (al, rem1) =>
        match req_crlf rem1 with
        | .error e => .error e
        | .ok rem2 => .ok (⟨al⟩, rem2)
      | .error e => .error (.Parse "To" e)

/-- `Cc::parse`: `"Cc:" address-list CRLF`. -/
def ccParse (fuel : Nat) (input : List Nat) : PR Cc :=
  if input.length = 0 then .error (.Eof "Cc")
  else
    match req_name input "cc:" with
    | .error e => .error e
    | .ok rem =>
      match addressListParse fuel rem with
      | .ok (al, rem1) =>
        match req_crlf rem1 with
        | .error e => .error e
        | .ok rem2 => .ok (⟨al⟩, rem2)
      | .error e => .error (.Parse "Cc" e)

/-- `Bcc::parse`: `"Bcc:" [address-list / CFWS] CRLF`; once an alternative
matched, a CRLF failure is returned, not backtracked. -/
def bccParse (fuel : Nat) (input : List Nat) : PR Bcc :=
  if input.length = 0 then .error (.Eof "Bcc")
  else
    match req_name input "bcc:" with
    | .error e => .error e
    | .ok rem =>
      match addressListParse fuel rem with
      | .ok (x, rem1) =>
        match req_crlf rem1 with
        | .error e => .error e
        | .ok rem2 => .ok (.AddressList x, rem2)
      | .error _ =>
        match cfwsParse fuel rem with
        | .ok (x, rem1) =>
          match req_crlf rem1 with
          | .error e => .error e
          | .ok rem2 => .ok (.CFWS x, rem2)
        | .error _ =>
          match req_crlf rem with
          | .error e => .error e
          | .ok rem1 => .ok (.Empty, rem1)

/-- `MessageId::parse`: `"Message-ID:" msg-id CRLF`. -/
def messageIdParse (fuel : Nat) (input : List Nat) : PR MessageId :=
  if input.length = 0 then .error (.Eof "MessageId")
  else
    match req_name input "message-id:" with
    | .error e => .error e
    | .ok rem =>
      match msgIdParse fuel rem with
      | .ok (x, rem1) =>
        match req_crlf rem1 with
        | .error e => .error e
        | .ok rem2 => .ok (⟨x⟩, rem2)
      | .error e => .error (.Parse "Message-Id" e)

/-- The `loop { msg-id }` of `InReplyTo::parse`/`References::parse`:
collects values until a failure, also returning the failing error. -/
def msgIdLoop : Nat → List Nat → List MsgId × ParseError × List Nat
  | 0, rem => ([], .InternalError, rem)
  | fuel+1, rem =>
    match msgIdParse fuel rem with
    | .ok (x, r) =>
      match msgIdLoop fuel r with
      | (xs, e, fin) => (x :: xs, e, fin)
    | .error e => ([], e, rem)

/-- `InReplyTo::parse`: `"In-Reply-To:" 1*msg-id CRLF`. -/
def inReplyToParse (fuel : Nat) (input : List Nat) : PR InReplyTo :=
  if input.length = 0 then .error (.Eof "InReplyTo")
  else
    match req_name input "in-reply-to:" with
    | .error e => .error e
    | .ok rem =>
      match msgIdLoop fuel rem with
      | (contents, err, rem1) =>
        if contents.length = 0 then .error (.Parse "In-Reply-To" err)
        else
          match req_crlf rem1 with
          | .error e => .error e
          | .ok rem2 => .ok (⟨contents⟩, rem2)

/-- `References::parse`: `"References:" 1*msg-id CRLF`. -/
def referencesParse (fuel : Nat) (input : List Nat) : PR References :=
  if input.length = 0 then .error (.Eof "References")
  else
    match req_name input "references:" with
    | .error e => .error e
    | .ok rem =>
      match msgIdLoop fuel rem with
      | (contents, err, rem1) =>
        if contents.length = 0 then .error (.Parse "References" err)
        else
          match req_crlf rem1 with
          | .error e => .error e
          | .ok rem2 => .ok (⟨contents⟩, rem2)

/-- `Subject::parse`: `"Subject:" unstructured CRLF`; an unstructured
failure is wrapped as `Parse("Subject", e)`. -/
def subjectParse (fuel : Nat) (input : List Nat) : PR Subject :=
  if input.length = 0 then .error (.Eof "Subject")
  else
    match req_name input "subject:" with
    | .error e => .error e
    | .ok rem =>
      match unstructuredParse fuel rem with
      | .ok (x, rem1) =>
        match req_crlf rem1 with
        | .error e => .error e
        | .ok rem2 => .ok (⟨x⟩, rem2)
      | .error e => .error (.Parse "Subject" e)

/-- `Comments::parse`: `"Comments:" unstructured CRLF`. -/
def commentsParse (fuel : Nat) (input : List Nat) : PR Comments :=
  if input.length = 0 then .error (.Eof "Comments")
  else
    match req_name input "comments:" with
    | .error e => .error e
    | .ok rem =>
      match unstructuredParse fuel rem with
      | .ok (x, rem1) =>
        match req_crlf rem1 with
        | .error e => .error e
        | .ok rem2 => .ok (⟨x⟩, rem2)
      | .error e => .error (.Parse "Comments" e)

/-- The `loop { phrase }` of `Keywords::parse`. -/
def phraseErrLoop : Nat → List Nat → List Phrase × ParseError × List Nat
  | 0, rem => ([], .InternalError, rem)
  | fuel+1, rem =>
    match phraseParse fuel rem with
    | .ok (x, r) =>
      match phraseErrLoop fuel r with
      | (xs, e, fin) => (x :: xs, e, fin)
    | .error e => ([], e, rem)

/-- `Keywords::parse`: `"Keywords:" 1*phrase CRLF` (the source loops
phrases without requiring the separating commas it streams back). -/
def keywordsParse (fuel : Nat) (input : List Nat) : PR Keywords :=
  if input.length = 0 then .error (.Eof "Keywords")
  else
    match req_name input "keywords:" with
    | .error e => .error e
    | .ok rem =>
      match phraseErrLoop fuel rem with
      | (output, err, rem1) =>
        if output.length = 0 then .error (.Parse "Keywords" err)
        else
          match req_crlf rem1 with
          | .error e => .error e
          | .ok rem2 => .ok (⟨output⟩, rem2)

/-- `ResentDate::parse`. -/
def resentDateParse (fuel : Nat) (input : List Nat) : PR ResentDate :=
  if input.length = 0 then .error (.Eof "Resent-Date")
  else
    match req_name input "resent-date:" with
    | .error e => .error e
    | .ok rem =>
      match dateTimeParse fuel rem with
      | .ok (dt, rem1) =>
        match req_crlf rem1 with
        | .error e => .error e
        | .ok rem2 => .ok (⟨dt⟩, rem2)
      | .error e => .error (.Parse "Resent-Date" e)

/-- `ResentFrom::parse`. -/
def resentFromParse (fuel : Nat) (input : List Nat) : PR ResentFrom :=
  if input.length = 0 then .error (.Eof "Resent-From")
  else
    match req_name input "resent-from:" with
    | .error e => .error e
    | .ok rem =>
      match mailboxListParse fuel rem with
      | .ok (ml, rem1) =>
        match req_crlf rem1 with
        | .error e => .error e
        | .ok rem2 => .ok (⟨ml⟩, rem2)
      | .error e => .error (.Parse "Resent-From" e)

/-- `ResentSender::parse`. -/
def resentSenderParse (fuel : Nat) (input : List Nat) : PR ResentSender :=
  if input.length = 0 then .error (.Eof "Resent-Sender")
  else
    match req_name input "resent-sender:" with
    | .error e => .error e
    | .ok rem =>
      match mailboxParse fuel rem with
      | .ok (mb, rem1) =>
        match req_crlf rem1 with
        | .error e => .error e
        | .ok rem2 => .ok (⟨mb⟩, rem2)
      | .error e => .error (.Parse "Resent-Sender" e)

/-- `ResentTo::parse`. -/
def resentToParse (fuel : Nat) (input : List Nat) : PR ResentTo :=
  if input.length = 0 then .error (.Eof "Resent-To")
  else
    match req_name input "resent-to:" with
    | .error e => .error e
    | .ok rem =>
      match addressListParse fuel rem with
      | .ok (al, rem1) =>
        match req_crlf rem1 with
        | .error e => .error e
        | .ok rem2 => .ok (⟨al⟩, rem2)
      | .error e => .error (.Parse "Resent-To" e)

/-- `ResentCc::parse`. -/
def resentCcParse (fuel : Nat) (input : List Nat) : PR ResentCc :=
  if input.length = 0 then .error (.Eof "Resent-Cc")
  else
    match req_name input "resent-cc:" with
    | .error e => .error e
    | .ok rem =>
      match addressListParse fuel rem with
      | .ok (al, rem1) =>
        match req_crlf rem1 with
        | .error e => .error e
        | .ok rem2 => .ok (⟨al⟩, rem2)
      | .error e => .error (.Parse "Resent-Cc" e)

/-- `ResentBcc::parse`. -/
def resentBccParse (fuel : Nat) (input : List Nat) : PR ResentBcc :=
  if input.length = 0 then .error (.Eof "Resent-Bcc")
  else
    match req_name input "resent-bcc:" with
    | .error e => .error e
    | .ok rem =>
      match addressListParse fuel rem with
      | .ok (x, rem1) =>
        match req_crlf rem1 with
        | .error e => .error e
        | .ok rem2 => .ok (.AddressList x, rem2)
      | .error _ =>
        match cfwsParse fuel rem with
        | .ok (x, rem1) =>
          match req_crlf rem1 with
          | .error e => .error e
          | .ok rem2 => .ok (.CFWS x, rem2)
        | .error _ =>
          match req_crlf rem with
          | .error e => .error e
          | .ok rem1 => .ok (.Empty, rem1)

/-- `ResentMessageId::parse`. -/
def resentMessageIdParse (fuel : Nat) (input : List Nat) : PR ResentMessageId :=
  if input.length = 0 then .error (.Eof "Resent-Message-ID")
  else
    match req_name input "resent-message-id:" with
    | .error e => .error e
    | .ok rem =>
      match msgIdParse fuel rem with
      | .ok (x, rem1) =>
        match req_crlf rem1 with
        | .error e => .error e
        | .ok rem2 => .ok (⟨x⟩, rem2)
      | .error e => .error (.Parse "Resent-Message-Id" e)

/-- The `loop { received-token }` of `Received::parse`. -/
def rtokLoop : Nat → List Nat → List ReceivedToken × ParseError × List Nat
  | 0, rem => ([], .InternalError, rem)
  | fuel+1, rem =>
    match receivedTokenParse fuel rem with
    | .ok (x, r) =>
      match rtokLoop fuel r with
      | (xs, e, fin) => (x :: xs, e, fin)
    | .error e => ([], e, rem)

/-- `Received::parse`: `"Received:" [1*received-token / CFWS] ";"
date-time CRLF`. -/
def receivedParse (fuel : Nat) (input : List Nat) : PR Received :=
  if input.length = 0 then .error (.Eof "Received")
  else
    match req_name input "received:" with
    | .error e => .error e
    | .ok rem =>
      match rtokLoop fuel rem with
      | (tokens, err, rem1) =>
        let rt : Except ParseError (ReceivedTokens × List Nat) :=
          if tokens.length = 0 then
            match cfwsParse fuel rem1 with
            | .ok (c, rem2) => .ok (.Comment c, rem2)
            | .error _ => .error (.Parse "Received" err)
          else .ok (.Tokens tokens, rem1)
        match rt with
        | .error e => .error e
        | .ok (rtoks, rem2) =>
          match req rem2 [59] with
          | .error e => .error e
          | .ok rem3 =>
            match dateTimeParse fuel rem3 with
            | .ok (dt, rem4) =>
              match req_crlf rem4 with
              | .error e => .error e
              | .ok rem5 => .ok (⟨rtoks, dt⟩, rem5)
            | .error e => .error (.Parse "Received" e)

/-- `Return::parse`: `"Return-Path:" path CRLF` (no leading empty-input
check in the source). -/
def returnParse (fuel : Nat) (input : List Nat) : PR Return :=
  match req_name input "return-path:" with
  | .error e => .error e
  | .ok rem =>
    match pathParse fuel rem with
    | .ok (p, rem1) =>
      match req_crlf rem1 with
      | .error e => .error e
      | .ok rem2 => .ok (⟨p⟩, rem2)
    | .error e => .error (.Parse "Return-Path" e)

/-- `OptionalField::parse`: `field-name ":" unstructured CRLF`; both the
field-name and the unstructured failures are wrapped as
`Parse("Optional Field", e)`. -/
def optionalFieldParse (fuel : Nat) (input : List Nat) : PR OptionalField :=
  match FieldName.parse input with
  | .ok (name, rem) =>
    match req rem [58] with
    | .error e => .error e
    | .ok rem1 =>
      match unstructuredParse fuel rem1 with
      | .ok (value, rem2) =>
        match req_crlf rem2 with
        | .error e => .error e
        | .ok rem3 => .ok (⟨name, value⟩, rem3)
      | .error e => .error (.Parse "Optional Field" e)
  | .error e => .error (.Parse "Optional Field" e)

end EmailFormat

namespace EmailFormat

/-! ### Parsers: message assembly (`mod.rs`) and `Email` (`lib.rs`) -/

/-- The `while let Ok(r) = parse!(Received, rem)` loop of `Trace::parse`. -/
def recvLoop : Nat → List Nat → List Received × List Nat
  | 0, rem => ([], rem)
  | fuel+1, rem =>
    match receivedParse fuel rem with
    | .ok (r, rem1) =>
      match recvLoop fuel rem1 with
      | (rs, fin) => (r :: rs, fin)
    | .error _ => ([], rem)

/-- `Trace::parse`: `[return] 1*received`; fails with the payload-less
`NotFound` of `mod.rs` when no Received field was found. -/
def traceParse (fuel : Nat) (input : List Nat) : PR Trace :=
  let (ret, rem) := tryParse (returnParse fuel) input
  match recvLoop fuel rem with
  | (received, rem1) =>
    if received.length < 1 then .error (.NotFound "")
    else .ok (⟨ret, received⟩, rem1)

/-- `ResentField::parse`: ordered choice over the seven resent headers. -/
def resentFieldParse (fuel : Nat) (input : List Nat) : PR ResentField :=
  match resentDateParse fuel input with
  | .ok (x, rem) => .ok (.Date x, rem)
  | .error _ =>
  match resentFromParse fuel input with
  | .ok (x, rem) => .ok (.From x, rem)
  | .error _ =>
  match resentSenderParse fuel input with
  | .ok (x, rem) => .ok (.Sender x, rem)
  | .error _ =>
  match resentToParse fuel input with
  | .ok (x, rem) => .ok (.To x, rem)
  | .error _ =>
  match resentCcParse fuel input with
  | .ok (x, rem) => .ok (.Cc x, rem)
  | .error _ =>
  match resentBccParse fuel input with
  | .ok (x, rem) => .ok (.Bcc x, rem)
  | .error _ =>
  match resentMessageIdParse fuel input with
  | .ok (x, rem) => .ok (.MessageId x, rem)
  | .error _ => .error (.NotFound "")

/-- `Field::parse`: ordered choice over the fourteen ordinary headers, in
source order, with `OptionalField` as the catch-all. -/
def fieldParse (fuel : Nat) (input : List Nat) : PR Field :=
  match origDateParse fuel input with
  | .ok (x, rem) => .ok (.OrigDate x, rem)
  | .error _ =>
  match fromParse fuel input with
  | .ok (x, rem) => .ok (.From x, rem)
  | .error _ =>
  match senderParse fuel input with
  | .ok (x, rem) => .ok (.Sender x, rem)
  | .error _ =>
  match replyToParse fuel input with
  | .ok (x, rem) => .ok (.ReplyTo x, rem)
  | .error _ =>
  match toParse fuel input with
  | .ok (x, rem) => .ok (.To x, rem)
  | .error _ =>
  match ccParse fuel input with
  | .ok (x, rem) => .ok (.Cc x, rem)
  | .error _ =>
  match bccParse fuel input with
  | .ok (x, rem) => .ok (.Bcc x, rem)
  | .error _ =>
  match messageIdParse fuel input with
  | .ok (x, rem) => .ok (.MessageId x, rem)
  | .error _ =>
  match inReplyToParse fuel input with
  | .ok (x, rem) => .ok (.InReplyTo x, rem)
  | .error _ =>
  match referencesParse fuel input with
  | .ok (x, rem) => .ok (.References x, rem)
  | .error _ =>
  match subjectParse fuel input with
  | .ok (x, rem) => .ok (.Subject x, rem)
  | .error _ =>
  match commentsParse fuel input with
  | .ok (x, rem) => .ok (.Comments x, rem)
  | .error _ =>
  match keywordsParse fuel input with
  | .ok (x, rem) => .ok (.Keywords x, rem)
  | .error _ =>
  match optionalFieldParse fuel input with
  | .ok (x, rem) => .ok (.OptionalField x, rem)
  | .error _ => .error (.NotFound "")

/-- The `while let Ok(f) = parse!(ResentField, rem)` loop of
`ResentTraceBlock::parse`. -/
def rfLoop : Nat → List Nat → List ResentField × List Nat
  | 0, rem => ([], rem)
  | fuel+1, rem =>
    match resentFieldParse fuel rem with
    | .ok (f, rem1) =>
      match rfLoop fuel rem1 with
      | (fs, fin) => (f :: fs, fin)
    | .error _ => ([], rem)

/-- `ResentTraceBlock::parse`: a trace then at least one resent field
(`ExpectedType("Resent Field")` when none followed). -/
def resentTraceBlockParse (fuel : Nat) (input : List Nat) : PR ResentTraceBlock :=
  match traceParse fuel input with
  | .ok (t, rem) =>
    match rfLoop fuel rem with
    | (fields, rem1) =>
      if fields.length = 0 then .error (.ExpectedType "Resent Field")
      else .ok (⟨t, fields⟩, rem1)
  | .error _ => .error (.NotFound "")

/-- The `while let Ok(f) = parse!(OptionalField, rem)` loop of
`OptTraceBlock::parse`. -/
def ofLoop : Nat → List Nat → List OptionalField × List Nat
  | 0, rem => ([], rem)
  | fuel+1, rem =>
    match optionalFieldParse fuel rem with
    | .ok (f, rem1) =>
      match ofLoop fuel rem1 with
      | (fs, fin) => (f :: fs, fin)
    | .error _ => ([], rem)

/-- `OptTraceBlock::parse`: a trace then at least one optional field
(`ExpectedType("Optional Field")` when none followed). -/
def optTraceBlockParse (fuel : Nat) (input : List Nat) : PR OptTraceBlock :=
  match traceParse fuel input with
  | .ok (t, rem) =>
    match ofLoop fuel rem with
    | (fields, rem1) =>
      if fields.length = 0 then .error (.ExpectedType "Optional Field")
      else .ok (⟨t, fields⟩, rem1)
  | .error _ => .error (.NotFound "")

/-- `TraceBlock::parse`: resent trace block, else optional trace block. -/
def traceBlockParse (fuel : Nat) (input : List Nat) : PR TraceBlock :=
  match resentTraceBlockParse fuel input with
  | .ok (b, rem) => .ok (.Resent b, rem)
  | .error _ =>
    match optTraceBlockParse fuel input with
    | .ok (b, rem) => .ok (.Opt b, rem)
    | .error _ => .error (.NotFound "")

/-- The `while let Ok(tb) = parse!(TraceBlock, rem)` loop of
`Fields::parse`. -/
def tbLoop : Nat → List Nat → List TraceBlock × List Nat
  | 0, rem => ([], rem)
  | fuel+1, rem =>
    match traceBlockParse fuel rem with
    | .ok (tb, rem1) =>
      match tbLoop fuel rem1 with
      | (tbs, fin) => (tb :: tbs, fin)
    | .error _ => ([], rem)

/-- The `while let Ok(f) = parse!(Field, rem)` loop of `Fields::parse`. -/
def fLoop : Nat → List Nat → List Field × List Nat
  | 0, rem => ([], rem)
  | fuel+1, rem =>
    match fieldParse fuel rem with
    | .ok (f, rem1) =>
      match fLoop fuel rem1 with
      | (fs, fin) => (f :: fs, fin)
    | .error _ => ([], rem)

/-- `Fields::parse`: both loops stop cleanly at the first failure; the
parse as a whole always succeeds. -/
def fieldsParse (fuel : Nat) (input : List Nat) : PR Fields :=
  match tbLoop fuel input with
  | (tbs, rem) =>
    match fLoop fuel rem with
    | (fs, rem1) => .ok (⟨tbs, fs⟩, rem1)

/-- `BufReadExt::stream_until_token` for the token CRLF on an in-memory
slice: returns the bytes before the first CRLF and, when the token was
found, the bytes after it. -/
def stream_until_token : List Nat → List Nat × Option (List Nat)
  | [] => ([], none)
  | 13 :: 10 :: rest => ([], some rest)
  | b :: rest =>
    match stream_until_token rest with
    | (l, r) => (b :: l, r)

/-- The line loop of `Body::parse`: split a line at CRLF, parse its `Text`
prefix; a non-text remainder on the line is `InvalidBodyChar` (reporting
its first byte), a text run longer than 998 is `LineTooLong`; a line whose
`Text` parse fails contributes nothing to the body (its content is
dropped).  Line numbers start at 1. -/
def bodyAux : Nat → Nat → List Nat → Except ParseError (List Nat)
  | 0, _, _ => .error .InternalError
  | fuel+1, lineNumber, input =>
    match stream_until_token input with
    | (line, found) =>
      match Text.parse line with
      | .ok (text, rem) =>
        if rem.length > 0 then .error (.InvalidBodyChar (rem.headD 0))
        else if text.bytes.length > 998 then .error (.LineTooLong lineNumber)
        else
          match found with
          | none => .ok text.bytes
          | some rest =>
            (bodyAux fuel (lineNumber + 1) rest).map (fun b => text.bytes ++ [13, 10] ++ b)
      | .error _ =>
        match found with
        | none => .ok []
        | some rest =>
          (bodyAux fuel (lineNumber + 1) rest).map (fun b => [13, 10] ++ b)

/-- `Body::parse`: the reader consumes the entire input, so the remainder
is always empty on success. -/
def bodyParse (fuel : Nat) (input : List Nat) : PR Body :=
  (bodyAux fuel 1 input).map (fun b => (⟨b⟩, ([] : List Nat)))

/-- `Message::parse`: parse the fields, then evaluate `&rem[..2]` — which
panics when fewer than two bytes remain — and compare it with CRLF; with
no CRLF return the message without a body, otherwise parse the body after
the CRLF. -/
def messageParse (fuel : Nat) (input : List Nat) : PanicOr (PR Message) :=
  match fieldsParse fuel input with
  | .ok (fields, rem) =>
    if rem.length < 2 then .panicked
    else if rem.take 2 ≠ [13, 10] then .returned (.ok (⟨fields, none⟩, rem))
    else
      match bodyParse fuel (rem.drop 2) with
      | .ok (b, rem2) => .returned (.ok (⟨fields, some b⟩, rem2))
      | .error e => .returned (.error e)
  | .error _ => .returned (.error (.NotFound ""))

/-- `Email::parse` (`lib.rs`): wrap `Message::parse`, wrapping an error as
`Parse("Email", e)`; a panic propagates. -/
def emailParse (fuel : Nat) (input : List Nat) :
    PanicOr (Except ParseError (Email × List Nat)) :=
  match messageParse fuel input with
  | .panicked => .panicked
  | .returned (.ok (m, rem)) => .returned (.ok (⟨m⟩, rem))
  | .returned (.error e) => .returned (.error (.Parse "Email" e))

end EmailFormat

namespace EmailFormat

/-! ### Public parse wrappers (supplying the fuel) and conversions -/

/-- Public `Comment::parse`. -/
def Comment.parse (input : List Nat) : PR Comment := commentParse (parseFuel input) input

/-- Public `CFWS::parse`. -/
def CFWS.parse (input : List Nat) : PR CFWS := cfwsParse (parseFuel input) input

/-- Public `Atom::parse`. -/
def Atom.parse (input : List Nat) : PR Atom := atomParse (parseFuel input) input

/-- Public `DotAtomText::parse`. -/
def DotAtomText.parse (input : List Nat) : PR DotAtomText :=
  dotAtomTextParse (parseFuel input) input

/-- Public `DotAtom::parse`. -/
def DotAtom.parse (input : List Nat) : PR DotAtom := dotAtomParse (parseFuel input) input

/-- Public `QuotedString::parse`. -/
def QuotedString.parse (input : List Nat) : PR QuotedString :=
  quotedStringParse (parseFuel input) input

/-- Public `Word::parse`. -/
def Word.parse (input : List Nat) : PR Word := wordParse (parseFuel input) input

/-- Public `Phrase::parse`. -/
def Phrase.parse (input : List Nat) : PR Phrase := phraseParse (parseFuel input) input

/-- Public `Unstructured::parse`. -/
def Unstructured.parse (input : List Nat) : PR Unstructured :=
  unstructuredParse (parseFuel input) input

/-- Public `LocalPart::parse`. -/
def LocalPart.parse (input : List Nat) : PR LocalPart := localPartParse (parseFuel input) input

/-- Public `Domain::parse`. -/
def Domain.parse (input : List Nat) : PR Domain := domainParse (parseFuel input) input

/-- Public `AddrSpec::parse`. -/
def AddrSpec.parse (input : List Nat) : PR AddrSpec := addrSpecParse (parseFuel input) input

/-- Public `Mailbox::parse`. -/
def Mailbox.parse (input : List Nat) : PR Mailbox := mailboxParse (parseFuel input) input

/-- Public `MailboxList::parse`. -/
def MailboxList.parse (input : List Nat) : PR MailboxList :=
  mailboxListParse (parseFuel input) input

/-- Public `DateTime::parse`. -/
def DateTime.parse (input : List Nat) : PR DateTime := dateTimeParse (parseFuel input) input

/-- Public `Subject::parse`. -/
def Subject.parse (input : List Nat) : PR Subject := subjectParse (parseFuel input) input

/-- Public `OptionalField::parse`. -/
def OptionalField.parse (input : List Nat) : PR OptionalField :=
  optionalFieldParse (parseFuel input) input

/-- Public `Field::parse`. -/
def Field.parse (input : List Nat) : PR Field := fieldParse (parseFuel input) input

/-- Public `Fields::parse`. -/
def Fields.parse (input : List Nat) : PR Fields := fieldsParse (parseFuel input) input

/-- Public `Body::parse`. -/
def Body.parse (input : List Nat) : PR Body := bodyParse (parseFuel input) input

/-- Public `Message::parse` (panic-aware). -/
def Message.parse (input : List Nat) : PanicOr (PR Message) :=
  messageParse (parseFuel input) input

/-- Public `Email::parse` (panic-aware). -/
def Email.parse (input : List Nat) : PanicOr (Except ParseError (Email × List Nat)) :=
  emailParse (parseFuel input) input

/-- `TryFrom<&[u8]> for Sender` from the `impl_try_from!` macro in
`headers.rs`: parse a `Mailbox`, then require an empty remainder; trailing
bytes yield `TrailingInput("$to", consumed)` — the macro places `$to`
inside a string literal, so the production name is the literal string
"$to", not the header name. -/
def Sender.tryFromBytes (input : List Nat) : Except ParseError Sender :=
  match Mailbox.parse input with
  | .error e => .error e
  | .ok (out, rem) =>
    if rem.length > 0 then .error (.TrailingInput "$to" (input.length - rem.length))
    else .ok ⟨out⟩

/-- `TryFrom<&[u8]> for From` (same macro, parsing a `MailboxList`). -/
def From.tryFromBytes (input : List Nat) : Except ParseError From :=
  match MailboxList.parse input with
  | .error e => .error e
  | .ok (out, rem) =>
    if rem.length > 0 then .error (.TrailingInput "$to" (input.length - rem.length))
    else .ok ⟨out⟩

/-- `TryFrom<&[u8]> for OrigDate` (same macro, parsing a `DateTime`). -/
def OrigDate.tryFromBytes (input : List Nat) : Except ParseError OrigDate :=
  match DateTime.parse input with
  | .error e => .error e
  | .ok (out, rem) =>
    if rem.length > 0 then .error (.TrailingInput "$to" (input.length - rem.length))
    else .ok ⟨out⟩

/-! ### `Email` builder methods (`lib.rs`) -/

/-- `Email::new(from, date)`: build the message with exactly
`[OrigDate, From]` as fields (date converted first, as in the source
`vec![..]`), no trace blocks and no body. -/
def Email.new (fromArg dateArg : List Nat) : Except ParseError Email :=
  match OrigDate.tryFromBytes dateArg with
  | .error e => .error e
  | .ok d =>
    match From.tryFromBytes fromArg with
    | .error e => .error e
    | .ok f => .ok ⟨⟨⟨[], [.OrigDate d, .From f]⟩, none⟩⟩

/-- The field scan of `Email::get_date`: return the first `OrigDate`
field, or reach the `unreachable!()` (a panic) when there is none. -/
def findOrigDate : List Field → PanicOr OrigDate
  | [] => .panicked
  | .OrigDate d :: _ => .returned d
  | _ :: rest => findOrigDate rest

/-- `Email::get_date`. -/
def Email.get_date (e : Email) : PanicOr OrigDate :=
  findOrigDate e.message.fields.fields

/-- The field scan of `Email::set_date` (with an already-converted value,
i.e. the infallible `TryFrom<DateTime>` instantiation): replace the first
`OrigDate` field, or reach the `unreachable!()` when there is none. -/
def setOrigDate (v : OrigDate) : List Field → PanicOr (List Field)
  | [] => .panicked
  | .OrigDate _ :: rest => .returned (.OrigDate v :: rest)
  | f :: rest =>
    match setOrigDate v rest with
    | .panicked => .panicked
    | .returned l => .returned (f :: l)

/-- `Email::set_date` (value form). -/
def Email.set_date (e : Email) (v : OrigDate) : PanicOr Email :=
  match setOrigDate v e.message.fields.fields with
  | .panicked => .panicked
  | .returned l => .returned ⟨⟨⟨e.message.fields.trace_blocks, l⟩, e.message.body⟩⟩

/-- The field scan of `Email::get_from`. -/
def findFrom : List Field → PanicOr From
  | [] => .panicked
  | .From f :: _ => .returned f
  | _ :: rest => findFrom rest

/-- `Email::get_from`. -/
def Email.get_from (e : Email) : PanicOr From :=
  findFrom e.message.fields.fields

/-- The field scan of `Email::set_from` (value form). -/
def setFrom (v : From) : List Field → PanicOr (List Field)
  | [] => .panicked
  | .From _ :: rest => .returned (.From v :: rest)
  | f :: rest =>
    match setFrom v rest with
    | .panicked => .panicked
    | .returned l => .returned (f :: l)

/-- `Email::set_from` (value form). -/
def Email.set_from (e : Email) (v : From) : PanicOr Email :=
  match setFrom v e.message.fields.fields with
  | .panicked => .panicked
  | .returned l => .returned ⟨⟨⟨e.message.fields.trace_blocks, l⟩, e.message.body⟩⟩

/-- Whether a field list contains an `OrigDate` field. -/
def hasOrigDate (l : List Field) : Bool :=
  l.any (fun f => match f with | .OrigDate _ => true | _ => false)

/-- Whether a field list contains a `From` field. -/
def hasFrom (l : List Field) : Bool :=
  l.any (fun f => match f with | .From _ => true | _ => false)

end EmailFormat

namespace EmailFormat

/-! ### Streams (serialization).  A stream value is the pair
`(bytes written, count returned)`; `scat` concatenates sequential writes.
Fallible streams (those that can reach `Month::stream`/`DayName::stream`)
return `SR`. -/

/-- Concatenation of two (bytes, count) stream results. -/
def scat (a b : List Nat × Nat) : List Nat × Nat := (a.1 ++ b.1, a.2 + b.2)

/-- A literal write `w.write(b"...")`: the bytes and their length. -/
def lit (s : String) : List Nat × Nat := (strBytes s, (strBytes s).length)

/-- Result of a fallible stream: an I/O error message or (bytes, count). -/
abbrev SR := Except String (List Nat × Nat)

/-- Sequential composition of fallible stream results (first error wins,
as the first failing write aborts the serialization). -/
def scatE : SR → SR → SR
  | .error e, _ => .error e
  | .ok _, .error e => .error e
  | .ok a, .ok b => .ok (scat a b)

/-- Stream each element of a list in order (pure). -/
def streamList {α : Type} (f : α → List Nat × Nat) : List α → List Nat × Nat
  | [] => ([], 0)
  | x :: rest => scat (f x) (streamList f rest)

/-- Stream each element of a list in order (fallible). -/
def streamListE {α : Type} (f : α → SR) : List α → SR
  | [] => .ok ([], 0)
  | x :: rest => scatE (f x) (streamListE f rest)

/-- Comma-joined element streaming with the `virgin` flag of the source. -/
def streamCommaList {α : Type} (f : α → List Nat × Nat) : Bool → List α → List Nat × Nat
  | _, [] => ([], 0)
  | virgin, x :: rest =>
    scat (if virgin then ([], 0) else ([44], 1))
      (scat (f x) (streamCommaList f false rest))

/-- `QuotedPair::stream`: a backslash then the stored byte. -/
def QuotedPair.stream (q : QuotedPair) : List Nat × Nat := ([92, q.c], 2)

/-- `FWS::stream`: normalized to a single space. -/
def FWS.stream (_f : FWS) : List Nat × Nat := ([32], 1)

/-- `VChar::stream`. -/
def VChar.stream (x : VChar) : List Nat × Nat := cclassStream x.bytes

/-- `WSP::stream`. -/
def WSP.stream (x : WSP) : List Nat × Nat := cclassStream x.bytes

/-- `CText::stream`. -/
def CText.stream (x : CText) : List Nat × Nat := cclassStream x.bytes

/-- `AText::stream`. -/
def AText.stream (x : AText) : List Nat × Nat := cclassStream x.bytes

/-- `QText::stream`. -/
def QText.stream (x : QText) : List Nat × Nat := cclassStream x.bytes

/-- `DText::stream`. -/
def DText.stream (x : DText) : List Nat × Nat := cclassStream x.bytes

/-- `FText::stream`. -/
def FText.stream (x : FText) : List Nat × Nat := cclassStream x.bytes

/-- `Text::stream`. -/
def Text.stream (x : Text) : List Nat × Nat := cclassStream x.bytes

mutual
/-- `Comment::stream`: `(`, the (ws?, ccontent) items with each ws flag as
one space, the trailing-ws space, `)`. -/
def Comment.stream : Comment → List Nat × Nat
  | .mk items tws =>
    scat ([40], 1)
      (scat (ccItemsStream items)
        (scat (if tws then ([32], 1) else ([], 0)) ([41], 1)))
/-- Stream the (ws?, ccontent) items of a comment. -/
def ccItemsStream : List (Bool × CContent) → List Nat × Nat
  | [] => ([], 0)
  | (ws, cc) :: rest =>
    scat (if ws then ([32], 1) else ([], 0))
      (scat (CContent.stream cc) (ccItemsStream rest))
/-- `CContent::stream`. -/
def CContent.stream : CContent → List Nat × Nat
  | .CText x => CText.stream x
  | .QuotedPair x => QuotedPair.stream x
  | .Comment c => Comment.stream c
end

/-- Stream the (ws?, comment) items of a CFWS. -/
def cfwsItems : List (Bool × Comment) → List Nat × Nat
  | [] => ([], 0)
  | (ws, c) :: rest =>
    scat (if ws then ([32], 1) else ([], 0))
      (scat (Comment.stream c) (cfwsItems rest))

/-- `CFWS::stream`: the comment items then the trailing-ws space (folding
is normalized, never reproduced byte-for-byte). -/
def CFWS.stream (c : CFWS) : List Nat × Nat :=
  scat (cfwsItems c.comments) (if c.trailing_ws then ([32], 1) else ([], 0))

/-- Stream an optional CFWS (none writes nothing). -/
def streamOptCFWS : Option CFWS → List Nat × Nat
  | some c => CFWS.stream c
  | none => ([], 0)

/-- `Atom::stream`. -/
def Atom.stream (a : Atom) : List Nat × Nat :=
  scat (streamOptCFWS a.pre_cfws) (scat (AText.stream a.atext) (streamOptCFWS a.post_cfws))

/-- The dot-joined part streaming of `DotAtomText::stream` (`virgin` flag
suppresses the dot before the first part). -/
def datItems : Bool → List AText → List Nat × Nat
  | _, [] => ([], 0)
  | virgin, p :: rest =>
    scat (if virgin then ([], 0) else ([46], 1))
      (scat (AText.stream p) (datItems false rest))

/-- `DotAtomText::stream`. -/
def DotAtomText.stream (d : DotAtomText) : List Nat × Nat := datItems true d.parts

/-- `DotAtom::stream`. -/
def DotAtom.stream (d : DotAtom) : List Nat × Nat :=
  scat (streamOptCFWS d.pre_cfws)
    (scat (DotAtomText.stream d.dot_atom_text) (streamOptCFWS d.post_cfws))

/-- `QContent::stream`. -/
def QContent.stream : QContent → List Nat × Nat
  | .QText x => QText.stream x
  | .QuotedPair x => QuotedPair.stream x

/-- Stream the (ws?, qcontent) items of a quoted string. -/
def qsItems : List (Bool × QContent) → List Nat × Nat
  | [] => ([], 0)
  | (ws, qc) :: rest =>
    scat (if ws then ([32], 1) else ([], 0))
      (scat (QContent.stream qc) (qsItems rest))

/-- `QuotedString::stream`. -/
def QuotedString.stream (q : QuotedString) : List Nat × Nat :=
  scat (streamOptCFWS q.pre_cfws)
    (scat ([34], 1)
      (scat (qsItems q.qcontent)
        (scat (if q.trailing_ws then ([32], 1) else ([], 0))
          (scat ([34], 1) (streamOptCFWS q.post_cfws)))))

/-- `Word::stream`. -/
def Word.stream : Word → List Nat × Nat
  | .Atom x => Atom.stream x
  | .QuotedString x => QuotedString.stream x

/-- `Phrase::stream`: the words in order, nothing between them. -/
def Phrase.stream (p : Phrase) : List Nat × Nat := streamList Word.stream p.words

/-- The space-joined VChar-run streaming of `Unstructured::stream`. -/
def unstrItems : Bool → List VChar → List Nat × Nat
  | _, [] => ([], 0)
  | first, v :: rest =>
    scat (if first then ([], 0) else ([32], 1))
      (scat (VChar.stream v) (unstrItems false rest))

/-- `Unstructured::stream`: leading space flag, space-joined runs,
trailing space flag. -/
def Unstructured.stream (u : Unstructured) : List Nat × Nat :=
  scat (if u.leading_ws then ([32], 1) else ([], 0))
    (scat (unstrItems true u.parts) (if u.trailing_ws then ([32], 1) else ([], 0)))

/-- `LocalPart::stream`. -/
def LocalPart.stream : LocalPart → List Nat × Nat
  | .DotAtom x => DotAtom.stream x
  | .QuotedString x => QuotedString.stream x

/-- Stream the (ws?, dtext) items of a domain literal. -/
def dlItems : List (Bool × DText) → List Nat × Nat
  | [] => ([], 0)
  | (ws, d) :: rest =>
    scat (if ws then ([32], 1) else ([], 0))
      (scat (DText.stream d) (dlItems rest))

/-- `DomainLiteral::stream`: note the source writes `]` directly after the
items — the stored `trailing_ws` flag is not streamed. -/
def DomainLiteral.stream (d : DomainLiteral) : List Nat × Nat :=
  scat (streamOptCFWS d.pre_cfws)
    (scat ([91], 1)
      (scat (dlItems d.dtext) (scat ([93], 1) (streamOptCFWS d.post_cfws))))

/-- `Domain::stream`. -/
def Domain.stream : Domain → List Nat × Nat
  | .DotAtom x => DotAtom.stream x
  | .DomainLiteral x => DomainLiteral.stream x

/-- `AddrSpec::stream`: local part, `@`, domain. -/
def AddrSpec.stream (a : AddrSpec) : List Nat × Nat :=
  scat (LocalPart.stream a.local_part) (scat ([64], 1) (Domain.stream a.domain))

/-- `AngleAddr::stream`. -/
def AngleAddr.stream (a : AngleAddr) : List Nat × Nat :=
  scat (streamOptCFWS a.pre_cfws)
    (scat ([60], 1)
      (scat (AddrSpec.stream a.addr_spec) (scat ([62], 1) (streamOptCFWS a.post_cfws))))

/-- `DisplayName::stream`. -/
def DisplayName.stream (d : DisplayName) : List Nat × Nat := Phrase.stream d.phrase

/-- `NameAddr::stream`. -/
def NameAddr.stream (n : NameAddr) : List Nat × Nat :=
  scat (match n.display_name with | some d => DisplayName.stream d | none => ([], 0))
    (AngleAddr.stream n.angle_addr)

/-- `Mailbox::stream`. -/
def Mailbox.stream : Mailbox → List Nat × Nat
  | .NameAddr x => NameAddr.stream x
  | .AddrSpec x => AddrSpec.stream x

/-- `MailboxList::stream`: comma-joined mailboxes. -/
def MailboxList.stream (m : MailboxList) : List Nat × Nat :=
  streamCommaList Mailbox.stream true m.mailboxes

/-- `GroupList::stream`. -/
def GroupList.stream : GroupList → List Nat × Nat
  | .MailboxList x => MailboxList.stream x
  | .CFWS x => CFWS.stream x

/-- `Group::stream`. -/
def Group.stream (g : Group) : List Nat × Nat :=
  scat (DisplayName.stream g.display_name)
    (scat ([58], 1)
      (scat (match g.group_list with | some gl => GroupList.stream gl | none => ([], 0))
        (scat ([59], 1)
          (match g.cfws with | some c => CFWS.stream c | none => ([], 0)))))

/-- `Address::stream`. -/
def Address.stream : Address → List Nat × Nat
  | .Mailbox x => Mailbox.stream x
  | .Group x => Group.stream x

/-- `AddressList::stream`: comma-joined addresses. -/
def AddressList.stream (a : AddressList) : List Nat × Nat :=
  streamCommaList Address.stream true a.addresses

end EmailFormat

namespace EmailFormat

/-! ### Streams: date/time, message-id, headers, message assembly -/

/-- `Zone::stream`: writes a space, the sign, then the absolute value
zero-padded to four digits — but returns the hard-coded count 6. -/
def Zone.stream (z : Zone) : List Nat × Nat :=
  if z.v < 0 then ((([32, 45] : List Nat) ++ zeroPad 4 (-z.v).toNat), 6)
  else ((([32, 43] : List Nat) ++ zeroPad 4 z.v.toNat), 6)

/-- `Second::stream`: `{:02}`, hard-coded count 2. -/
def Second.stream (s : Second) : List Nat × Nat := (zeroPad 2 s.v, 2)

/-- `Minute::stream`: `{:02}`, hard-coded count 2. -/
def Minute.stream (m : Minute) : List Nat × Nat := (zeroPad 2 m.v, 2)

/-- `Hour::stream`: `{:02}`, hard-coded count 2. -/
def Hour.stream (h : Hour) : List Nat × Nat := (zeroPad 2 h.v, 2)

/-- `TimeOfDay::stream`: `{:02}:{:02}[:{:02}]`, hard-coded count 8 with a
second and 5 without. -/
def TimeOfDay.stream (t : TimeOfDay) : List Nat × Nat :=
  match t.second with
  | some s => (zeroPad 2 t.hour.v ++ [58] ++ zeroPad 2 t.minute.v ++ [58] ++ zeroPad 2 s.v, 8)
  | none => (zeroPad 2 t.hour.v ++ [58] ++ zeroPad 2 t.minute.v, 5)

/-- `Time::stream`: time-of-day then zone, counts added. -/
def Time.stream (t : Time) : List Nat × Nat :=
  scat (TimeOfDay.stream t.time_of_day) (Zone.stream t.zone)

/-- `Year::stream`: `" {:04} "`, hard-coded count 6. -/
def Year.stream (y : Year) : List Nat × Nat :=
  (([32] : List Nat) ++ zeroPad 4 y.v ++ [32], 6)

/-- `Day::stream`: `" {} "` (unpadded), hard-coded count 4. -/
def Day.stream (d : Day) : List Nat × Nat :=
  (([32] : List Nat) ++ decDigits d.v ++ [32], 4)

/-- `Month::stream`: the three-letter month name, or an
`InvalidData` I/O error for a value outside 1-12. -/
def Month.stream (m : Month) : SR :=
  match m.v with
  | 1 => .ok (lit "Jan")
  | 2 => .ok (lit "Feb")
  | 3 => .ok (lit "Mar")
  | 4 => .ok (lit "Apr")
  | 5 => .ok (lit "May")
  | 6 => .ok (lit "Jun")
  | 7 => .ok (lit "Jul")
  | 8 => .ok (lit "Aug")
  | 9 => .ok (lit "Sep")
  | 10 => .ok (lit "Oct")
  | 11 => .ok (lit "Nov")
  | 12 => .ok (lit "Dec")
  | _ => .error "Month out of range"

/-- `DayName::stream`: the three-letter day name, or an `InvalidData` I/O
error for a value outside 1-7. -/
def DayName.stream (d : DayName) : SR :=
  match d.v with
  | 1 => .ok (lit "Sun")
  | 2 => .ok (lit "Mon")
  | 3 => .ok (lit "Tue")
  | 4 => .ok (lit "Wed")
  | 5 => .ok (lit "Thu")
  | 6 => .ok (lit "Fri")
  | 7 => .ok (lit "Sat")
  | _ => .error "Day out of range"

/-- `Date::stream`: day, month, year. -/
def Date.stream (d : Date) : SR :=
  scatE (.ok (Day.stream d.day)) (scatE (Month.stream d.month) (.ok (Year.stream d.year)))

/-- `DayOfWeek::stream`. -/
def DayOfWeek.stream (d : DayOfWeek) : SR :=
  scatE (.ok (match d.pre_fws with | some f => FWS.stream f | none => ([], 0)))
    (DayName.stream d.day_name)

/-- `DateTime::stream`. -/
def DateTime.stream (dt : DateTime) : SR :=
  scatE
    (match dt.day_of_week with
     | some dow => scatE (DayOfWeek.stream dow) (.ok ([44], 1))
     | none => .ok ([], 0))
    (scatE (Date.stream dt.date)
      (scatE (.ok (Time.stream dt.time)) (.ok (streamOptCFWS dt.post_cfws))))

/-- `NoFoldLiteral::stream`. -/
def NoFoldLiteral.stream (n : NoFoldLiteral) : List Nat × Nat :=
  scat ([91], 1) (scat (DText.stream n.dtext) ([93], 1))

/-- `IdRight::stream`. -/
def IdRight.stream : IdRight → List Nat × Nat
  | .DotAtomText x => DotAtomText.stream x
  | .NoFoldLiteral x => NoFoldLiteral.stream x

/-- `IdLeft::stream`. -/
def IdLeft.stream (i : IdLeft) : List Nat × Nat := DotAtomText.stream i.dat

/-- `MsgId::stream`. -/
def MsgId.stream (m : MsgId) : List Nat × Nat :=
  scat (streamOptCFWS m.pre_cfws)
    (scat ([60], 1)
      (scat (IdLeft.stream m.id_left)
        (scat ([64], 1)
          (scat (IdRight.stream m.id_right)
            (scat ([62], 1) (streamOptCFWS m.post_cfws))))))

/-- `ReceivedToken::stream`. -/
def ReceivedToken.stream : ReceivedToken → List Nat × Nat
  | .Word x => Word.stream x
  | .AngleAddr x => AngleAddr.stream x
  | .AddrSpec x => AddrSpec.stream x
  | .Domain x => Domain.stream x

/-- `Path::stream`. -/
def Path.stream : Path → List Nat × Nat
  | .AngleAddr aa => AngleAddr.stream aa
  | .Other c1 c2 c3 =>
    scat (streamOptCFWS c1)
      (scat ([60], 1) (scat (streamOptCFWS c2) (scat ([62], 1) (streamOptCFWS c3))))

/-- `FieldName::stream`. -/
def FieldName.stream (f : FieldName) : List Nat × Nat := FText.stream f.ftext

/-- `OrigDate::stream`: `"Date:"`, the date-time, CRLF. -/
def OrigDate.stream (x : OrigDate) : SR :=
  scatE (.ok (lit "Date:")) (scatE (DateTime.stream x.dt) (.ok ([13, 10], 2)))

/-- `From::stream`. -/
def From.stream (x : From) : List Nat × Nat :=
  scat (lit "From:") (scat (MailboxList.stream x.ml) ([13, 10], 2))

/-- `Sender::stream`. -/
def Sender.stream (x : Sender) : List Nat × Nat :=
  scat (lit "Sender:") (scat (Mailbox.stream x.mb) ([13, 10], 2))

/-- `ReplyTo::stream`. -/
def ReplyTo.stream (x : ReplyTo) : List Nat × Nat :=
  scat (lit "Reply-To:") (scat (AddressList.stream x.al) ([13, 10], 2))

/-- `To::stream`. -/
def To.stream (x : To) : List Nat × Nat :=
  scat (lit "To:") (scat (AddressList.stream x.al) ([13, 10], 2))

/-- `Cc::stream`. -/
def Cc.stream (x : Cc) : List Nat × Nat :=
  scat (lit "Cc:") (scat (AddressList.stream x.al) ([13, 10], 2))

/-- `Bcc::stream`. -/
def Bcc.stream : Bcc → List Nat × Nat
  | .AddressList al => scat (lit "Bcc:") (scat (AddressList.stream al) ([13, 10], 2))
  | .CFWS c => scat (lit "Bcc:") (scat (CFWS.stream c) ([13, 10], 2))
  | .Empty => scat (lit "Bcc:") ([13, 10], 2)

/-- `MessageId::stream`. -/
def MessageId.stream (x : MessageId) : List Nat × Nat :=
  scat (lit "Message-ID:") (scat (MsgId.stream x.msg_id) ([13, 10], 2))

/-- `InReplyTo::stream`. -/
def InReplyTo.stream (x : InReplyTo) : List Nat × Nat :=
  scat (lit "In-Reply-To:") (scat (streamList MsgId.stream x.msg_ids) ([13, 10], 2))

/-- `References::stream`. -/
def References.stream (x : References) : List Nat × Nat :=
  scat (lit "References:") (scat (streamList MsgId.stream x.msg_ids) ([13, 10], 2))

/-- `Subject::stream`. -/
def Subject.stream (x : Subject) : List Nat × Nat :=
  scat (lit "Subject:") (scat (Unstructured.stream x.u) ([13, 10], 2))

/-- `Comments::stream`. -/
def Comments.stream (x : Comments) : List Nat × Nat :=
  scat (lit "Comments:") (scat (Unstructured.stream x.u) ([13, 10], 2))

/-- `Keywords::stream`: comma-joined phrases. -/
def Keywords.stream (x : Keywords) : List Nat × Nat :=
  scat (lit "Keywords:") (scat (streamCommaList Phrase.stream true x.phrases) ([13, 10], 2))

/-- `ResentDate::stream`. -/
def ResentDate.stream (x : ResentDate) : SR :=
  scatE (.ok (lit "Resent-Date:")) (scatE (DateTime.stream x.dt) (.ok ([13, 10], 2)))

/-- `ResentFrom::stream`. -/
def ResentFrom.stream (x : ResentFrom) : List Nat × Nat :=
  scat (lit "Resent-From:") (scat (MailboxList.stream x.ml) ([13, 10], 2))

/-- `ResentSender::stream`. -/
def ResentSender.stream (x : ResentSender) : List Nat × Nat :=
  scat (lit "Resent-Sender:") (scat (Mailbox.stream x.mb) ([13, 10], 2))

/-- `ResentTo::stream`. -/
def ResentTo.stream (x : ResentTo) : List Nat × Nat :=
  scat (lit "Resent-To:") (scat (AddressList.stream x.al) ([13, 10], 2))

/-- `ResentCc::stream`. -/
def ResentCc.stream (x : ResentCc) : List Nat × Nat :=
  scat (lit "Resent-Cc:") (scat (AddressList.stream x.al) ([13, 10], 2))

/-- `ResentBcc::stream`. -/
def ResentBcc.stream : ResentBcc → List Nat × Nat
  | .AddressList al => scat (lit "Resent-Bcc:") (scat (AddressList.stream al) ([13, 10], 2))
  | .CFWS c => scat (lit "Resent-Bcc:") (scat (CFWS.stream c) ([13, 10], 2))
  | .Empty => scat (lit "Resent-Bcc:") ([13, 10], 2)

/-- `ResentMessageId::stream`. -/
def ResentMessageId.stream (x : ResentMessageId) : List Nat × Nat :=
  scat (lit "Resent-Message-ID:") (scat (MsgId.stream x.msg_id) ([13, 10], 2))

/-- `Received::stream`. -/
def Received.stream (x : Received) : SR :=
  scatE (.ok (lit "Received:"))
    (scatE
      (.ok (match x.received_tokens with
        | .Tokens vec => streamList ReceivedToken.stream vec
        | .Comment c => CFWS.stream c))
      (scatE (.ok ([59], 1))
        (scatE (DateTime.stream x.date_time) (.ok ([13, 10], 2)))))

/-- `Return::stream`. -/
def Return.stream (x : Return) : List Nat × Nat :=
  scat (lit "Return-Path:") (scat (Path.stream x.path) ([13, 10], 2))

/-- `OptionalField::stream`. -/
def OptionalField.stream (x : OptionalField) : List Nat × Nat :=
  scat (FieldName.stream x.name)
    (scat ([58], 1) (scat (Unstructured.stream x.value) ([13, 10], 2)))

/-- `Trace::stream`: optional return-path, then the received fields. -/
def Trace.stream (t : Trace) : SR :=
  scatE (.ok (match t.return_path with | some rp => Return.stream rp | none => ([], 0)))
    (streamListE Received.stream t.received)

/-- `ResentField::stream`. -/
def ResentField.stream : ResentField → SR
  | .Date x => ResentDate.stream x
  | .From x => .ok (ResentFrom.stream x)
  | .Sender x => .ok (ResentSender.stream x)
  | .To x => .ok (ResentTo.stream x)
  | .Cc x => .ok (ResentCc.stream x)
  | .Bcc x => .ok (ResentBcc.stream x)
  | .MessageId x => .ok (ResentMessageId.stream x)

/-- `Field::stream`. -/
def Field.stream : Field → SR
  | .OrigDate x => OrigDate.stream x
  | .From x => .ok (From.stream x)
  | .Sender x => .ok (Sender.stream x)
  | .ReplyTo x => .ok (ReplyTo.stream x)
  | .To x => .ok (To.stream x)
  | .Cc x => .ok (Cc.stream x)
  | .Bcc x => .ok (Bcc.stream x)
  | .MessageId x => .ok (MessageId.stream x)
  | .InReplyTo x => .ok (InReplyTo.stream x)
  | .References x => .ok (References.stream x)
  | .Subject x => .ok (Subject.stream x)
  | .Comments x => .ok (Comments.stream x)
  | .Keywords x => .ok (Keywords.stream x)
  | .OptionalField x => .ok (OptionalField.stream x)

/-- `ResentTraceBlock::stream`. -/
def ResentTraceBlock.stream (b : ResentTraceBlock) : SR :=
  scatE (Trace.stream b.trace) (streamListE ResentField.stream b.resent_fields)

/-- `OptTraceBlock::stream`. -/
def OptTraceBlock.stream (b : OptTraceBlock) : SR :=
  scatE (Trace.stream b.trace)
    (streamListE (fun f => .ok (OptionalField.stream f)) b.opt_fields)

/-- `TraceBlock::stream`. -/
def TraceBlock.stream : TraceBlock → SR
  | .Resent b => ResentTraceBlock.stream b
  | .Opt b => OptTraceBlock.stream b

/-- `Fields::stream`: the trace blocks then the ordinary fields. -/
def Fields.stream (f : Fields) : SR :=
  scatE (streamListE TraceBlock.stream f.trace_blocks)
    (streamListE Field.stream f.fields)

/-- `Body::stream`: write the owned bytes. -/
def Body.stream (b : Body) : List Nat × Nat := (b.bytes, b.bytes.length)

/-- `Message::stream`: the fields, then (when present) the body — with no
separator between them. -/
def Message.stream (m : Message) : SR :=
  scatE (Fields.stream m.fields)
    (match m.body with | some b => .ok (Body.stream b) | none => .ok ([], 0))

/-- `Email::stream` (`lib.rs`): the wrapped message. -/
def Email.stream (e : Email) : SR := Message.stream e.message

end EmailFormat

namespace EmailFormat

/-! ### Support definitions used by the claim statements -/

/-- Byte-level sufficient condition for "contains no folding whitespace
and no comments": no HTAB, LF, CR, SP and no `(` byte (FWS needs a WSP or
CRLF byte and a comment needs an opening parenthesis). -/
def noWsNoParen (l : List Nat) : Prop :=
  ∀ b ∈ l, b ≠ 9 ∧ b ≠ 10 ∧ b ≠ 13 ∧ b ≠ 32 ∧ b ≠ 40

instance (l : List Nat) : Decidable (noWsNoParen l) := by
  unfold noWsNoParen; infer_instance

/-- Whitespace-only bytes: HTAB, LF, CR, SP (none of them visible). -/
def wsOnly (l : List Nat) : Prop := ∀ b ∈ l, b = 9 ∨ b = 10 ∨ b = 13 ∨ b = 32

instance (l : List Nat) : Decidable (wsOnly l) := by
  unfold wsOnly; infer_instance

/-- Join a list of body lines with CRLF in front of a final rest. -/
def joinCRLF : List (List Nat) → List Nat → List Nat
  | [], rest => rest
  | l :: ls, rest => l ++ 13 :: 10 :: joinCRLF ls rest

/-- The 19-byte example address of the specification. -/
def jsB : List Nat := strBytes "joe.smith@gmail.com"

/-- The value `AddrSpec::parse` produces for `jsB`. -/
def vJS : AddrSpec :=
  ⟨.DotAtom ⟨none, ⟨[⟨strBytes "joe"⟩, ⟨strBytes "smith"⟩]⟩, none⟩,
   .DotAtom ⟨none, ⟨[⟨strBytes "gmail"⟩, ⟨strBytes "com"⟩]⟩, none⟩⟩

/-- A message with one Subject field and the body "Hi". -/
def msgWithBody : Message :=
  ⟨⟨[], [.Subject ⟨⟨false, [⟨strBytes "test"⟩], false⟩⟩]⟩, some ⟨strBytes "Hi"⟩⟩

/-- The same fields with no body: what parsing the streamed bytes of
`msgWithBody` actually produces. -/
def msgNoBody : Message :=
  ⟨⟨[], [.Subject ⟨⟨false, [⟨strBytes "test"⟩], false⟩⟩]⟩, none⟩

/-- An email input with a From header and a body but no Date header. -/
def c9input : List Nat := strBytes "From: me@x.net\r\n\r\nHi"

/-- No carriage-return byte in a byte list. -/
def noCR (l : List Nat) : Prop := ∀ b ∈ l, b ≠ 13

instance (l : List Nat) : Decidable (noCR l) := by
  unfold noCR; infer_instance

/-- The parser consumed a prefix: the remainder is a suffix of the input. -/
def sfx (input rem : List Nat) : Prop := ∃ C, input = C ++ rem

/-- The parser consumed a prefix whose last two bytes are CRLF (every
header-field parse ends with its `req_crlf!`). -/
def cec (input rem : List Nat) : Prop := ∃ C, input = C ++ 13 :: 10 :: rem

/-- Streamed bytes of one header line: CR-free nonempty content followed by
exactly one CRLF. -/
def lineOK (s : List Nat × Nat) : Prop :=
  ∃ C, s.1 = C ++ [13, 10] ∧ noCR C ∧ C ≠ []

/-- Shape of a streamed header-field section: a sequence of header lines,
each one CR-free nonempty content terminated by a single CRLF.  Such a
byte list can never contain two consecutive CRLFs. -/
inductive FieldSection : List Nat → Prop
  | nil : FieldSection []
  | block (C rest : List Nat) : C ≠ [] → noCR C → FieldSection rest →
      FieldSection (C ++ 13 :: 10 :: rest)

end EmailFormat

namespace EmailFormat

/-! ### Basic list lemmas for the character-class parser -/

theorem mem_takeWhile_true {p : Nat → Bool} :
    ∀ (l : List Nat) (b : Nat), b ∈ l.takeWhile p → p b = true := by
  intro l
  induction l with
  | nil => intro b h; simp [List.takeWhile] at h
  | cons c cs ih =>
    intro b h
    by_cases hc : p c
    · rw [List.takeWhile_cons_of_pos hc] at h
      rcases List.mem_cons.mp h with h1 | h2
      · rwa [h1]
      · exact ih b h2
    · rw [List.takeWhile_cons_of_neg hc] at h
      simp at h

theorem dropWhile_cons_head_false {p : Nat → Bool} :
    ∀ (l : List Nat) (c : Nat) (cs : List Nat),
      l.dropWhile p = c :: cs → p c = false := by
  intro l
  induction l with
  | nil => intro c cs h; simp [List.dropWhile] at h
  | cons d ds ih =>
    intro c cs h
    by_cases hd : p d
    · rw [List.dropWhile_cons_of_pos hd] at h
      exact ih c cs h
    · rw [List.dropWhile_cons_of_neg hd] at h
      cases h
      exact Bool.eq_false_iff.mpr hd

/-- Claim C6: a character-class primitive (the parser `def_cclass!`
generates, here `cclassParse test`) succeeds exactly when the first byte
satisfies the predicate, returning the maximal non-empty matching prefix
and the rest as remainder; with zero bytes matched it fails with `Eof` on
empty input and `NotFound` otherwise; it never succeeds with an empty
matched sequence. -/
theorem c6_cclass_behavior (test : Nat → Bool) (input : List Nat) :
    (input = [] → cclassParse test input = .error (.Eof "")) ∧
    (∀ b rest, input = b :: rest → test b = true →
      ∃ out rem, cclassParse test input = .ok (out, rem) ∧ out ≠ [] ∧
        out ++ rem = input ∧ (∀ c ∈ out, test c = true) ∧
        (rem = [] ∨ ∃ c cs, rem = c :: cs ∧ test c = false)) ∧
    (∀ b rest, input = b :: rest → test b = false →
      cclassParse test input = .error (.NotFound "")) ∧
    (∀ out rem, cclassParse test input = .ok (out, rem) → out ≠ []) := by
  refine ⟨?_, ?_, ?_, ?_⟩
  · intro h; subst h; rfl
  · intro b rest h hb
    subst h
    have hout : (b :: rest).takeWhile test = b :: rest.takeWhile test :=
      List.takeWhile_cons_of_pos hb
    refine ⟨(b :: rest).takeWhile test, (b :: rest).dropWhile test, ?_, ?_, ?_, ?_, ?_⟩
    · unfold cclassParse
      simp only [hout]
      simp
    · simp [hout]
    · exact List.takeWhile_append_dropWhile test (b :: rest)
    · intro c hc; exact mem_takeWhile_true _ c hc
    · cases hdrop : (b :: rest).dropWhile test with
      | nil => exact Or.inl rfl
      | cons c cs => exact Or.inr ⟨c, cs, rfl, dropWhile_cons_head_false _ c cs hdrop⟩
  · intro b rest h hb
    subst h
    unfold cclassParse
    simp [List.takeWhile_cons_of_neg (by simp [hb] : ¬ test b = true), hb]
  · intro out rem h
    unfold cclassParse at h
    by_cases hlen : (input.takeWhile test).length > 0
    · simp only [hlen, if_pos] at h
      cases h
      intro hnil
      rw [hnil] at hlen
      simp at hlen
    · simp only [hlen, if_neg, if_false] at h
      split at h <;> cases h

/-- Witness for C6: concrete instances for the three behaviours at the
`AText` class. -/
theorem c6_witness :
    cclassParse is_atext [] = .error (.Eof "") ∧
    (∃ out rem, cclassParse is_atext [97, 98, 40] = .ok (out, rem) ∧ out ≠ [] ∧
      out ++ rem = [97, 98, 40] ∧ (∀ c ∈ out, is_atext c = true) ∧
      (rem = [] ∨ ∃ c cs, rem = c :: cs ∧ is_atext c = false)) ∧
    cclassParse is_atext [40, 97] = .error (.NotFound "") :=
  ⟨(c6_cclass_behavior is_atext []).1 rfl,
   (c6_cclass_behavior is_atext [97, 98, 40]).2.1 97 [98, 40] rfl (by decide),
   (c6_cclass_behavior is_atext [40, 97]).2.2.1 40 [97] rfl (by decide)⟩

/-- Counterexample for C4: the `ParseError` enum declared in `error.rs`
has no `TrailingInput` variant (and the claim asserts it is offered). -/
theorem c4_counterexample :
    ¬ ∃ e : ErrorRs.ParseError, e.kind = "TrailingInput" := by
  rintro ⟨e, h⟩
  cases e <;> simp [ErrorRs.ParseError.kind] at h

/-- Claim C4 (amended): the error enum declared in `error.rs` offers
exactly the kinds `Eof`, `NotFound`, `Expected`, `ExpectedType`, `Io`,
`InvalidBodyChar` and `LineTooLong` — each of them inhabited and no other;
in particular none of `TrailingInput`, `InternalError` or a wrapping
`Parse` variant exist in the declared type (they appear only in the newer
code of `headers.rs`/`lib.rs`, which this older declaration does not
match). -/
theorem c4_declared_error_kinds :
    (∀ e : ErrorRs.ParseError,
      e.kind = "Eof" ∨ e.kind = "NotFound" ∨ e.kind = "Expected" ∨
      e.kind = "ExpectedType" ∨ e.kind = "Io" ∨ e.kind = "InvalidBodyChar" ∨
      e.kind = "LineTooLong") ∧
    (∃ e : ErrorRs.ParseError, e.kind = "Eof") ∧
    (∃ e : ErrorRs.ParseError, e.kind = "NotFound") ∧
    (∃ e : ErrorRs.ParseError, e.kind = "Expected") ∧
    (∃ e : ErrorRs.ParseError, e.kind = "ExpectedType") ∧
    (∃ e : ErrorRs.ParseError, e.kind = "Io") ∧
    (∃ e : ErrorRs.ParseError, e.kind = "InvalidBodyChar") ∧
    (∃ e : ErrorRs.ParseError, e.kind = "LineTooLong") ∧
    (¬ ∃ e : ErrorRs.ParseError, e.kind = "InternalError") ∧
    (¬ ∃ e : ErrorRs.ParseError, e.kind = "Parse") := by
  refine ⟨?_, ⟨.Eof, rfl⟩, ⟨.NotFound, rfl⟩, ⟨.Expected [], rfl⟩,
    ⟨.ExpectedType "", rfl⟩, ⟨.Io, rfl⟩, ⟨.InvalidBodyChar 0, rfl⟩,
    ⟨.LineTooLong 0, rfl⟩, ?_, ?_⟩
  · intro e; cases e <;> simp [ErrorRs.ParseError.kind]
  · rintro ⟨e, h⟩; cases e <;> simp [ErrorRs.ParseError.kind] at h
  · rintro ⟨e, h⟩; cases e <;> simp [ErrorRs.ParseError.kind] at h

/-- Claim C1: `Message::parse` evaluates `&rem[..2]` after the field
section without a bounds check; on the input "A:b\r\n" — entirely consumed
by the header-field section, leaving an empty remainder — it panics
instead of returning `Ok` or an error. -/
theorem c1_message_parse_panics :
    Message.parse (strBytes "A:b\r\n") = .panicked := rfl

/-- Claim C7: converting "mike@optcomp.nz[.xyz]" into a `Sender` fails
with `TrailingInput` at offset 15 (the consumed prefix), but the
production name it carries is the literal string "$to" — the
`impl_try_from!` macro places `$to` inside a string literal, which Rust
macros do not substitute — so the error does not identify `Sender`. -/
theorem c7_sender_trailing_input :
    Sender.tryFromBytes (strBytes "mike@optcomp.nz[.xyz]")
      = .error (.TrailingInput "$to" 15) := rfl

end EmailFormat

namespace EmailFormat

/-! ### Decimal-length lemmas for the C2 stream-count analysis -/

theorem dda_small (fuel n : Nat) (hf : 0 < fuel) (hn : n < 10) :
    decDigitsAux fuel n = [48 + n] := by
  cases fuel with
  | zero => omega
  | succ f => simp [decDigitsAux, hn]

theorem dda_congr : ∀ (f1 : Nat), ∀ (f2 n : Nat), 0 < f1 → 0 < f2 →
    n < 10 ^ f1 → n < 10 ^ f2 → decDigitsAux f1 n = decDigitsAux f2 n := by
  intro f1
  induction f1 with
  | zero => intro f2 n h1; omega
  | succ g ih =>
    intro f2 n _ h2 hn1 hn2
    cases f2 with
    | zero => omega
    | succ h =>
      by_cases hn : n < 10
      · rw [dda_small _ _ (by omega) hn, dda_small _ _ (by omega) hn]
      · have hg : 0 < g := by
          by_contra hg0
          have : g = 0 := by omega
          subst this
          simp at hn1
          omega
        have hh : 0 < h := by
          by_contra hh0
          have : h = 0 := by omega
          subst this
          simp at hn2
          omega
        have hd1 : n / 10 < 10 ^ g := by
          rw [Nat.div_lt_iff_lt_mul (by norm_num)]
          calc n < 10 ^ (g + 1) := hn1
          _ = 10 ^ g * 10 := by ring
        have hd2 : n / 10 < 10 ^ h := by
          rw [Nat.div_lt_iff_lt_mul (by norm_num)]
          calc n < 10 ^ (h + 1) := hn2
          _ = 10 ^ h * 10 := by ring
        simp only [decDigitsAux, if_neg hn]
        rw [ih h (n / 10) hg hh hd1 hd2]

theorem dda_len : ∀ (fuel n : Nat), n < 10 ^ fuel →
    (decDigitsAux fuel n).length ≤ fuel := by
  intro fuel
  induction fuel with
  | zero => intro n h; simp [decDigitsAux]
  | succ f ih =>
    intro n hn
    by_cases h : n < 10
    · simp [decDigitsAux, h]
    · have hd : n / 10 < 10 ^ f := by
        rw [Nat.div_lt_iff_lt_mul (by norm_num)]
        calc n < 10 ^ (f + 1) := hn
        _ = 10 ^ f * 10 := by ring
      simp only [decDigitsAux, if_neg h, List.length_append, List.length_cons,
        List.length_nil]
      have := ih (n / 10) hd
      omega

theorem n_lt_ten_pow_succ (n : Nat) : n < 10 ^ (n + 1) :=
  lt_of_lt_of_le (Nat.lt_pow_self (by norm_num) n)
    (Nat.pow_le_pow_right (by norm_num) (Nat.le_succ n))

theorem decDigits_len_le (n k : Nat) (hk : 0 < k) (h : n < 10 ^ k) :
    (decDigits n).length ≤ k := by
  unfold decDigits
  rw [dda_congr (n + 1) k n (by omega) hk (n_lt_ten_pow_succ n) h]
  exact dda_len k n h

theorem decDigits_two (n : Nat) (h1 : 10 ≤ n) (h2 : n ≤ 99) :
    (decDigits n).length = 2 := by
  unfold decDigits
  rw [dda_congr (n + 1) 2 n (by omega) (by omega) (n_lt_ten_pow_succ n) (by omega)]
  have hn : ¬ n < 10 := by omega
  have hd : n / 10 < 10 := by omega
  simp [decDigitsAux, hn, hd]

theorem zeroPad_len (w n : Nat) (h : (decDigits n).length ≤ w) :
    (zeroPad w n).length = w := by
  simp [zeroPad]
  omega

/-- Counterexample for C2: `Day::stream` on the one-digit day 5 writes the
three bytes " 5 " but returns the hard-coded count 4 — the returned count
is not the number of bytes written. -/
theorem c2_counterexample :
    (Day.stream ⟨5⟩).1.length = 3 ∧ (Day.stream ⟨5⟩).2 = 4 := ⟨rfl, rfl⟩

/-- Claim C2 (amended): the numeric date/time streams return hard-coded
counts, which equal the bytes written only when each numeric value has its
expected decimal width — `Day::stream` returns 4 and is exact exactly for
two-digit days (10-99, one-digit days write 3 bytes), `Zone::stream`
returns 6 and is exact for |zone| ≤ 9999, `TimeOfDay::stream` returns 8/5
and is exact when hour, minute and second are ≤ 99; the character-class
streams return exactly the bytes written, and composite counts equal the
sum of the children's returned counts plus the literal bytes (shown for
`Time` and `AddrSpec`). -/
theorem c2_stream_counts :
    (∀ d : Nat, 10 ≤ d → d ≤ 99 →
      (Day.stream ⟨d⟩).1.length = 4 ∧ (Day.stream ⟨d⟩).2 = 4) ∧
    (∀ z : Int, -9999 ≤ z → z ≤ 9999 →
      (Zone.stream ⟨z⟩).1.length = 6 ∧ (Zone.stream ⟨z⟩).2 = 6) ∧
    (∀ t : TimeOfDay, t.hour.v ≤ 99 → t.minute.v ≤ 99 →
      (∀ s, t.second = some s → s.v ≤ 99) →
      (TimeOfDay.stream t).1.length = (TimeOfDay.stream t).2) ∧
    (∀ bytes : List Nat, (cclassStream bytes).2 = (cclassStream bytes).1.length) ∧
    (∀ t : Time,
      (Time.stream t).2 = (TimeOfDay.stream t.time_of_day).2 + (Zone.stream t.zone).2) ∧
    (∀ a : AddrSpec,
      (AddrSpec.stream a).2
        = (LocalPart.stream a.local_part).2 + (1 + (Domain.stream a.domain).2)) := by
  refine ⟨?_, ?_, ?_, fun _ => rfl, fun _ => rfl, fun _ => rfl⟩
  · intro d h1 h2
    constructor
    · simp [Day.stream, decDigits_two d h1 h2]
    · rfl
  · intro z h1 h2
    by_cases hz : z < 0
    · have hle : (-z).toNat ≤ 9999 := by omega
      have h4 : (-z).toNat < 10 ^ 4 := by omega
      constructor
      · simp [Zone.stream, if_pos hz,
          zeroPad_len 4 _ (decDigits_len_le _ 4 (by omega) h4)]
      · simp [Zone.stream, if_pos hz]
    · have hle : z.toNat ≤ 9999 := by omega
      have h4 : z.toNat < 10 ^ 4 := by omega
      constructor
      · simp [Zone.stream, if_neg hz,
          zeroPad_len 4 _ (decDigits_len_le _ 4 (by omega) h4)]
      · simp [Zone.stream, if_neg hz]
  · intro t hh hm hs
    have ph : (zeroPad 2 t.hour.v).length = 2 :=
      zeroPad_len 2 _ (decDigits_len_le _ 2 (by omega) (by omega))
    have pm : (zeroPad 2 t.minute.v).length = 2 :=
      zeroPad_len 2 _ (decDigits_len_le _ 2 (by omega) (by omega))
    cases hsec : t.second with
    | none => simp [TimeOfDay.stream, hsec, ph, pm]
    | some s =>
      have hsle := hs s hsec
      have ps : (zeroPad 2 s.v).length = 2 :=
        zeroPad_len 2 _ (decDigits_len_le _ 2 (by omega) (by omega))
      simp [TimeOfDay.stream, hsec, ph, pm, ps]

/-- Witness for C2: the amended count exactness at concrete values. -/
theorem c2_witness :
    ((Day.stream ⟨15⟩).1.length = 4 ∧ (Day.stream ⟨15⟩).2 = 4) ∧
    ((Zone.stream ⟨-130⟩).1.length = 6 ∧ (Zone.stream ⟨-130⟩).2 = 6) ∧
    (TimeOfDay.stream ⟨⟨1⟩, ⟨2⟩, some ⟨3⟩⟩).1.length
      = (TimeOfDay.stream ⟨⟨1⟩, ⟨2⟩, some ⟨3⟩⟩).2 :=
  ⟨c2_stream_counts.1 15 (by omega) (by omega),
   c2_stream_counts.2.1 (-130) (by omega) (by omega),
   c2_stream_counts.2.2.1 ⟨⟨1⟩, ⟨2⟩, some ⟨3⟩⟩ (by decide) (by decide)
     (by intro s h; cases h; decide)⟩

end EmailFormat

namespace EmailFormat

/-! ### C8: Message::stream writes no blank-line separator before the body -/

/-! ### C9: get_date/set_date panic without an OrigDate field -/

theorem findOrigDate_panicked_iff :
    ∀ l : List Field, findOrigDate l = .panicked ↔ hasOrigDate l = false := by
  intro l
  induction l with
  | nil => simp [findOrigDate, hasOrigDate]
  | cons f rest ih =>
    cases f <;> simp [findOrigDate, hasOrigDate] <;>
      simpa [hasOrigDate] using ih

theorem setOrigDate_panicked_iff :
    ∀ (v : OrigDate) (l : List Field),
      setOrigDate v l = .panicked ↔ hasOrigDate l = false := by
  intro v l
  induction l with
  | nil => simp [setOrigDate, hasOrigDate]
  | cons f rest ih =>
    cases f <;>
      simp [setOrigDate, hasOrigDate] <;>
      (try (cases h : setOrigDate v rest)) <;>
      simp_all [hasOrigDate]

theorem findFrom_panicked_iff :
    ∀ l : List Field, findFrom l = .panicked ↔ hasFrom l = false := by
  intro l
  induction l with
  | nil => simp [findFrom, hasFrom]
  | cons f rest ih =>
    cases f <;> simp [findFrom, hasFrom] <;>
      simpa [hasFrom] using ih

theorem setFrom_panicked_iff :
    ∀ (v : From) (l : List Field),
      setFrom v l = .panicked ↔ hasFrom l = false := by
  intro v l
  induction l with
  | nil => simp [setFrom, hasFrom]
  | cons f rest ih =>
    cases f <;>
      simp [setFrom, hasFrom] <;>
      (try (cases h : setFrom v rest)) <;>
      simp_all [hasFrom]

/-- Claim C9: `Email::get_date`/`set_date` (and `get_from`/`set_from`)
terminate normally exactly when the field list contains an `OrigDate`
(resp. `From`) field, and otherwise reach their `unreachable!()` and
panic; `Email::new` establishes the precondition, while an `Email`
produced by `Email::parse` from an input lacking a Date header (the
concrete `c9input`) makes `get_date` and `set_date` panic. -/
theorem c9_get_date_panics :
    (∀ e : Email,
      Email.get_date e = .panicked ↔ hasOrigDate e.message.fields.fields = false) ∧
    (∀ (e : Email) (v : OrigDate),
      Email.set_date e v = .panicked ↔ hasOrigDate e.message.fields.fields = false) ∧
    (∀ e : Email,
      Email.get_from e = .panicked ↔ hasFrom e.message.fields.fields = false) ∧
    (∀ (e : Email) (v : From),
      Email.set_from e v = .panicked ↔ hasFrom e.message.fields.fields = false) ∧
    (∀ fromArg dateArg : List Nat,
      match Email.new fromArg dateArg with
      | .ok e => Email.get_date e ≠ .panicked ∧ Email.get_from e ≠ .panicked
      | .error _ => True) ∧
    (match Email.parse c9input with
      | .returned (.ok (e, rem)) =>
        rem = [] ∧ hasOrigDate e.message.fields.fields = false ∧
        Email.get_date e = .panicked ∧ ∀ v, Email.set_date e v = .panicked
      | _ => False) := by
  refine ⟨?_, ?_, ?_, ?_, ?_, ?_⟩
  · intro e; exact findOrigDate_panicked_iff _
  · intro e v
    unfold Email.set_date
    cases h : setOrigDate v e.message.fields.fields with
    | panicked => simpa [h] using (setOrigDate_panicked_iff v _).mp h
    | returned l =>
      simp only [h]
      constructor
      · intro hc; cases hc
      · intro hc
        have := (setOrigDate_panicked_iff v e.message.fields.fields).mpr hc
        rw [this] at h
        cases h
  · intro e; exact findFrom_panicked_iff _
  · intro e v
    unfold Email.set_from
    cases h : setFrom v e.message.fields.fields with
    | panicked => simpa [h] using (setFrom_panicked_iff v _).mp h
    | returned l =>
      simp only [h]
      constructor
      · intro hc; cases hc
      · intro hc
        have := (setFrom_panicked_iff v e.message.fields.fields).mpr hc
        rw [this] at h
        cases h
  · intro fromArg dateArg
    unfold Email.new
    cases hd : OrigDate.tryFromBytes dateArg with
    | error e => simp
    | ok dv =>
      cases hf : From.tryFromBytes fromArg with
      | error e => simp
      | ok fv =>
        refine ⟨?_, ?_⟩ <;> intro hc <;> cases hc
  · exact ⟨rfl, rfl, rfl, fun v => rfl⟩

end EmailFormat


namespace EmailFormat

/-! ### C10: Unstructured never parses whitespace-only input -/

theorem fws_ok_rem {input r : List Nat} {f : FWS} :
    FWS.parse input = .ok (f, r) → r = fwsAux input := by
  intro h
  unfold FWS.parse at h
  by_cases h0 : input.length = 0
  · rw [if_pos h0] at h; cases h
  · rw [if_neg h0] at h
    dsimp only at h
    by_cases h1 : (fwsAux input).length = input.length
    · rw [if_pos h1] at h; cases h
    · rw [if_neg h1] at h
      cases h
      rfl

theorem fwsAux_suffix : ∀ (l : List Nat), (fwsAux l) <:+ l := by
  intro l
  induction l using fwsAux.induct with
  | case1 => simp [fwsAux]
  | case2 b rest hb ih =>
    rw [fwsAux.eq_def]
    simp only [hb, if_true]
    exact ih.trans (List.suffix_cons b rest)
  | case3 b hb b2 c2 rest2 hcond ih =>
    rw [fwsAux.eq_def]
    simp only [hb, hcond, if_true, if_false]
    exact ih.trans
      (((List.suffix_cons c2 rest2).trans (List.suffix_cons b2 _)).trans
        (List.suffix_cons b _))
  | case4 b hb b2 c2 rest2 hcond =>
    rw [fwsAux.eq_def]
    simp only [hb, hcond, if_false, Bool.false_eq_true, if_neg]
    exact List.suffix_refl _
  | case5 b rest hb hshort =>
    rw [fwsAux.eq_def]
    match rest, hshort with
    | [], _ => simp [hb]
    | [x], _ => simp [hb]
    | x :: y :: zs, hs => exact (hs x y zs rfl).elim

theorem fwsAux_subset (l : List Nat) : ∀ b ∈ fwsAux l, b ∈ l :=
  fun _ hb => (fwsAux_suffix l).subset hb

theorem is_vchar_ws_false {b : Nat} (h : b = 9 ∨ b = 10 ∨ b = 13 ∨ b = 32) :
    is_vchar b = false := by
  rcases h with h | h | h | h <;> subst h <;> decide

theorem cclass_vchar_ws_error {l : List Nat}
    (h : ∀ b ∈ l, b = 9 ∨ b = 10 ∨ b = 13 ∨ b = 32) :
    ∃ e, cclassParse is_vchar l = .error e := by
  cases l with
  | nil => exact ⟨.Eof "", rfl⟩
  | cons c cs =>
    have hc : is_vchar c = false := is_vchar_ws_false (h c (by simp))
    refine ⟨.NotFound "", ?_⟩
    unfold cclassParse
    simp [List.takeWhile_cons_of_neg (by simp [hc] : ¬ is_vchar c = true)]

theorem unstrLoop_ws : ∀ (fuel : Nat) (rem : List Nat),
    (∀ b ∈ rem, b = 9 ∨ b = 10 ∨ b = 13 ∨ b = 32) →
    unstrLoop fuel rem = ([], rem) := by
  intro fuel rem hws
  cases fuel with
  | zero => rfl
  | succ f =>
    unfold unstrLoop
    by_cases hlen : rem.length = 0
    · rw [if_pos hlen]
    · rw [if_neg hlen]
      have hsub : ∀ b ∈ (match FWS.parse rem with
          | .ok (_, r) => r
          | .error _ => rem), b = 9 ∨ b = 10 ∨ b = 13 ∨ b = 32 := by
        cases h : FWS.parse rem with
        | ok p =>
          obtain ⟨f1, r1⟩ := p
          have hr := fws_ok_rem h
          intro b hb
          simp only at hb
          exact hws b (fwsAux_subset rem b (hr ▸ hb))
        | error e =>
          intro b hb
          simp only at hb
          exact hws b hb
      obtain ⟨e, he⟩ := cclass_vchar_ws_error hsub
      simp only [VChar.parse, he, Except.map]

theorem unstructured_ws_notfound (fuel : Nat) (input : List Nat)
    (hne : input ≠ []) (hws : wsOnly input) :
    unstructuredParse fuel input = .error (.NotFound "Unstructured") := by
  unfold unstructuredParse
  have hlen : ¬ input.length = 0 := by simpa [List.length_eq_zero] using hne
  rw [if_neg hlen]
  have hsub : ∀ b ∈ (tryParse FWS.parse input).2, b = 9 ∨ b = 10 ∨ b = 13 ∨ b = 32 := by
    unfold tryParse
    cases h : FWS.parse input with
    | ok p =>
      obtain ⟨f1, r1⟩ := p
      have hr := fws_ok_rem h
      intro b hb
      simp only at hb
      exact hws b (fwsAux_subset input b (hr ▸ hb))
    | error e =>
      intro b hb
      simp only at hb
      exact hws b hb
  rcases htp : tryParse FWS.parse input with ⟨lead, rem⟩
  rw [htp] at hsub
  simp only at hsub
  dsimp only
  rw [unstrLoop_ws fuel rem hsub]
  simp

/-- Counterexample for C10: on the empty input `Unstructured::parse` fails
with `Eof`, not `NotFound` as the claim states for every no-VChar input. -/
theorem c10_counterexample :
    Unstructured.parse [] = .error (.Eof "Unstructured") := rfl

/-- Claim C10 (amended): `Unstructured::parse` fails with `NotFound` for
every non-empty input consisting only of whitespace bytes (HTAB, LF, CR,
SP) and with `Eof` for the empty input — either way such header values
never parse — and consequently "Subject:" immediately followed by CRLF is
not parseable as a Subject field (it fails with
`Parse("Subject", NotFound("Unstructured"))`). -/
theorem c10_unstructured_not_found :
    (∀ input : List Nat, input ≠ [] → wsOnly input →
      Unstructured.parse input = .error (.NotFound "Unstructured")) ∧
    Subject.parse (strBytes "Subject:\r\n")
      = .error (.Parse "Subject" (.NotFound "Unstructured")) :=
  ⟨fun input h1 h2 => unstructured_ws_notfound (parseFuel input) input h1 h2, rfl⟩

/-- Witness for C10: a single space never parses as unstructured text. -/
theorem c10_witness :
    Unstructured.parse [32] = .error (.NotFound "Unstructured") :=
  c10_unstructured_not_found.1 [32] (by simp) (by decide)

end EmailFormat
namespace EmailFormat

/-! ### C5: InvalidBodyChar in Body::parse -/

theorem sut_cons_ne13 (c : Nat) (l : List Nat) (hc : c ≠ 13) :
    stream_until_token (c :: l) = (c :: (stream_until_token l).1, (stream_until_token l).2) := by
  rw [stream_until_token.eq_def]
  split
  · rename_i heq
    simp at heq
  · rename_i x rr heq
    rw [List.cons.injEq] at heq
    exact absurd heq.1 hc
  · rename_i x b rest hne heq
    rw [List.cons.injEq] at heq
    obtain ⟨hb, hl⟩ := heq
    subst hb
    subst hl
    rcases h : stream_until_token l with ⟨ll, rr⟩
    simp [h]

theorem sut_pre : ∀ (t rest : List Nat), (∀ c ∈ t, is_text c = true) →
    stream_until_token (t ++ rest)
      = (t ++ (stream_until_token rest).1, (stream_until_token rest).2) := by
  intro t
  induction t with
  | nil => intro rest h; simp
  | cons c t' ih =>
    intro rest h
    have hc : is_text c = true := h c (by simp)
    have hc13 : c ≠ 13 := by intro e; subst e; exact absurd hc (by decide)
    rw [List.cons_append, sut_cons_ne13 c _ hc13,
      ih rest (fun b hb => h b (List.mem_cons_of_mem c hb))]
    simp

theorem tw_all (p : Nat → Bool) : ∀ (t : List Nat) (b : Nat) (u : List Nat),
    (∀ c ∈ t, p c = true) → p b = false →
    (t ++ b :: u).takeWhile p = t ∧ (t ++ b :: u).dropWhile p = b :: u := by
  intro t
  induction t with
  | nil =>
    intro b u _ hb
    constructor
    · simp [List.takeWhile_cons_of_neg (by simp [hb] : ¬ p b = true)]
    · simp [List.dropWhile_cons_of_neg (by simp [hb] : ¬ p b = true)]
  | cons c t' ih =>
    intro b u h hb
    have hc := h c (by simp)
    have hrec := ih b u (fun x hx => h x (List.mem_cons_of_mem _ hx)) hb
    constructor
    · rw [List.cons_append, List.takeWhile_cons_of_pos hc, hrec.1]
    · rw [List.cons_append, List.dropWhile_cons_of_pos hc, hrec.2]

theorem bodyAux_succ (fuel ln : Nat) (input : List Nat) :
    bodyAux (fuel + 1) ln input =
      match stream_until_token input with
      | (line, found) =>
        match Text.parse line with
        | .ok (text, rem) =>
          if rem.length > 0 then .error (.InvalidBodyChar (rem.headD 0))
          else if text.bytes.length > 998 then .error (.LineTooLong ln)
          else
            match found with
            | none => .ok text.bytes
            | some rest =>
              (bodyAux fuel (ln + 1) rest).map (fun b => text.bytes ++ [13, 10] ++ b)
        | .error _ =>
          match found with
          | none => .ok []
          | some rest => (bodyAux fuel (ln + 1) rest).map (fun b => [13, 10] ++ b) := rfl

theorem text_parse_mixed (t : List Nat) (b : Nat) (u : List Nat)
    (ht : ∀ c ∈ t, is_text c = true) (hne : t ≠ []) (hb : is_text b = false) :
    Text.parse (t ++ b :: u) = .ok (⟨t⟩, b :: u) := by
  have htw := tw_all is_text t b u ht hb
  unfold Text.parse cclassParse
  rw [htw.1, htw.2]
  cases t with
  | nil => exact absurd rfl hne
  | cons a s => simp [Except.map]

theorem text_parse_all (c : List Nat) (hc : ∀ x ∈ c, is_text x = true) (hne : c ≠ []) :
    Text.parse c = .ok (⟨c⟩, []) := by
  have htw : c.takeWhile is_text = c := List.takeWhile_eq_self_iff.mpr hc
  have hdw : c.dropWhile is_text = [] := List.dropWhile_eq_nil_iff.mpr (fun x hx => hc x hx)
  unfold Text.parse cclassParse
  rw [htw, hdw]
  cases c with
  | nil => exact absurd rfl hne
  | cons a s => simp [Except.map]

theorem bodyAux_firstline_invalid (fuel ln : Nat) (t : List Nat) (b : Nat)
    (u : List Nat) (ht : ∀ c ∈ t, is_text c = true) (hne : t ≠ [])
    (hb : is_text b = false) (hb13 : b ≠ 13) :
    bodyAux (fuel + 1) ln (t ++ b :: u) = .error (.InvalidBodyChar b) := by
  rw [bodyAux_succ, sut_pre t (b :: u) ht, sut_cons_ne13 b u hb13]
  dsimp only
  rw [text_parse_mixed t b ((stream_until_token u).1) ht hne hb]
  simp

theorem bodyAux_cleanline (fuel ln : Nat) (c : List Nat) (rest : List Nat)
    (hc : ∀ x ∈ c, is_text x = true) (hlen : c.length ≤ 998) :
    bodyAux (fuel + 1) ln (c ++ 13 :: 10 :: rest)
      = (bodyAux fuel (ln + 1) rest).map (fun bb => c ++ [13, 10] ++ bb) := by
  rw [bodyAux_succ, sut_pre c (13 :: 10 :: rest) hc,
    show stream_until_token (13 :: 10 :: rest) = ([], some rest) from rfl]
  dsimp only
  rw [List.append_nil]
  cases hc0 : c with
  | nil =>
    subst hc0
    rw [show Text.parse [] = .error (.Eof "") from rfl]
    dsimp only
    cases h : bodyAux fuel (ln + 1) rest <;> simp [h, Except.map]
  | cons a s =>
    rw [← hc0, text_parse_all c hc (by rw [hc0]; simp)]
    have h998 : ¬ ([] : List Nat).length > 0 := by simp
    have hlt : ¬ c.length > 998 := by omega
    dsimp only
    rw [if_neg h998, if_neg (by simpa using hlt)]

theorem joinCRLF_len_ge : ∀ (pres : List (List Nat)) (rest : List Nat),
    pres.length ≤ (joinCRLF pres rest).length := by
  intro pres
  induction pres with
  | nil => intro rest; simp [joinCRLF]
  | cons l ls ih =>
    intro rest
    have := ih rest
    simp only [joinCRLF, List.length_append, List.length_cons]
    omega

theorem bodyAux_joined_invalid : ∀ (pres : List (List Nat)) (fuel ln : Nat)
    (t : List Nat) (b : Nat) (u : List Nat),
    (∀ l ∈ pres, (∀ c ∈ l, is_text c = true) ∧ l.length ≤ 998) →
    (∀ c ∈ t, is_text c = true) → t ≠ [] → is_text b = false → b ≠ 13 →
    pres.length < fuel →
    bodyAux fuel ln (joinCRLF pres (t ++ b :: u)) = .error (.InvalidBodyChar b) := by
  intro pres
  induction pres with
  | nil =>
    intro fuel ln t b u _ ht hne hb hb13 hfuel
    obtain ⟨f, rfl⟩ : ∃ f, fuel = f + 1 := ⟨fuel - 1, by omega⟩
    exact bodyAux_firstline_invalid f ln t b u ht hne hb hb13
  | cons l ls ih =>
    intro fuel ln t b u hpres ht hne hb hb13 hfuel
    obtain ⟨f, rfl⟩ : ∃ f, fuel = f + 1 := ⟨fuel - 1, by omega⟩
    have hl := hpres l (by simp)
    rw [show joinCRLF (l :: ls) (t ++ b :: u)
        = l ++ 13 :: 10 :: joinCRLF ls (t ++ b :: u) from rfl]
    rw [bodyAux_cleanline f ln l _ hl.1 hl.2]
    rw [ih f (ln + 1) t b u (fun x hx => hpres x (List.mem_cons_of_mem l hx)) ht hne hb hb13
      (by simp at hfuel; omega)]
    rfl

/-- Counterexample for C5: a body line whose FIRST byte is invalid (the
single byte 0x00) does not fail with `InvalidBodyChar` — `Text::parse`
fails on the line, `Body::parse` silently drops its content and succeeds
with an empty body. -/
theorem c5_counterexample : Body.parse [0] = .ok (⟨[]⟩, []) := rfl

/-- Claim C5 (amended): `Body::parse` fails with `InvalidBodyChar b` for a
body whose offending line has at least one valid text byte *before* the
invalid byte `b` (with every earlier line all-text and at most 998 bytes
long); a line whose invalid byte comes first is instead silently dropped
without an error.  `pres` are the earlier (clean) lines, `t` the non-empty
text prefix of the offending line, `b` the invalid byte (any non-text byte
other than CR, whose role depends on the following byte), `u` the rest of
the input. -/
theorem c5_invalid_body_char :
    ∀ (pres : List (List Nat)) (t : List Nat) (b : Nat) (u : List Nat),
      (∀ l ∈ pres, (∀ c ∈ l, is_text c = true) ∧ l.length ≤ 998) →
      (∀ c ∈ t, is_text c = true) → t ≠ [] → is_text b = false → b ≠ 13 →
      Body.parse (joinCRLF pres (t ++ b :: u)) = .error (.InvalidBodyChar b) := by
  intro pres t b u hpres ht hne hb hb13
  unfold Body.parse bodyParse
  rw [bodyAux_joined_invalid pres (parseFuel (joinCRLF pres (t ++ b :: u))) 1 t b u hpres ht hne
    hb hb13 (by
      have := joinCRLF_len_ge pres (t ++ b :: u)
      unfold parseFuel
      omega)]
  rfl

/-- Witness for C5: after one clean line "A", the line "B\x00" fails with
`InvalidBodyChar 0`. -/
theorem c5_witness :
    Body.parse (joinCRLF [[65]] ([66] ++ 0 :: [])) = .error (.InvalidBodyChar 0) :=
  c5_invalid_body_char [[65]] [66] 0 []
    (by intro l hl; simp at hl; subst hl; exact ⟨by intro c hc; simp at hc; subst hc; decide, by simp⟩)
    (by intro c hc; simp at hc; subst hc; decide) (by simp) (by decide) (by decide)

end EmailFormat


/-! ### C3: the AddrSpec round trip on whitespace- and comment-free input

Under `noWsNoParen` no FWS, comment or CFWS parse can succeed, every
optional `[CFWS]` slot parses to `none`, and each production's stream
output prepended to its remainder reproduces its input; the lemmas climb
the grammar from the character classes up to `AddrSpec`. -/

namespace EmailFormat

theorem cclass_append {test : Nat → Bool} {input out rem : List Nat} :
    cclassParse test input = .ok (out, rem) → out ++ rem = input ∧ out ≠ [] := by
  intro h
  unfold cclassParse at h
  by_cases hlen : (input.takeWhile test).length > 0
  · rw [if_pos hlen] at h
    cases h
    refine ⟨List.takeWhile_append_dropWhile test input, ?_⟩
    intro hnil
    rw [hnil] at hlen
    simp at hlen
  · rw [if_neg hlen] at h
    split at h <;> cases h

theorem noWS_right {a b : List Nat} (h : noWsNoParen (a ++ b)) : noWsNoParen b :=
  fun x hx => h x (List.mem_append_right a hx)

theorem noWS_tail {c : Nat} {l : List Nat} (h : noWsNoParen (c :: l)) : noWsNoParen l :=
  fun x hx => h x (List.mem_cons_of_mem c hx)

theorem noWS_head {c : Nat} {l : List Nat} (h : noWsNoParen (c :: l)) :
    c ≠ 9 ∧ c ≠ 10 ∧ c ≠ 13 ∧ c ≠ 32 ∧ c ≠ 40 := h c (by simp)

theorem fwsAux_no_ws_head {c : Nat} {rest : List Nat}
    (h1 : is_wsp c = false) (h2 : c ≠ 13) : fwsAux (c :: rest) = c :: rest := by
  rw [fwsAux.eq_def]
  dsimp only
  rw [if_neg (by simp [h1])]
  match rest with
  | [] => rfl
  | [x] => rfl
  | x :: y :: zs =>
    have : (c == 13 && x == 10 && is_wsp y) = false := by
      have : (c == 13) = false := by simp [h2]
      simp [this]
    simp [this]

theorem fws_fail {input : List Nat} (h : noWsNoParen input) :
    ∃ e, FWS.parse input = .error e := by
  cases input with
  | nil => exact ⟨.Eof "Folding White Space", rfl⟩
  | cons c rest =>
    obtain ⟨h9, _, h13, h32, _⟩ := noWS_head h
    have hwsp : is_wsp c = false := by simp [is_wsp, h9, h32]
    refine ⟨.NotFound "Folding White Space", ?_⟩
    unfold FWS.parse
    rw [if_neg (by simp)]
    dsimp only
    rw [fwsAux_no_ws_head hwsp h13, if_pos rfl]

theorem comment_fail (fuel : Nat) {input : List Nat} (h : noWsNoParen input) :
    ∃ e, commentParse fuel input = .error e := by
  cases fuel with
  | zero => exact ⟨.InternalError, rfl⟩
  | succ f =>
    cases input with
    | nil => exact ⟨.Eof "Comment", rfl⟩
    | cons c rest =>
      obtain ⟨_, _, _, _, h40⟩ := noWS_head h
      refine ⟨.Expected [40], ?_⟩
      unfold commentParse
      rw [if_neg (by simp)]
      have hreq : req (c :: rest) [40] = .error (.Expected [40]) := by
        unfold req
        rw [if_neg (by simp)]
        rw [if_pos (by simp [h40])]
      rw [hreq]

theorem cfwsLoop_noWS (fuel : Nat) (input : List Nat) (h : noWsNoParen input) :
    cfwsLoop fuel false input = ([], false, input) := by
  cases fuel with
  | zero => rfl
  | succ f =>
    unfold cfwsLoop
    by_cases hlen : input.length = 0
    · rw [if_pos hlen]
    · rw [if_neg hlen]
      obtain ⟨e1, he1⟩ := fws_fail h
      rw [he1]
      dsimp only
      obtain ⟨e2, he2⟩ := comment_fail f h
      rw [he2]

theorem cfws_fail (fuel : Nat) {input : List Nat} (h : noWsNoParen input) :
    ∃ e, cfwsParse fuel input = .error e := by
  cases input with
  | nil => exact ⟨.Eof "Comment Folding White Space", rfl⟩
  | cons c rest =>
    refine ⟨.NotFound "Comment Folding White Space", ?_⟩
    unfold cfwsParse
    rw [if_neg (by simp)]
    rw [cfwsLoop_noWS fuel _ h]
    rfl

theorem tryParse_cfws_none (fuel : Nat) {input : List Nat} (h : noWsNoParen input) :
    tryParse (cfwsParse fuel) input = (none, input) := by
  obtain ⟨e, he⟩ := cfws_fail fuel h
  simp [tryParse, he]

theorem req_single {rem r : List Nat} {x : Nat} :
    req rem [x] = .ok r → rem = x :: r := by
  intro h
  unfold req at h
  split at h
  · cases h
  · split at h
    · cases h
    · rename_i h1 h2
      cases h
      rw [not_ne_iff] at h2
      simp only [List.length_singleton] at h2 ⊢
      conv_lhs => rw [← List.take_append_drop 1 rem]
      rw [h2]
      rfl

theorem cclassMap_append {α : Type} {test : Nat → Bool} {input rem : List Nat}
    {f : List Nat → α} {g : α → List Nat} (hfg : ∀ l, g (f l) = l) {v : α}
    (h : (cclassParse test input).map (fun p => (f p.1, p.2)) = .ok (v, rem)) :
    g v ++ rem = input ∧ g v ≠ [] := by
  cases hc : cclassParse test input with
  | ok p =>
    obtain ⟨out, r⟩ := p
    rw [hc] at h
    simp only [Except.map] at h
    cases h
    have := cclass_append hc
    rw [hfg]
    exact this
  | error e =>
    rw [hc] at h
    simp [Except.map] at h

theorem qp_append {input rem : List Nat} {q : QuotedPair} :
    QuotedPair.parse input = .ok (q, rem) → (QuotedPair.stream q).1 ++ rem = input := by
  intro h
  rcases input with _ | ⟨b0, _ | ⟨b1, rest⟩⟩
  · simp [QuotedPair.parse] at h
  · simp [QuotedPair.parse] at h
  · simp only [QuotedPair.parse] at h
    split at h
    · cases h
    · split at h
      · rename_i h92 hv
        cases h
        rw [not_ne_iff] at h92
        subst h92
        rfl
      · cases h

theorem qcontent_rt {input rem : List Nat} {qc : QContent} :
    QContent.parse input = .ok (qc, rem) → (QContent.stream qc).1 ++ rem = input := by
  intro h
  unfold QContent.parse at h
  split at h
  · cases h
  · cases hq : QText.parse input with
    | ok p =>
      obtain ⟨x, r⟩ := p
      rw [hq] at h
      cases h
      exact (@cclassMap_append _ _ _ _ QText.mk QText.bytes (fun l => rfl) _ hq).1
    | error e =>
      rw [hq] at h
      cases hp : QuotedPair.parse input with
      | ok p =>
        obtain ⟨x, r⟩ := p
        rw [hp] at h
        cases h
        exact qp_append hp
      | error e2 =>
        rw [hp] at h
        cases h

theorem qsLoop_succ (fuel : Nat) (ws : Bool) (rem : List Nat) :
    qsLoop (fuel+1) ws rem =
      if rem.length = 0 then ([], ws, rem)
      else
        let st := match FWS.parse rem with
          | .ok (_, r) => (true, r)
          | .error _ => (false, rem)
        match QContent.parse st.2 with
        | .ok (qc, rem2) =>
          match qsLoop fuel st.1 rem2 with
          | (l, wfin, rfin) => ((st.1, qc) :: l, wfin, rfin)
        | .error _ => ([], st.1, st.2) := rfl

theorem qsLoop_noWS_rt : ∀ (fuel : Nat) (rem : List Nat) (items : List (Bool × QContent))
    (wfin : Bool) (rfin : List Nat), noWsNoParen rem →
    qsLoop fuel false rem = (items, wfin, rfin) →
    wfin = false ∧ (qsItems items).1 ++ rfin = rem ∧ noWsNoParen rfin
  | 0, rem, items, wfin, rfin, hno, h => by
    simp only [qsLoop] at h
    cases h
    exact ⟨rfl, by simp [qsItems], hno⟩
  | fuel+1, rem, items, wfin, rfin, hno, h => by
    rw [qsLoop_succ] at h
    split at h
    · cases h
      exact ⟨rfl, by simp [qsItems], hno⟩
    · obtain ⟨e, he⟩ := fws_fail hno
      rw [he] at h
      dsimp only at h
      cases hq : QContent.parse rem with
      | ok p =>
        obtain ⟨qc, rem2⟩ := p
        rw [hq] at h
        dsimp only at h
        rcases hrec : qsLoop fuel false rem2 with ⟨l, w, r⟩
        rw [hrec] at h
        dsimp only at h
        have hqc := qcontent_rt hq
        have hno2 : noWsNoParen rem2 := by
          have hx : noWsNoParen ((QContent.stream qc).1 ++ rem2) := by
            rw [hqc]; exact hno
          exact noWS_right hx
        obtain ⟨hw, happ, hfin⟩ := qsLoop_noWS_rt fuel rem2 l w r hno2 hrec
        cases h
        refine ⟨hw, ?_, hfin⟩
        have hred : qsItems ((false, qc) :: l) =
            scat ([], 0) (scat (QContent.stream qc) (qsItems l)) := rfl
        rw [hred]
        simp only [scat, List.nil_append, List.append_assoc]
        rw [happ, hqc]
      | error e2 =>
        rw [hq] at h
        cases h
        exact ⟨rfl, by simp [qsItems], hno⟩

theorem quotedString_noWS_rt (fuel : Nat) {input rem : List Nat} {q : QuotedString}
    (hno : noWsNoParen input) (h : quotedStringParse fuel input = .ok (q, rem)) :
    (QuotedString.stream q).1 ++ rem = input ∧ noWsNoParen rem := by
  unfold quotedStringParse at h
  split at h
  · cases h
  · rw [tryParse_cfws_none fuel hno] at h
    dsimp only at h
    cases hr1 : req input [34] with
    | error e => rw [hr1] at h; cases h
    | ok rem1 =>
      rw [hr1] at h
      dsimp only at h
      have hinput : input = 34 :: rem1 := req_single hr1
      have hno1 : noWsNoParen rem1 := noWS_tail (hinput ▸ hno)
      rcases hql : qsLoop fuel false rem1 with ⟨qcontent, ws, rem2⟩
      rw [hql] at h
      dsimp only at h
      obtain ⟨hw, happ, hno2⟩ := qsLoop_noWS_rt fuel rem1 qcontent ws rem2 hno1 hql
      subst hw
      cases hr2 : req rem2 [34] with
      | error e => rw [hr2] at h; cases h
      | ok rem3 =>
        rw [hr2] at h
        dsimp only at h
        have hrem2 : rem2 = 34 :: rem3 := req_single hr2
        have hno3 : noWsNoParen rem3 := noWS_tail (hrem2 ▸ hno2)
        rw [tryParse_cfws_none fuel hno3] at h
        dsimp only at h
        cases h
        refine ⟨?_, hno3⟩
        simp only [QuotedString.stream, scat, streamOptCFWS, List.nil_append,
          List.append_assoc, if_neg (by simp : ¬ (false = true))]
        rw [hinput, ← happ, hrem2]
        simp

theorem atext_append {input rem : List Nat} {a : AText} :
    AText.parse input = .ok (a, rem) → (AText.stream a).1 ++ rem = input :=
  fun h => (@cclassMap_append _ _ _ _ AText.mk AText.bytes (fun l => rfl) _ h).1

theorem dtext_append {input rem : List Nat} {d : DText} :
    DText.parse input = .ok (d, rem) → (DText.stream d).1 ++ rem = input :=
  fun h => (@cclassMap_append _ _ _ _ DText.mk DText.bytes (fun l => rfl) _ h).1

theorem datLoop_rt : ∀ (fuel : Nat) (rem : List Nat) (parts : List AText) (fin : List Nat),
    datLoop fuel rem = (parts, fin) → (datItems false parts).1 ++ fin = rem
  | 0, rem, parts, fin, h => by
    simp only [datLoop] at h
    cases h
    simp [datItems]
  | fuel+1, rem, parts, fin, h => by
    match rem with
    | [] =>
      simp only [datLoop] at h
      cases h
      simp [datItems]
    | b :: rest =>
      simp only [datLoop] at h
      split at h
      · cases h
        simp [datItems]
      · rename_i hb
        rw [not_ne_iff] at hb
        subst hb
        cases hp : AText.parse rest with
        | ok p =>
          obtain ⟨part, r⟩ := p
          rw [hp] at h
          dsimp only at h
          rcases hrec : datLoop fuel r with ⟨ps, f⟩
          rw [hrec] at h
          dsimp only at h
          have hrt := datLoop_rt fuel r ps f hrec
          cases h
          have hred : datItems false (part :: ps) =
              scat ([46], 1) (scat (AText.stream part) (datItems false ps)) := rfl
          rw [hred]
          simp only [scat, List.cons_append, List.nil_append, List.append_assoc]
          rw [hrt, atext_append hp]
        | error e =>
          rw [hp] at h
          cases h
          simp [datItems]

theorem dotAtomText_rt (fuel : Nat) {input fin : List Nat} {d : DotAtomText}
    (h : dotAtomTextParse fuel input = .ok (d, fin)) :
    (DotAtomText.stream d).1 ++ fin = input := by
  unfold dotAtomTextParse at h
  cases hp : AText.parse input with
  | error e => rw [hp] at h; cases h
  | ok p =>
    obtain ⟨part, rem⟩ := p
    rw [hp] at h
    dsimp only at h
    rcases hdl : datLoop fuel rem with ⟨parts, f⟩
    rw [hdl] at h
    dsimp only at h
    have hdlrt := datLoop_rt fuel rem parts f hdl
    cases h
    have hred : DotAtomText.stream ⟨part :: parts⟩ =
        scat ([], 0) (scat (AText.stream part) (datItems false parts)) := rfl
    rw [hred]
    simp only [scat, List.nil_append, List.append_assoc]
    rw [hdlrt, atext_append hp]

theorem dotAtom_noWS_rt (fuel : Nat) {input rem : List Nat} {d : DotAtom}
    (hno : noWsNoParen input) (h : dotAtomParse fuel input = .ok (d, rem)) :
    (DotAtom.stream d).1 ++ rem = input ∧ noWsNoParen rem := by
  unfold dotAtomParse at h
  split at h
  · cases h
  · rw [tryParse_cfws_none fuel hno] at h
    dsimp only at h
    cases hp : dotAtomTextParse fuel input with
    | error e => rw [hp] at h; cases h
    | ok p =>
      obtain ⟨dat, rem2⟩ := p
      rw [hp] at h
      dsimp only at h
      have hrt := dotAtomText_rt fuel hp
      have hno2 : noWsNoParen rem2 := by
        have hx : noWsNoParen ((DotAtomText.stream dat).1 ++ rem2) := by
          rw [hrt]; exact hno
        exact noWS_right hx
      rw [tryParse_cfws_none fuel hno2] at h
      dsimp only at h
      cases h
      refine ⟨?_, hno2⟩
      simp only [DotAtom.stream, scat, streamOptCFWS, List.nil_append, List.append_nil]
      exact hrt

theorem localPart_noWS_rt (fuel : Nat) {input rem : List Nat} {lp : LocalPart}
    (hno : noWsNoParen input) (h : localPartParse fuel input = .ok (lp, rem)) :
    (LocalPart.stream lp).1 ++ rem = input ∧ noWsNoParen rem := by
  unfold localPartParse at h
  split at h
  · cases h
  · cases hp : dotAtomParse fuel input with
    | ok p =>
      obtain ⟨x, r⟩ := p
      rw [hp] at h
      cases h
      exact dotAtom_noWS_rt fuel hno hp
    | error e =>
      rw [hp] at h
      cases hq : quotedStringParse fuel input with
      | ok p =>
        obtain ⟨x, r⟩ := p
        rw [hq] at h
        cases h
        exact quotedString_noWS_rt fuel hno hq
      | error e2 => rw [hq] at h; cases h

theorem dlLoop_succ (fuel : Nat) (ws : Bool) (rem : List Nat) :
    dlLoop (fuel+1) ws rem =
      if rem.length = 0 then ([], ws, rem)
      else
        let st := match FWS.parse rem with
          | .ok (_, r) => (true, r)
          | .error _ => (false, rem)
        match DText.parse st.2 with
        | .ok (d, rem2) =>
          match dlLoop fuel st.1 rem2 with
          | (l, wfin, rfin) => ((st.1, d) :: l, wfin, rfin)
        | .error _ => ([], st.1, st.2) := rfl

theorem dlLoop_noWS_rt : ∀ (fuel : Nat) (rem : List Nat) (items : List (Bool × DText))
    (wfin : Bool) (rfin : List Nat), noWsNoParen rem →
    dlLoop fuel false rem = (items, wfin, rfin) →
    (dlItems items).1 ++ rfin = rem ∧ noWsNoParen rfin
  | 0, rem, items, wfin, rfin, hno, h => by
    simp only [dlLoop] at h
    cases h
    exact ⟨by simp [dlItems], hno⟩
  | fuel+1, rem, items, wfin, rfin, hno, h => by
    rw [dlLoop_succ] at h
    split at h
    · cases h
      exact ⟨by simp [dlItems], hno⟩
    · obtain ⟨e, he⟩ := fws_fail hno
      rw [he] at h
      dsimp only at h
      cases hq : DText.parse rem with
      | ok p =>
        obtain ⟨d, rem2⟩ := p
        rw [hq] at h
        dsimp only at h
        rcases hrec : dlLoop fuel false rem2 with ⟨l, w, r⟩
        rw [hrec] at h
        dsimp only at h
        have hd := dtext_append hq
        have hno2 : noWsNoParen rem2 := by
          have hx : noWsNoParen ((DText.stream d).1 ++ rem2) := by
            rw [hd]; exact hno
          exact noWS_right hx
        obtain ⟨happ, hfin⟩ := dlLoop_noWS_rt fuel rem2 l w r hno2 hrec
        cases h
        refine ⟨?_, hfin⟩
        have hred : dlItems ((false, d) :: l) =
            scat ([], 0) (scat (DText.stream d) (dlItems l)) := rfl
        rw [hred]
        simp only [scat, List.nil_append, List.append_assoc]
        rw [happ, hd]
      | error e2 =>
        rw [hq] at h
        cases h
        exact ⟨by simp [dlItems], hno⟩

theorem domainLiteral_noWS_rt (fuel : Nat) {input rem : List Nat} {d : DomainLiteral}
    (hno : noWsNoParen input) (h : domainLiteralParse fuel input = .ok (d, rem)) :
    (DomainLiteral.stream d).1 ++ rem = input ∧ noWsNoParen rem := by
  unfold domainLiteralParse at h
  split at h
  · cases h
  · rw [tryParse_cfws_none fuel hno] at h
    dsimp only at h
    cases hr1 : req input [91] with
    | error e => rw [hr1] at h; cases h
    | ok rem1 =>
      rw [hr1] at h
      dsimp only at h
      have hinput : input = 91 :: rem1 := req_single hr1
      have hno1 : noWsNoParen rem1 := noWS_tail (hinput ▸ hno)
      rcases hdl : dlLoop fuel false rem1 with ⟨dtext, ws, rem2⟩
      rw [hdl] at h
      dsimp only at h
      obtain ⟨happ, hno2⟩ := dlLoop_noWS_rt fuel rem1 dtext ws rem2 hno1 hdl
      cases hr2 : req rem2 [93] with
      | error e => rw [hr2] at h; cases h
      | ok rem3 =>
        rw [hr2] at h
        dsimp only at h
        have hrem2 : rem2 = 93 :: rem3 := req_single hr2
        have hno3 : noWsNoParen rem3 := noWS_tail (hrem2 ▸ hno2)
        rw [tryParse_cfws_none fuel hno3] at h
        dsimp only at h
        cases h
        refine ⟨?_, hno3⟩
        simp only [DomainLiteral.stream, scat, streamOptCFWS, List.nil_append,
          List.append_nil, List.cons_append, List.append_assoc]
        rw [hinput, ← happ, hrem2]

theorem domain_noWS_rt (fuel : Nat) {input rem : List Nat} {d : Domain}
    (hno : noWsNoParen input) (h : domainParse fuel input = .ok (d, rem)) :
    (Domain.stream d).1 ++ rem = input ∧ noWsNoParen rem := by
  unfold domainParse at h
  split at h
  · cases h
  · cases hp : dotAtomParse fuel input with
    | ok p =>
      obtain ⟨x, r⟩ := p
      rw [hp] at h
      cases h
      exact dotAtom_noWS_rt fuel hno hp
    | error e =>
      rw [hp] at h
      cases hq : domainLiteralParse fuel input with
      | ok p =>
        obtain ⟨x, r⟩ := p
        rw [hq] at h
        cases h
        exact domainLiteral_noWS_rt fuel hno hq
      | error e2 => rw [hq] at h; cases h

theorem addrSpec_noWS_rt (fuel : Nat) {input rem : List Nat} {a : AddrSpec}
    (hno : noWsNoParen input) (h : addrSpecParse fuel input = .ok (a, rem)) :
    (AddrSpec.stream a).1 ++ rem = input := by
  unfold addrSpecParse at h
  split at h
  · cases h
  · cases hlp : localPartParse fuel input with
    | error e => rw [hlp] at h; cases h
    | ok p =>
      obtain ⟨lp, r⟩ := p
      rw [hlp] at h
      dsimp only at h
      obtain ⟨hlpa, hnor⟩ := localPart_noWS_rt fuel hno hlp
      split at h
      · rename_i rest
        cases hdp : domainParse fuel rest with
        | error e => rw [hdp] at h; cases h
        | ok p2 =>
          obtain ⟨d, rem2⟩ := p2
          rw [hdp] at h
          cases h
          have hnorest : noWsNoParen rest := noWS_tail hnor
          obtain ⟨hda, _⟩ := domain_noWS_rt fuel hnorest hdp
          simp only [AddrSpec.stream, scat, List.cons_append, List.nil_append,
            List.append_assoc]
          rw [hda, ← hlpa]
      · cases h

/-- Claim C3: for every input byte string with no folding-whitespace bytes
(HTAB, LF, CR, SP) and no comment opener, if `AddrSpec::parse` consumes it
entirely, then `AddrSpec::stream` on the parsed value writes back exactly
the input bytes. -/
theorem c3_addr_spec_roundtrip (input : List Nat) (v : AddrSpec)
    (hno : noWsNoParen input) (h : AddrSpec.parse input = .ok (v, [])) :
    (AddrSpec.stream v).1 = input := by
  unfold AddrSpec.parse at h
  have hrt := addrSpec_noWS_rt (parseFuel input) hno h
  simpa using hrt

/-- The round trip at the specification example: "joe.smith@gmail.com" is
19 bytes, whitespace- and comment-free, parses fully, and streams back to
itself. -/
theorem c3_witness :
    noWsNoParen jsB ∧ AddrSpec.parse jsB = .ok (vJS, []) ∧
      (AddrSpec.stream vJS).1 = jsB ∧ jsB.length = 19 :=
  ⟨by decide, rfl, c3_addr_spec_roundtrip jsB vJS (by decide) rfl, rfl⟩

end EmailFormat

/-! ### C8 infrastructure: suffix remainders and CR-free streamed values

Every successful parse leaves a remainder that is a suffix of its input,
and every value a parse produces streams to bytes without a carriage
return (streams normalize folding whitespace to a single space and write
literals, digits, and character-class runs only); each header-field parse
moreover ends by consuming the CRLF of its `req_crlf!`.  These facts give
the streamed header section of any parsed `Fields` the `FieldSection`
shape, which is what the claim C8 argument consumes. -/

namespace EmailFormat

theorem noCR_append {a b : List Nat} (ha : noCR a) (hb : noCR b) : noCR (a ++ b) := by
  intro x hx
  rcases List.mem_append.1 hx with h | h
  · exact ha x h
  · exact hb x h

theorem noCR_nil : noCR [] := by intro x hx; cases hx

theorem req_ok {rem bytes r : List Nat} (h : req rem bytes = .ok r) :
    rem = bytes ++ r := by
  unfold req at h
  split at h
  · cases h
  · split at h
    · cases h
    · rename_i hlt hne
      rw [not_ne_iff] at hne
      cases h
      conv_lhs => rw [← List.take_append_drop bytes.length rem]
      rw [hne]

theorem req_name_ok {rem r : List Nat} {n : String} (h : req_name rem n = .ok r) :
    sfx rem r := by
  unfold req_name at h
  dsimp only at h
  split at h
  · cases h
  · cases h
    exact ⟨rem.take (strBytes n).length, (List.take_append_drop _ rem).symm⟩

theorem req_crlf_ok {rem r : List Nat} (h : req_crlf rem = .ok r) :
    rem = 13 :: 10 :: r := by
  unfold req_crlf at h
  split at h
  · cases h
  · split at h
    · cases h
    · rename_i hlt htake
      rw [not_ne_iff] at htake
      cases h
      conv_lhs => rw [← List.take_append_drop 2 rem]
      rw [htake]
      rfl

theorem sfx_refl (l : List Nat) : sfx l l := ⟨[], rfl⟩

theorem sfx_trans {a b c : List Nat} (h1 : sfx a b) (h2 : sfx b c) : sfx a c := by
  obtain ⟨C1, h1⟩ := h1
  obtain ⟨C2, h2⟩ := h2
  exact ⟨C1 ++ C2, by rw [h1, h2, List.append_assoc]⟩

theorem tryParse_sfx {α : Type} {p : List Nat → PR α} 
    (hp : ∀ inp (v : α) r, p inp = .ok (v, r) → sfx inp r) :
    ∀ inp (v : Option α) r, tryParse p inp = (v, r) → sfx inp r := by
  intro inp v r h
  unfold tryParse at h
  cases hpe : p inp with
  | ok p2 =>
    obtain ⟨x, rr⟩ := p2
    rw [hpe] at h
    cases h
    exact hp _ _ _ hpe
  | error e =>
    rw [hpe] at h
    cases h
    exact sfx_refl inp

theorem cclass_out {test : Nat → Bool} {input out rem : List Nat}
    (h : cclassParse test input = .ok (out, rem)) : out = input.takeWhile test := by
  unfold cclassParse at h
  dsimp only at h
  split at h
  · cases h; rfl
  · split at h <;> cases h

theorem cclassMap_all {α : Type} {test : Nat → Bool} {input rem : List Nat}
    {f : List Nat → α} {g : α → List Nat} (hfg : ∀ l, g (f l) = l)
    (ht : ∀ b, test b = true → b ≠ 13) {v : α}
    (h : (cclassParse test input).map (fun p => (f p.1, p.2)) = .ok (v, rem)) :
    input = g v ++ rem ∧ noCR (g v) ∧ g v ≠ [] := by
  cases hc : cclassParse test input with
  | ok p =>
    obtain ⟨out, r⟩ := p
    rw [hc] at h
    simp only [Except.map] at h
    cases h
    rw [hfg]
    obtain ⟨h1, h2⟩ := cclass_append hc
    refine ⟨h1.symm, ?_, h2⟩
    intro b hb
    exact ht b (mem_takeWhile_true input b ((cclass_out hc) ▸ hb))
  | error e =>
    rw [hc] at h
    simp [Except.map] at h

theorem vchar_ne13 : ∀ b, is_vchar b = true → b ≠ 13 := by
  intro b h hb
  subst hb
  exact absurd h (by decide)

theorem wsp_ne13 : ∀ b, is_wsp b = true → b ≠ 13 := by
  intro b h hb
  subst hb
  exact absurd h (by decide)

theorem ctext_ne13 : ∀ b, is_ctext b = true → b ≠ 13 := by
  intro b h hb
  subst hb
  exact absurd h (by decide)

theorem atext_ne13 : ∀ b, is_atext b = true → b ≠ 13 := by
  intro b h hb
  subst hb
  exact absurd h (by decide)

theorem qtext_ne13 : ∀ b, is_qtext b = true → b ≠ 13 := by
  intro b h hb
  subst hb
  exact absurd h (by decide)

theorem dtext_ne13 : ∀ b, is_dtext b = true → b ≠ 13 := by
  intro b h hb
  subst hb
  exact absurd h (by decide)

theorem ftext_ne13 : ∀ b, is_ftext b = true → b ≠ 13 := by
  intro b h hb
  subst hb
  exact absurd h (by decide)

end EmailFormat
namespace EmailFormat

theorem vchar_pnc {input rem : List Nat} {v : VChar} (h : VChar.parse input = .ok (v, rem)) :
    input = v.bytes ++ rem ∧ noCR v.bytes ∧ v.bytes ≠ [] :=
  @cclassMap_all _ _ _ _ VChar.mk VChar.bytes (fun l => rfl) vchar_ne13 _ h

theorem wsp_pnc {input rem : List Nat} {v : WSP} (h : WSP.parse input = .ok (v, rem)) :
    input = v.bytes ++ rem ∧ noCR v.bytes ∧ v.bytes ≠ [] :=
  @cclassMap_all _ _ _ _ WSP.mk WSP.bytes (fun l => rfl) wsp_ne13 _ h

theorem ctext_pnc {input rem : List Nat} {v : CText} (h : CText.parse input = .ok (v, rem)) :
    input = v.bytes ++ rem ∧ noCR v.bytes ∧ v.bytes ≠ [] :=
  @cclassMap_all _ _ _ _ CText.mk CText.bytes (fun l => rfl) ctext_ne13 _ h

theorem atext_pnc {input rem : List Nat} {v : AText} (h : AText.parse input = .ok (v, rem)) :
    input = v.bytes ++ rem ∧ noCR v.bytes ∧ v.bytes ≠ [] :=
  @cclassMap_all _ _ _ _ AText.mk AText.bytes (fun l => rfl) atext_ne13 _ h

theorem qtext_pnc {input rem : List Nat} {v : QText} (h : QText.parse input = .ok (v, rem)) :
    input = v.bytes ++ rem ∧ noCR v.bytes ∧ v.bytes ≠ [] :=
  @cclassMap_all _ _ _ _ QText.mk QText.bytes (fun l => rfl) qtext_ne13 _ h

theorem dtext_pnc {input rem : List Nat} {v : DText} (h : DText.parse input = .ok (v, rem)) :
    input = v.bytes ++ rem ∧ noCR v.bytes ∧ v.bytes ≠ [] :=
  @cclassMap_all _ _ _ _ DText.mk DText.bytes (fun l => rfl) dtext_ne13 _ h

theorem ftext_pnc {input rem : List Nat} {v : FText} (h : FText.parse input = .ok (v, rem)) :
    input = v.bytes ++ rem ∧ noCR v.bytes ∧ v.bytes ≠ [] :=
  @cclassMap_all _ _ _ _ FText.mk FText.bytes (fun l => rfl) ftext_ne13 _ h

theorem qp_pnc {input rem : List Nat} {q : QuotedPair}
    (h : QuotedPair.parse input = .ok (q, rem)) :
    sfx input rem ∧ noCR (QuotedPair.stream q).1 := by
  rcases input with _ | ⟨b0, _ | ⟨b1, rest⟩⟩
  · simp [QuotedPair.parse] at h
  · simp [QuotedPair.parse] at h
  · simp only [QuotedPair.parse] at h
    split at h
    · cases h
    · split at h
      · rename_i h92 hv
        cases h
        rw [not_ne_iff] at h92
        subst h92
        refine ⟨⟨[92, b1], rfl⟩, ?_⟩
        intro x hx
        simp only [QuotedPair.stream, List.mem_cons, List.not_mem_nil, or_false] at hx
        rcases hx with h1 | h1
        · subst h1; decide
        · subst h1
          rcases Bool.or_eq_true_iff.1 hv with hh | hh
          · exact vchar_ne13 _ hh
          · exact wsp_ne13 _ hh
      · cases h

theorem fws_sfx {input r : List Nat} {f : FWS} (h : FWS.parse input = .ok (f, r)) :
    sfx input r := by
  obtain ⟨C, hC⟩ := fwsAux_suffix input
  exact ⟨C, by rw [fws_ok_rem h]; exact hC.symm⟩

theorem tryParse_fws_sfx {input : List Nat} {v : Option FWS} {r : List Nat}
    (h : tryParse FWS.parse input = (v, r)) : sfx input r :=
  tryParse_sfx (fun _ _ _ hh => fws_sfx hh) _ _ _ h

end EmailFormat
namespace EmailFormat

theorem commentLoop_succ (fuel : Nat) (ws : Bool) (rem : List Nat) :
    commentLoop (fuel+1) ws rem =
      if rem.length = 0 then ([], ws, rem)
      else
        let st := match FWS.parse rem with
          | .ok (_, r) => (true, r)
          | .error _ => (false, rem)
        match ccontentParse fuel st.2 with
        | .ok (cc, rem2) =>
          match commentLoop fuel st.1 rem2 with
          | (l, wfin, rfin) => ((st.1, cc) :: l, wfin, rfin)
        | .error _ => ([], st.1, st.2) := rfl

theorem fws_state_sfx {rem : List Nat} :
    sfx rem (match FWS.parse rem with
      | .ok (_, r) => ((true : Bool), r)
      | .error _ => (false, rem)).2 := by
  cases hf : FWS.parse rem with
  | ok p =>
    obtain ⟨u, r⟩ := p
    exact fws_sfx hf
  | error e => exact sfx_refl rem

theorem comment_mutual : ∀ fuel : Nat,
    (∀ input c rem, commentParse fuel input = .ok (c, rem) →
      sfx input rem ∧ noCR (Comment.stream c).1) ∧
    (∀ ws input l wfin rfin, commentLoop fuel ws input = (l, wfin, rfin) →
      sfx input rfin ∧ noCR (ccItemsStream l).1) ∧
    (∀ input cc rem, ccontentParse fuel input = .ok (cc, rem) →
      sfx input rem ∧ noCR (CContent.stream cc).1) := by
  intro fuel
  induction fuel with
  | zero =>
    refine ⟨?_, ?_, ?_⟩
    · intro input c rem h
      simp [commentParse] at h
    · intro ws input l wfin rfin h
      simp only [commentLoop] at h
      cases h
      exact ⟨sfx_refl input, noCR_nil⟩
    · intro input cc rem h
      simp [ccontentParse] at h
  | succ fuel ih =>
    obtain ⟨ihC, ihL, ihCC⟩ := ih
    refine ⟨?_, ?_, ?_⟩
    · intro input c rem h
      unfold commentParse at h
      split at h
      · cases h
      · cases hr1 : req input [40] with
        | error e => rw [hr1] at h; cases h
        | ok rem1 =>
          rw [hr1] at h
          dsimp only at h
          rcases hl : commentLoop fuel false rem1 with ⟨items, ws, rem2⟩
          rw [hl] at h
          dsimp only at h
          cases hr2 : req rem2 [41] with
          | error e => rw [hr2] at h; cases h
          | ok rem3 =>
            rw [hr2] at h
            cases h
            obtain ⟨hsx, hnc⟩ := ihL false rem1 items ws rem2 hl
            constructor
            · refine sfx_trans ⟨[40], req_ok hr1⟩ (sfx_trans hsx ⟨[41], req_ok hr2⟩)
            · simp only [Comment.stream, scat]
              refine noCR_append (by decide) (noCR_append hnc (noCR_append ?_ (by decide)))
              split
              · decide
              · exact noCR_nil
    · intro ws input l wfin rfin h
      rw [commentLoop_succ] at h
      split at h
      · cases h
        exact ⟨sfx_refl input, noCR_nil⟩
      · have hst := @fws_state_sfx input
        rcases hstv : (match FWS.parse input with
          | .ok (_, r) => ((true : Bool), r)
          | .error _ => (false, input)) with ⟨stw, str⟩
        rw [hstv] at h hst
        dsimp only at h hst
        cases hcc : ccontentParse fuel str with
        | ok p =>
          obtain ⟨cc, rem2⟩ := p
          rw [hcc] at h
          dsimp only at h
          rcases hrec : commentLoop fuel stw rem2 with ⟨l2, w2, r2⟩
          rw [hrec] at h
          dsimp only at h
          obtain ⟨hs1, hn1⟩ := ihCC str cc rem2 hcc
          obtain ⟨hs2, hn2⟩ := ihL stw rem2 l2 w2 r2 hrec
          cases h
          constructor
          · exact sfx_trans hst (sfx_trans hs1 hs2)
          · simp only [ccItemsStream, scat]
            refine noCR_append ?_ (noCR_append hn1 hn2)
            split
            · decide
            · exact noCR_nil
        | error e =>
          rw [hcc] at h
          cases h
          exact ⟨hst, noCR_nil⟩
    · intro input cc rem h
      unfold ccontentParse at h
      cases hct : CText.parse input with
      | ok p =>
        obtain ⟨x, r⟩ := p
        rw [hct] at h
        obtain ⟨h1, h2, h3⟩ := ctext_pnc hct
        cases h
        exact ⟨⟨x.bytes, h1⟩, h2⟩
      | error e1 =>
        rw [hct] at h
        cases hqp : QuotedPair.parse input with
        | ok p =>
          obtain ⟨x, r⟩ := p
          rw [hqp] at h
          obtain ⟨hs, hn⟩ := qp_pnc hqp
          cases h
          exact ⟨hs, hn⟩
        | error e2 =>
          rw [hqp] at h
          cases hcm : commentParse fuel input with
          | ok p =>
            obtain ⟨x, r⟩ := p
            rw [hcm] at h
            obtain ⟨hs, hn⟩ := ihC input x r hcm
            cases h
            exact ⟨hs, hn⟩
          | error e3 =>
            rw [hcm] at h
            cases h

end EmailFormat
namespace EmailFormat

theorem cfwsLoop_succ2 (fuel : Nat) (ws : Bool) (rem : List Nat) :
    cfwsLoop (fuel+1) ws rem =
      if rem.length = 0 then ([], ws, rem)
      else
        let st := match FWS.parse rem with
          | .ok (_, r) => (true, r)
          | .error _ => (false, rem)
        match commentParse fuel st.2 with
        | .ok (c, rem2) =>
          match cfwsLoop fuel st.1 rem2 with
          | (l, wfin, rfin) => ((st.1, c) :: l, wfin, rfin)
        | .error _ => ([], st.1, st.2) := rfl

theorem cfwsLoop_pnc : ∀ (fuel : Nat) (ws : Bool) (input : List Nat) l wfin rfin,
    cfwsLoop fuel ws input = (l, wfin, rfin) →
    sfx input rfin ∧ noCR (cfwsItems l).1
  | 0, ws, input, l, wfin, rfin, h => by
    simp only [cfwsLoop] at h
    cases h
    exact ⟨sfx_refl input, noCR_nil⟩
  | fuel+1, ws, input, l, wfin, rfin, h => by
    rw [cfwsLoop_succ2] at h
    split at h
    · cases h
      exact ⟨sfx_refl input, noCR_nil⟩
    · have hst := @fws_state_sfx input
      rcases hstv : (match FWS.parse input with
        | .ok (_, r) => ((true : Bool), r)
        | .error _ => (false, input)) with ⟨stw, str⟩
      rw [hstv] at h hst
      dsimp only at h hst
      cases hcm : commentParse fuel str with
      | ok p =>
        obtain ⟨c, rem2⟩ := p
        rw [hcm] at h
        dsimp only at h
        rcases hrec : cfwsLoop fuel stw rem2 with ⟨l2, w2, r2⟩
        rw [hrec] at h
        dsimp only at h
        obtain ⟨hs1, hn1⟩ := (comment_mutual fuel).1 str c rem2 hcm
        obtain ⟨hs2, hn2⟩ := cfwsLoop_pnc fuel stw rem2 l2 w2 r2 hrec
        cases h
        constructor
        · exact sfx_trans hst (sfx_trans hs1 hs2)
        · simp only [cfwsItems, scat]
          refine noCR_append ?_ (noCR_append hn1 hn2)
          split
          · decide
          · exact noCR_nil
      | error e =>
        rw [hcm] at h
        cases h
        exact ⟨hst, noCR_nil⟩

theorem cfws_pnc {fuel : Nat} {input rem : List Nat} {c : CFWS}
    (h : cfwsParse fuel input = .ok (c, rem)) :
    sfx input rem ∧ noCR (CFWS.stream c).1 := by
  unfold cfwsParse at h
  split at h
  · cases h
  · rcases hl : cfwsLoop fuel false input with ⟨comments, ws, r⟩
    rw [hl] at h
    dsimp only at h
    obtain ⟨hs, hn⟩ := cfwsLoop_pnc fuel false input comments ws r hl
    split at h
    · cases h
      refine ⟨hs, ?_⟩
      simp only [CFWS.stream, scat]
      refine noCR_append hn ?_
      split
      · decide
      · exact noCR_nil
    · cases h

theorem tryParse_cfws_pnc {fuel : Nat} {input : List Nat} {v : Option CFWS} {r : List Nat}
    (h : tryParse (cfwsParse fuel) input = (v, r)) :
    sfx input r ∧ noCR (streamOptCFWS v).1 := by
  unfold tryParse at h
  cases hpe : cfwsParse fuel input with
  | ok p =>
    obtain ⟨x, rr⟩ := p
    rw [hpe] at h
    obtain ⟨hs, hn⟩ := cfws_pnc hpe
    cases h
    exact ⟨hs, hn⟩
  | error e =>
    rw [hpe] at h
    cases h
    exact ⟨sfx_refl input, noCR_nil⟩

end EmailFormat
namespace EmailFormat

theorem streamList_noCR {α : Type} {f : α → List Nat × Nat} :
    ∀ {l : List α}, (∀ x ∈ l, noCR (f x).1) → noCR (streamList f l).1
  | [], _ => noCR_nil
  | x :: rest, h => by
    simp only [streamList, scat]
    exact noCR_append (h x (List.mem_cons_self x rest))
      (streamList_noCR (fun y hy => h y (List.mem_cons_of_mem x hy)))

theorem streamCommaList_noCR {α : Type} {f : α → List Nat × Nat} :
    ∀ {v : Bool} {l : List α}, (∀ x ∈ l, noCR (f x).1) →
      noCR (streamCommaList f v l).1
  | _, [], _ => noCR_nil
  | v, x :: rest, h => by
    simp only [streamCommaList, scat]
    refine noCR_append ?_ (noCR_append (h x (List.mem_cons_self x rest))
      (streamCommaList_noCR (fun y hy => h y (List.mem_cons_of_mem x hy))))
    split
    · exact noCR_nil
    · decide

theorem datItems_noCR : ∀ {v : Bool} {l : List AText},
    (∀ p ∈ l, noCR p.bytes) → noCR (datItems v l).1
  | _, [], _ => noCR_nil
  | v, p :: rest, h => by
    simp only [datItems, scat, AText.stream, cclassStream]
    refine noCR_append ?_ (noCR_append (h p (List.mem_cons_self p rest))
      (datItems_noCR (fun y hy => h y (List.mem_cons_of_mem p hy))))
    split
    · exact noCR_nil
    · decide

theorem qsItems_noCR : ∀ {l : List (Bool × QContent)},
    (∀ i ∈ l, noCR (QContent.stream i.2).1) → noCR (qsItems l).1
  | [], _ => noCR_nil
  | (ws, qc) :: rest, h => by
    simp only [qsItems, scat]
    refine noCR_append ?_ (noCR_append (h (ws, qc) (List.mem_cons_self _ rest))
      (qsItems_noCR (fun y hy => h y (List.mem_cons_of_mem _ hy))))
    split
    · decide
    · exact noCR_nil

theorem dlItems_noCR : ∀ {l : List (Bool × DText)},
    (∀ i ∈ l, noCR i.2.bytes) → noCR (dlItems l).1
  | [], _ => noCR_nil
  | (ws, d) :: rest, h => by
    simp only [dlItems, scat, DText.stream, cclassStream]
    refine noCR_append ?_ (noCR_append (h (ws, d) (List.mem_cons_self _ rest))
      (dlItems_noCR (fun y hy => h y (List.mem_cons_of_mem _ hy))))
    split
    · decide
    · exact noCR_nil

theorem unstrItems_noCR : ∀ {v : Bool} {l : List VChar},
    (∀ p ∈ l, noCR p.bytes) → noCR (unstrItems v l).1
  | _, [], _ => noCR_nil
  | v, p :: rest, h => by
    simp only [unstrItems, scat, VChar.stream, cclassStream]
    refine noCR_append ?_ (noCR_append (h p (List.mem_cons_self p rest))
      (unstrItems_noCR (fun y hy => h y (List.mem_cons_of_mem p hy))))
    split
    · exact noCR_nil
    · decide

theorem atom_pnc {fuel : Nat} {input rem : List Nat} {a : Atom}
    (h : atomParse fuel input = .ok (a, rem)) :
    sfx input rem ∧ noCR (Atom.stream a).1 := by
  unfold atomParse at h
  split at h
  · cases h
  · rcases htp : tryParse (cfwsParse fuel) input with ⟨pre, r1⟩
    rw [htp] at h
    dsimp only at h
    obtain ⟨hs1, hn1⟩ := tryParse_cfws_pnc htp
    cases hat : AText.parse r1 with
    | error e => rw [hat] at h; cases h
    | ok p =>
      obtain ⟨x, r2⟩ := p
      rw [hat] at h
      dsimp only at h
      obtain ⟨he, hn2, hne⟩ := atext_pnc hat
      rcases htp2 : tryParse (cfwsParse fuel) r2 with ⟨post, r3⟩
      rw [htp2] at h
      dsimp only at h
      obtain ⟨hs3, hn3⟩ := tryParse_cfws_pnc htp2
      cases h
      constructor
      · exact sfx_trans hs1 (sfx_trans ⟨x.bytes, he⟩ hs3)
      · simp only [Atom.stream, scat, AText.stream, cclassStream]
        exact noCR_append hn1 (noCR_append hn2 hn3)

theorem datLoop_pnc : ∀ (fuel : Nat) (rem : List Nat) parts fin,
    datLoop fuel rem = (parts, fin) →
    sfx rem fin ∧ ∀ p ∈ parts, noCR p.bytes
  | 0, rem, parts, fin, h => by
    simp only [datLoop] at h
    cases h
    exact ⟨sfx_refl rem, by simp⟩
  | fuel+1, rem, parts, fin, h => by
    match rem with
    | [] =>
      simp only [datLoop] at h
      cases h
      exact ⟨sfx_refl [], by simp⟩
    | b :: rest =>
      simp only [datLoop] at h
      split at h
      · cases h
        exact ⟨sfx_refl _, by simp⟩
      · rename_i hb
        rw [not_ne_iff] at hb
        subst hb
        cases hp : AText.parse rest with
        | ok p =>
          obtain ⟨part, r⟩ := p
          rw [hp] at h
          dsimp only at h
          rcases hrec : datLoop fuel r with ⟨ps, f⟩
          rw [hrec] at h
          dsimp only at h
          obtain ⟨he, hn, hne⟩ := atext_pnc hp
          obtain ⟨hs2, hn2⟩ := datLoop_pnc fuel r ps f hrec
          cases h
          constructor
          · exact sfx_trans ⟨46 :: part.bytes, by simp [he]⟩ hs2
          · intro p hpm
            rcases List.mem_cons.1 hpm with h1 | h1
            · subst h1; exact hn
            · exact hn2 p h1
        | error e =>
          rw [hp] at h
          cases h
          exact ⟨sfx_refl _, by simp⟩

theorem dotAtomText_pnc {fuel : Nat} {input fin : List Nat} {d : DotAtomText}
    (h : dotAtomTextParse fuel input = .ok (d, fin)) :
    sfx input fin ∧ noCR (DotAtomText.stream d).1 := by
  unfold dotAtomTextParse at h
  cases hp : AText.parse input with
  | error e => rw [hp] at h; cases h
  | ok p =>
    obtain ⟨part, rem⟩ := p
    rw [hp] at h
    dsimp only at h
    rcases hdl : datLoop fuel rem with ⟨parts, f⟩
    rw [hdl] at h
    dsimp only at h
    obtain ⟨he, hn, hne⟩ := atext_pnc hp
    obtain ⟨hs2, hn2⟩ := datLoop_pnc fuel rem parts f hdl
    cases h
    constructor
    · exact sfx_trans ⟨part.bytes, he⟩ hs2
    · refine datItems_noCR ?_
      intro p hpm
      rcases List.mem_cons.1 hpm with h1 | h1
      · subst h1; exact hn
      · exact hn2 p h1

theorem dotAtom_pnc {fuel : Nat} {input rem : List Nat} {d : DotAtom}
    (h : dotAtomParse fuel input = .ok (d, rem)) :
    sfx input rem ∧ noCR (DotAtom.stream d).1 := by
  unfold dotAtomParse at h
  split at h
  · cases h
  · rcases htp : tryParse (cfwsParse fuel) input with ⟨pre, r1⟩
    rw [htp] at h
    dsimp only at h
    obtain ⟨hs1, hn1⟩ := tryParse_cfws_pnc htp
    cases hdt : dotAtomTextParse fuel r1 with
    | error e => rw [hdt] at h; cases h
    | ok p =>
      obtain ⟨dat, r2⟩ := p
      rw [hdt] at h
      dsimp only at h
      obtain ⟨hs2, hn2⟩ := dotAtomText_pnc hdt
      rcases htp2 : tryParse (cfwsParse fuel) r2 with ⟨post, r3⟩
      rw [htp2] at h
      dsimp only at h
      obtain ⟨hs3, hn3⟩ := tryParse_cfws_pnc htp2
      cases h
      constructor
      · exact sfx_trans hs1 (sfx_trans hs2 hs3)
      · simp only [DotAtom.stream, scat]
        exact noCR_append hn1 (noCR_append hn2 hn3)

end EmailFormat
namespace EmailFormat

theorem qcontent_pnc {input rem : List Nat} {qc : QContent}
    (h : QContent.parse input = .ok (qc, rem)) :
    sfx input rem ∧ noCR (QContent.stream qc).1 := by
  unfold QContent.parse at h
  split at h
  · cases h
  · cases hq : QText.parse input with
    | ok p =>
      obtain ⟨x, r⟩ := p
      rw [hq] at h
      obtain ⟨h1, h2, h3⟩ := qtext_pnc hq
      cases h
      exact ⟨⟨x.bytes, h1⟩, h2⟩
    | error e =>
      rw [hq] at h
      cases hp : QuotedPair.parse input with
      | ok p =>
        obtain ⟨x, r⟩ := p
        rw [hp] at h
        obtain ⟨hs, hn⟩ := qp_pnc hp
        cases h
        exact ⟨hs, hn⟩
      | error e2 =>
        rw [hp] at h
        cases h

theorem qsLoop_pnc : ∀ (fuel : Nat) (ws : Bool) (input : List Nat) l wfin rfin,
    qsLoop fuel ws input = (l, wfin, rfin) →
    sfx input rfin ∧ noCR (qsItems l).1
  | 0, ws, input, l, wfin, rfin, h => by
    simp only [qsLoop] at h
    cases h
    exact ⟨sfx_refl input, noCR_nil⟩
  | fuel+1, ws, input, l, wfin, rfin, h => by
    rw [qsLoop_succ] at h
    split at h
    · cases h
      exact ⟨sfx_refl input, noCR_nil⟩
    · have hst := @fws_state_sfx input
      rcases hstv : (match FWS.parse input with
        | .ok (_, r) => ((true : Bool), r)
        | .error _ => (false, input)) with ⟨stw, str⟩
      rw [hstv] at h hst
      dsimp only at h hst
      cases hq : QContent.parse str with
      | ok p =>
        obtain ⟨qc, rem2⟩ := p
        rw [hq] at h
        dsimp only at h
        rcases hrec : qsLoop fuel stw rem2 with ⟨l2, w2, r2⟩
        rw [hrec] at h
        dsimp only at h
        obtain ⟨hs1, hn1⟩ := qcontent_pnc hq
        obtain ⟨hs2, hn2⟩ := qsLoop_pnc fuel stw rem2 l2 w2 r2 hrec
        cases h
        constructor
        · exact sfx_trans hst (sfx_trans hs1 hs2)
        · simp only [qsItems, scat]
          refine noCR_append ?_ (noCR_append hn1 hn2)
          split
          · decide
          · exact noCR_nil
      | error e =>
        rw [hq] at h
        cases h
        exact ⟨hst, noCR_nil⟩

theorem quotedString_pnc {fuel : Nat} {input rem : List Nat} {q : QuotedString}
    (h : quotedStringParse fuel input = .ok (q, rem)) :
    sfx input rem ∧ noCR (QuotedString.stream q).1 := by
  unfold quotedStringParse at h
  split at h
  · cases h
  · rcases htp : tryParse (cfwsParse fuel) input with ⟨pre, r0⟩
    rw [htp] at h
    dsimp only at h
    obtain ⟨hs0, hn0⟩ := tryParse_cfws_pnc htp
    cases hr1 : req r0 [34] with
    | error e => rw [hr1] at h; cases h
    | ok rem1 =>
      rw [hr1] at h
      dsimp only at h
      rcases hql : qsLoop fuel false rem1 with ⟨qcontent, ws, rem2⟩
      rw [hql] at h
      dsimp only at h
      obtain ⟨hs1, hn1⟩ := qsLoop_pnc fuel false rem1 qcontent ws rem2 hql
      cases hr2 : req rem2 [34] with
      | error e => rw [hr2] at h; cases h
      | ok rem3 =>
        rw [hr2] at h
        dsimp only at h
        rcases htp2 : tryParse (cfwsParse fuel) rem3 with ⟨post, r4⟩
        rw [htp2] at h
        dsimp only at h
        obtain ⟨hs2, hn2⟩ := tryParse_cfws_pnc htp2
        cases h
        constructor
        · exact sfx_trans hs0 (sfx_trans ⟨[34], req_ok hr1⟩
            (sfx_trans hs1 (sfx_trans ⟨[34], req_ok hr2⟩ hs2)))
        · simp only [QuotedString.stream, scat]
          refine noCR_append hn0 (noCR_append (by decide)
            (noCR_append hn1 (noCR_append ?_ (noCR_append (by decide) hn2))))
          split
          · decide
          · exact noCR_nil

theorem word_pnc {fuel : Nat} {input rem : List Nat} {w : Word}
    (h : wordParse fuel input = .ok (w, rem)) :
    sfx input rem ∧ noCR (Word.stream w).1 := by
  unfold wordParse at h
  split at h
  · cases h
  · cases ha : atomParse fuel input with
    | ok p =>
      obtain ⟨x, r⟩ := p
      rw [ha] at h
      obtain ⟨hs, hn⟩ := atom_pnc ha
      cases h
      exact ⟨hs, hn⟩
    | error e =>
      rw [ha] at h
      cases hq : quotedStringParse fuel input with
      | ok p =>
        obtain ⟨x, r⟩ := p
        rw [hq] at h
        obtain ⟨hs, hn⟩ := quotedString_pnc hq
        cases h
        exact ⟨hs, hn⟩
      | error e2 =>
        rw [hq] at h
        cases h

theorem phraseLoop_pnc : ∀ (fuel : Nat) (input : List Nat) ws fin,
    phraseLoop fuel input = (ws, fin) →
    sfx input fin ∧ ∀ w ∈ ws, noCR (Word.stream w).1
  | 0, input, ws, fin, h => by
    simp only [phraseLoop] at h
    cases h
    exact ⟨sfx_refl input, by simp⟩
  | fuel+1, input, ws, fin, h => by
    simp only [phraseLoop] at h
    cases hw : wordParse fuel input with
    | ok p =>
      obtain ⟨w, r⟩ := p
      rw [hw] at h
      dsimp only at h
      rcases hrec : phraseLoop fuel r with ⟨ws2, f2⟩
      rw [hrec] at h
      dsimp only at h
      obtain ⟨hs1, hn1⟩ := word_pnc hw
      obtain ⟨hs2, hn2⟩ := phraseLoop_pnc fuel r ws2 f2 hrec
      cases h
      refine ⟨sfx_trans hs1 hs2, ?_⟩
      intro x hx
      rcases List.mem_cons.1 hx with h1 | h1
      · subst h1; exact hn1
      · exact hn2 x h1
    | error e =>
      rw [hw] at h
      cases h
      exact ⟨sfx_refl input, by simp⟩

theorem phrase_pnc {fuel : Nat} {input rem : List Nat} {p : Phrase}
    (h : phraseParse fuel input = .ok (p, rem)) :
    sfx input rem ∧ noCR (Phrase.stream p).1 := by
  unfold phraseParse at h
  split at h
  · cases h
  · rcases hl : phraseLoop fuel input with ⟨output, r⟩
    rw [hl] at h
    dsimp only at h
    obtain ⟨hs, hn⟩ := phraseLoop_pnc fuel input output r hl
    split at h
    · cases h
    · cases h
      exact ⟨hs, streamList_noCR hn⟩

end EmailFormat
namespace EmailFormat

theorem fws_rem2_sfx {rem : List Nat} :
    sfx rem (match FWS.parse rem with | .ok (_, r) => r | .error _ => rem) := by
  cases hf : FWS.parse rem with
  | ok p =>
    obtain ⟨u, r⟩ := p
    exact fws_sfx hf
  | error e => exact sfx_refl rem

theorem unstrLoop_pnc : ∀ (fuel : Nat) (input : List Nat) vs fin,
    unstrLoop fuel input = (vs, fin) →
    sfx input fin ∧ ∀ v ∈ vs, noCR v.bytes
  | 0, input, vs, fin, h => by
    simp only [unstrLoop] at h
    cases h
    exact ⟨sfx_refl input, by simp⟩
  | fuel+1, input, vs, fin, h => by
    simp only [unstrLoop] at h
    split at h
    · cases h
      exact ⟨sfx_refl input, by simp⟩
    · have hst := @fws_rem2_sfx input
      rcases hstv : (match FWS.parse input with
        | .ok (_, r) => r | .error _ => input) with str
      rw [hstv] at h hst
      cases hv : VChar.parse str with
      | ok p =>
        obtain ⟨v, r⟩ := p
        rw [hv] at h
        dsimp only at h
        rcases hrec : unstrLoop fuel r with ⟨vs2, f2⟩
        rw [hrec] at h
        dsimp only at h
        obtain ⟨he, hn1, hne⟩ := vchar_pnc hv
        obtain ⟨hs2, hn2⟩ := unstrLoop_pnc fuel r vs2 f2 hrec
        cases h
        refine ⟨sfx_trans hst (sfx_trans ⟨v.bytes, he⟩ hs2), ?_⟩
        intro x hx
        rcases List.mem_cons.1 hx with h1 | h1
        · subst h1; exact hn1
        · exact hn2 x h1
      | error e =>
        rw [hv] at h
        cases h
        exact ⟨sfx_refl input, by simp⟩

theorem unstructured_pnc {fuel : Nat} {input rem : List Nat} {u : Unstructured}
    (h : unstructuredParse fuel input = .ok (u, rem)) :
    sfx input rem ∧ noCR (Unstructured.stream u).1 := by
  unfold unstructuredParse at h
  split at h
  · cases h
  · rcases htp : tryParse FWS.parse input with ⟨lead, r1⟩
    rw [htp] at h
    dsimp only at h
    rcases hl : unstrLoop fuel r1 with ⟨output, r2⟩
    rw [hl] at h
    dsimp only at h
    obtain ⟨hs1, hn1⟩ := unstrLoop_pnc fuel r1 output r2 hl
    split at h
    · cases h
    · rcases htp2 : tryParse WSP.parse r2 with ⟨t, r3⟩
      rw [htp2] at h
      dsimp only at h
      have hs2 : sfx r2 r3 :=
        tryParse_sfx (fun inp v r hh => ⟨v.bytes, (wsp_pnc hh).1⟩) _ _ _ htp2
      cases h
      constructor
      · exact sfx_trans (tryParse_fws_sfx htp) (sfx_trans hs1 hs2)
      · simp only [Unstructured.stream, scat]
        refine noCR_append ?_ (noCR_append (unstrItems_noCR hn1) ?_)
        · split
          · decide
          · exact noCR_nil
        · split
          · decide
          · exact noCR_nil

theorem localPart_pnc {fuel : Nat} {input rem : List Nat} {lp : LocalPart}
    (h : localPartParse fuel input = .ok (lp, rem)) :
    sfx input rem ∧ noCR (LocalPart.stream lp).1 := by
  unfold localPartParse at h
  split at h
  · cases h
  · cases hp : dotAtomParse fuel input with
    | ok p =>
      obtain ⟨x, r⟩ := p
      rw [hp] at h
      obtain ⟨hs, hn⟩ := dotAtom_pnc hp
      cases h
      exact ⟨hs, hn⟩
    | error e =>
      rw [hp] at h
      cases hq : quotedStringParse fuel input with
      | ok p =>
        obtain ⟨x, r⟩ := p
        rw [hq] at h
        obtain ⟨hs, hn⟩ := quotedString_pnc hq
        cases h
        exact ⟨hs, hn⟩
      | error e2 => rw [hq] at h; cases h

theorem dlLoop_pnc : ∀ (fuel : Nat) (ws : Bool) (input : List Nat) l wfin rfin,
    dlLoop fuel ws input = (l, wfin, rfin) →
    sfx input rfin ∧ noCR (dlItems l).1
  | 0, ws, input, l, wfin, rfin, h => by
    simp only [dlLoop] at h
    cases h
    exact ⟨sfx_refl input, noCR_nil⟩
  | fuel+1, ws, input, l, wfin, rfin, h => by
    rw [dlLoop_succ] at h
    split at h
    · cases h
      exact ⟨sfx_refl input, noCR_nil⟩
    · have hst := @fws_state_sfx input
      rcases hstv : (match FWS.parse input with
        | .ok (_, r) => ((true : Bool), r)
        | .error _ => (false, input)) with ⟨stw, str⟩
      rw [hstv] at h hst
      dsimp only at h hst
      cases hq : DText.parse str with
      | ok p =>
        obtain ⟨d, rem2⟩ := p
        rw [hq] at h
        dsimp only at h
        rcases hrec : dlLoop fuel stw rem2 with ⟨l2, w2, r2⟩
        rw [hrec] at h
        dsimp only at h
        obtain ⟨he, hn1, hne⟩ := dtext_pnc hq
        obtain ⟨hs2, hn2⟩ := dlLoop_pnc fuel stw rem2 l2 w2 r2 hrec
        cases h
        constructor
        · exact sfx_trans hst (sfx_trans ⟨d.bytes, he⟩ hs2)
        · simp only [dlItems, scat, DText.stream, cclassStream]
          refine noCR_append ?_ (noCR_append hn1 hn2)
          split
          · decide
          · exact noCR_nil
      | error e =>
        rw [hq] at h
        cases h
        exact ⟨hst, noCR_nil⟩

end EmailFormat
namespace EmailFormat

theorem domainLiteral_pnc {fuel : Nat} {input rem : List Nat} {d : DomainLiteral}
    (h : domainLiteralParse fuel input = .ok (d, rem)) :
    sfx input rem ∧ noCR (DomainLiteral.stream d).1 := by
  unfold domainLiteralParse at h
  split at h
  · cases h
  · rcases htp : tryParse (cfwsParse fuel) input with ⟨pre, r0⟩
    rw [htp] at h
    dsimp only at h
    obtain ⟨hs0, hn0⟩ := tryParse_cfws_pnc htp
    cases hr1 : req r0 [91] with
    | error e => rw [hr1] at h; cases h
    | ok rem1 =>
      rw [hr1] at h
      dsimp only at h
      rcases hdl : dlLoop fuel false rem1 with ⟨dtext, ws, rem2⟩
      rw [hdl] at h
      dsimp only at h
      obtain ⟨hs1, hn1⟩ := dlLoop_pnc fuel false rem1 dtext ws rem2 hdl
      cases hr2 : req rem2 [93] with
      | error e => rw [hr2] at h; cases h
      | ok rem3 =>
        rw [hr2] at h
        dsimp only at h
        rcases htp2 : tryParse (cfwsParse fuel) rem3 with ⟨post, r4⟩
        rw [htp2] at h
        dsimp only at h
        obtain ⟨hs2, hn2⟩ := tryParse_cfws_pnc htp2
        cases h
        constructor
        · exact sfx_trans hs0 (sfx_trans ⟨[91], req_ok hr1⟩
            (sfx_trans hs1 (sfx_trans ⟨[93], req_ok hr2⟩ hs2)))
        · simp only [DomainLiteral.stream, scat]
          exact noCR_append hn0 (noCR_append (by decide)
            (noCR_append hn1 (noCR_append (by decide) hn2)))

theorem domain_pnc {fuel : Nat} {input rem : List Nat} {d : Domain}
    (h : domainParse fuel input = .ok (d, rem)) :
    sfx input rem ∧ noCR (Domain.stream d).1 := by
  unfold domainParse at h
  split at h
  · cases h
  · cases hp : dotAtomParse fuel input with
    | ok p =>
      obtain ⟨x, r⟩ := p
      rw [hp] at h
      obtain ⟨hs, hn⟩ := dotAtom_pnc hp
      cases h
      exact ⟨hs, hn⟩
    | error e =>
      rw [hp] at h
      cases hq : domainLiteralParse fuel input with
      | ok p =>
        obtain ⟨x, r⟩ := p
        rw [hq] at h
        obtain ⟨hs, hn⟩ := domainLiteral_pnc hq
        cases h
        exact ⟨hs, hn⟩
      | error e2 => rw [hq] at h; cases h

theorem addrSpec_pnc {fuel : Nat} {input rem : List Nat} {a : AddrSpec}
    (h : addrSpecParse fuel input = .ok (a, rem)) :
    sfx input rem ∧ noCR (AddrSpec.stream a).1 := by
  unfold addrSpecParse at h
  split at h
  · cases h
  · cases hlp : localPartParse fuel input with
    | error e => rw [hlp] at h; cases h
    | ok p =>
      obtain ⟨lp, r⟩ := p
      rw [hlp] at h
      dsimp only at h
      obtain ⟨hs1, hn1⟩ := localPart_pnc hlp
      split at h
      · rename_i rest
        cases hdp : domainParse fuel rest with
        | error e => rw [hdp] at h; cases h
        | ok p2 =>
          obtain ⟨d, rem2⟩ := p2
          rw [hdp] at h
          obtain ⟨hs2, hn2⟩ := domain_pnc hdp
          cases h
          constructor
          · exact sfx_trans hs1 (sfx_trans ⟨[64], rfl⟩ hs2)
          · simp only [AddrSpec.stream, scat]
            exact noCR_append hn1 (noCR_append (by decide) hn2)
      · cases h

theorem angleAddr_pnc {fuel : Nat} {input rem : List Nat} {a : AngleAddr}
    (h : angleAddrParse fuel input = .ok (a, rem)) :
    sfx input rem ∧ noCR (AngleAddr.stream a).1 := by
  unfold angleAddrParse at h
  split at h
  · cases h
  · rcases htp : tryParse (cfwsParse fuel) input with ⟨pre, r0⟩
    rw [htp] at h
    dsimp only at h
    obtain ⟨hs0, hn0⟩ := tryParse_cfws_pnc htp
    cases hr1 : req r0 [60] with
    | error e => rw [hr1] at h; cases h
    | ok rem1 =>
      rw [hr1] at h
      dsimp only at h
      cases has : addrSpecParse fuel rem1 with
      | error e => rw [has] at h; cases h
      | ok p =>
        obtain ⟨x, rem2⟩ := p
        rw [has] at h
        dsimp only at h
        obtain ⟨hs1, hn1⟩ := addrSpec_pnc has
        cases hr2 : req rem2 [62] with
        | error e => rw [hr2] at h; cases h
        | ok rem3 =>
          rw [hr2] at h
          dsimp only at h
          rcases htp2 : tryParse (cfwsParse fuel) rem3 with ⟨post, r4⟩
          rw [htp2] at h
          dsimp only at h
          obtain ⟨hs2, hn2⟩ := tryParse_cfws_pnc htp2
          cases h
          constructor
          · exact sfx_trans hs0 (sfx_trans ⟨[60], req_ok hr1⟩
              (sfx_trans hs1 (sfx_trans ⟨[62], req_ok hr2⟩ hs2)))
          · simp only [AngleAddr.stream, scat]
            exact noCR_append hn0 (noCR_append (by decide)
              (noCR_append hn1 (noCR_append (by decide) hn2)))

theorem displayName_pnc {fuel : Nat} {input rem : List Nat} {d : DisplayName}
    (h : displayNameParse fuel input = .ok (d, rem)) :
    sfx input rem ∧ noCR (DisplayName.stream d).1 := by
  unfold displayNameParse at h
  cases hp : phraseParse fuel input with
  | ok p =>
    obtain ⟨x, r⟩ := p
    rw [hp] at h
    simp only [Except.map] at h
    obtain ⟨hs, hn⟩ := phrase_pnc hp
    cases h
    exact ⟨hs, hn⟩
  | error e =>
    rw [hp] at h
    simp [Except.map] at h

theorem nameAddr_pnc {fuel : Nat} {input rem : List Nat} {n : NameAddr}
    (h : nameAddrParse fuel input = .ok (n, rem)) :
    sfx input rem ∧ noCR (NameAddr.stream n).1 := by
  unfold nameAddrParse at h
  split at h
  · cases h
  · rcases htp : tryParse (displayNameParse fuel) input with ⟨dn, r0⟩
    rw [htp] at h
    dsimp only at h
    have hs0 : sfx input r0 :=
      tryParse_sfx (fun inp v r hh => (displayName_pnc hh).1) _ _ _ htp
    have hn0 : noCR (match dn with
        | some d => DisplayName.stream d | none => ([], 0)).1 := by
      unfold tryParse at htp
      cases hpe : displayNameParse fuel input with
      | ok p =>
        obtain ⟨x, rr⟩ := p
        rw [hpe] at htp
        obtain ⟨hs, hn⟩ := displayName_pnc hpe
        cases htp
        exact hn
      | error e =>
        rw [hpe] at htp
        cases htp
        exact noCR_nil
    cases haa : angleAddrParse fuel r0 with
    | error e => rw [haa] at h; cases h
    | ok p =>
      obtain ⟨aa, rem2⟩ := p
      rw [haa] at h
      obtain ⟨hs1, hn1⟩ := angleAddr_pnc haa
      cases h
      constructor
      · exact sfx_trans hs0 hs1
      · simp only [NameAddr.stream, scat]
        exact noCR_append hn0 hn1

theorem mailbox_pnc {fuel : Nat} {input rem : List Nat} {m : Mailbox}
    (h : mailboxParse fuel input = .ok (m, rem)) :
    sfx input rem ∧ noCR (Mailbox.stream m).1 := by
  unfold mailboxParse at h
  split at h
  · cases h
  · cases hp : nameAddrParse fuel input with
    | ok p =>
      obtain ⟨x, r⟩ := p
      rw [hp] at h
      obtain ⟨hs, hn⟩ := nameAddr_pnc hp
      cases h
      exact ⟨hs, hn⟩
    | error e =>
      rw [hp] at h
      cases hq : addrSpecParse fuel input with
      | ok p =>
        obtain ⟨x, r⟩ := p
        rw [hq] at h
        obtain ⟨hs, hn⟩ := addrSpec_pnc hq
        cases h
        exact ⟨hs, hn⟩
      | error e2 => rw [hq] at h; cases h

end EmailFormat
namespace EmailFormat

theorem mbListLoop_pnc : ∀ (fuel : Nat) (saved rem : List Nat) mbs fin,
    sfx saved rem → mbListLoop fuel saved rem = (mbs, fin) →
    sfx saved fin ∧ ∀ mb ∈ mbs, noCR (Mailbox.stream mb).1
  | 0, saved, rem, mbs, fin, hsr, h => by
    simp only [mbListLoop] at h
    cases h
    exact ⟨sfx_refl saved, by simp⟩
  | fuel+1, saved, rem, mbs, fin, hsr, h => by
    simp only [mbListLoop] at h
    cases hm : mailboxParse fuel rem with
    | error e =>
      rw [hm] at h
      cases h
      exact ⟨sfx_refl saved, by simp⟩
    | ok p =>
      obtain ⟨mb, rem1⟩ := p
      rw [hm] at h
      dsimp only at h
      obtain ⟨hs1, hn1⟩ := mailbox_pnc hm
      split at h
      · cases h
        refine ⟨sfx_trans hsr hs1, ?_⟩
        intro x hx
        rcases List.mem_cons.1 hx with h1 | h1
        · subst h1; exact hn1
        · cases h1
      · rcases hrec : mbListLoop fuel rem1 (rem1.drop 1) with ⟨rest, f2⟩
        rw [hrec] at h
        dsimp only at h
        obtain ⟨hs2, hn2⟩ := mbListLoop_pnc fuel rem1 (rem1.drop 1) rest f2
          ⟨rem1.take 1, (List.take_append_drop 1 rem1).symm⟩ hrec
        cases h
        refine ⟨sfx_trans hsr (sfx_trans hs1 hs2), ?_⟩
        intro x hx
        rcases List.mem_cons.1 hx with h1 | h1
        · subst h1; exact hn1
        · exact hn2 x h1

theorem mailboxList_pnc {fuel : Nat} {input rem : List Nat} {m : MailboxList}
    (h : mailboxListParse fuel input = .ok (m, rem)) :
    sfx input rem ∧ noCR (MailboxList.stream m).1 := by
  unfold mailboxListParse at h
  split at h
  · cases h
  · rcases hl : mbListLoop fuel input input with ⟨output, r⟩
    rw [hl] at h
    dsimp only at h
    obtain ⟨hs, hn⟩ := mbListLoop_pnc fuel input input output r (sfx_refl input) hl
    split at h
    · cases h
    · cases h
      exact ⟨hs, streamCommaList_noCR hn⟩

theorem groupList_pnc {fuel : Nat} {input rem : List Nat} {g : GroupList}
    (h : groupListParse fuel input = .ok (g, rem)) :
    sfx input rem ∧ noCR (GroupList.stream g).1 := by
  unfold groupListParse at h
  split at h
  · cases h
  · cases hp : mailboxListParse fuel input with
    | ok p =>
      obtain ⟨x, r⟩ := p
      rw [hp] at h
      obtain ⟨hs, hn⟩ := mailboxList_pnc hp
      cases h
      exact ⟨hs, hn⟩
    | error e =>
      rw [hp] at h
      cases hq : cfwsParse fuel input with
      | ok p =>
        obtain ⟨x, r⟩ := p
        rw [hq] at h
        obtain ⟨hs, hn⟩ := cfws_pnc hq
        cases h
        exact ⟨hs, hn⟩
      | error e2 => rw [hq] at h; cases h

theorem group_pnc {fuel : Nat} {input rem : List Nat} {g : Group}
    (h : groupParse fuel input = .ok (g, rem)) :
    sfx input rem ∧ noCR (Group.stream g).1 := by
  unfold groupParse at h
  split at h
  · cases h
  · cases hd : displayNameParse fuel input with
    | error e => rw [hd] at h; cases h
    | ok p =>
      obtain ⟨dn, r0⟩ := p
      rw [hd] at h
      dsimp only at h
      obtain ⟨hs0, hn0⟩ := displayName_pnc hd
      cases hr1 : req r0 [58] with
      | error e => rw [hr1] at h; cases h
      | ok rem1 =>
        rw [hr1] at h
        dsimp only at h
        rcases htp : tryParse (groupListParse fuel) rem1 with ⟨gl, rem2⟩
        rw [htp] at h
        dsimp only at h
        have hs1 : sfx rem1 rem2 :=
          tryParse_sfx (fun inp v r hh => (groupList_pnc hh).1) _ _ _ htp
        have hn1 : noCR (match gl with
            | some x => GroupList.stream x | none => ([], 0)).1 := by
          unfold tryParse at htp
          cases hpe : groupListParse fuel rem1 with
          | ok p =>
            obtain ⟨x, rr⟩ := p
            rw [hpe] at htp
            obtain ⟨hs, hn⟩ := groupList_pnc hpe
            cases htp
            exact hn
          | error e =>
            rw [hpe] at htp
            cases htp
            exact noCR_nil
        cases hr2 : req rem2 [59] with
        | error e => rw [hr2] at h; cases h
        | ok rem3 =>
          rw [hr2] at h
          dsimp only at h
          rcases htp2 : tryParse (cfwsParse fuel) rem3 with ⟨c, rem4⟩
          rw [htp2] at h
          dsimp only at h
          obtain ⟨hs2, hn2⟩ := tryParse_cfws_pnc htp2
          have hn2b : noCR (match c with
              | some x => CFWS.stream x | none => ([], 0)).1 := by
            cases c with
            | some x => exact hn2
            | none => exact noCR_nil
          cases h
          constructor
          · exact sfx_trans hs0 (sfx_trans ⟨[58], req_ok hr1⟩
              (sfx_trans hs1 (sfx_trans ⟨[59], req_ok hr2⟩ hs2)))
          · simp only [Group.stream, scat]
            exact noCR_append hn0 (noCR_append (by decide)
              (noCR_append hn1 (noCR_append (by decide) hn2b)))

theorem address_pnc {fuel : Nat} {input rem : List Nat} {a : Address}
    (h : addressParse fuel input = .ok (a, rem)) :
    sfx input rem ∧ noCR (Address.stream a).1 := by
  unfold addressParse at h
  split at h
  · cases h
  · cases hp : mailboxParse fuel input with
    | ok p =>
      obtain ⟨x, r⟩ := p
      rw [hp] at h
      obtain ⟨hs, hn⟩ := mailbox_pnc hp
      cases h
      exact ⟨hs, hn⟩
    | error e =>
      rw [hp] at h
      cases hq : groupParse fuel input with
      | ok p =>
        obtain ⟨x, r⟩ := p
        rw [hq] at h
        obtain ⟨hs, hn⟩ := group_pnc hq
        cases h
        exact ⟨hs, hn⟩
      | error e2 => rw [hq] at h; cases h

theorem alListLoop_pnc : ∀ (fuel : Nat) (saved rem : List Nat) xs fin,
    sfx saved rem → alListLoop fuel saved rem = (xs, fin) →
    sfx saved fin ∧ ∀ x ∈ xs, noCR (Address.stream x).1
  | 0, saved, rem, xs, fin, hsr, h => by
    simp only [alListLoop] at h
    cases h
    exact ⟨sfx_refl saved, by simp⟩
  | fuel+1, saved, rem, xs, fin, hsr, h => by
    simp only [alListLoop] at h
    cases hm : addressParse fuel rem with
    | error e =>
      rw [hm] at h
      cases h
      exact ⟨sfx_refl saved, by simp⟩
    | ok p =>
      obtain ⟨a, rem1⟩ := p
      rw [hm] at h
      dsimp only at h
      obtain ⟨hs1, hn1⟩ := address_pnc hm
      split at h
      · cases h
        refine ⟨sfx_trans hsr hs1, ?_⟩
        intro x hx
        rcases List.mem_cons.1 hx with h1 | h1
        · subst h1; exact hn1
        · cases h1
      · rcases hrec : alListLoop fuel rem1 (rem1.drop 1) with ⟨rest, f2⟩
        rw [hrec] at h
        dsimp only at h
        obtain ⟨hs2, hn2⟩ := alListLoop_pnc fuel rem1 (rem1.drop 1) rest f2
          ⟨rem1.take 1, (List.take_append_drop 1 rem1).symm⟩ hrec
        cases h
        refine ⟨sfx_trans hsr (sfx_trans hs1 hs2), ?_⟩
        intro x hx
        rcases List.mem_cons.1 hx with h1 | h1
        · subst h1; exact hn1
        · exact hn2 x h1

theorem addressList_pnc {fuel : Nat} {input rem : List Nat} {a : AddressList}
    (h : addressListParse fuel input = .ok (a, rem)) :
    sfx input rem ∧ noCR (AddressList.stream a).1 := by
  unfold addressListParse at h
  split at h
  · cases h
  · rcases hl : alListLoop fuel input input with ⟨output, r⟩
    rw [hl] at h
    dsimp only at h
    obtain ⟨hs, hn⟩ := alListLoop_pnc fuel input input output r (sfx_refl input) hl
    split at h
    · cases h
    · cases h
      exact ⟨hs, streamCommaList_noCR hn⟩

end EmailFormat
namespace EmailFormat

theorem noCR_dda : ∀ (fuel n : Nat), noCR (decDigitsAux fuel n)
  | 0, n => noCR_nil
  | fuel+1, n => by
    simp only [decDigitsAux]
    split
    · intro b hb
      simp only [List.mem_singleton] at hb
      omega
    · refine noCR_append (noCR_dda fuel (n / 10)) ?_
      intro b hb
      simp only [List.mem_singleton] at hb
      omega

theorem noCR_decDigits (n : Nat) : noCR (decDigits n) := noCR_dda _ _

theorem noCR_zeroPad (w n : Nat) : noCR (zeroPad w n) := by
  refine noCR_append ?_ (noCR_decDigits n)
  intro b hb
  rw [List.eq_of_mem_replicate hb]
  decide

theorem zone_stream_noCR (z : Zone) : noCR (Zone.stream z).1 := by
  unfold Zone.stream
  split <;>
  · refine noCR_append ?_ (noCR_zeroPad 4 _)
    decide

theorem tod_stream_noCR (t : TimeOfDay) : noCR (TimeOfDay.stream t).1 := by
  obtain ⟨hh, mm, sec⟩ := t
  cases sec with
  | some s =>
    simp only [TimeOfDay.stream, List.append_assoc]
    exact noCR_append (noCR_zeroPad 2 _) (noCR_append (by decide)
      (noCR_append (noCR_zeroPad 2 _) (noCR_append (by decide) (noCR_zeroPad 2 _))))
  | none =>
    simp only [TimeOfDay.stream, List.append_assoc]
    exact noCR_append (noCR_zeroPad 2 _) (noCR_append (by decide) (noCR_zeroPad 2 _))

theorem time_stream_noCR (t : Time) : noCR (Time.stream t).1 :=
  noCR_append (tod_stream_noCR t.time_of_day) (zone_stream_noCR t.zone)

theorem year_stream_noCR (y : Year) : noCR (Year.stream y).1 := by
  unfold Year.stream
  simp only [List.append_assoc]
  exact noCR_append (by decide) (noCR_append (noCR_zeroPad 4 _) (by decide))

theorem day_stream_noCR (d : Day) : noCR (Day.stream d).1 := by
  unfold Day.stream
  simp only [List.append_assoc]
  exact noCR_append (by decide) (noCR_append (noCR_decDigits _) (by decide))

theorem zone_sfx {input rem : List Nat} {z : Zone} (h : Zone.parse input = .ok (z, rem)) :
    sfx input rem := by
  unfold Zone.parse at h
  split at h
  · cases h
  · cases hf : FWS.parse input with
    | error e => rw [hf] at h; cases h
    | ok p =>
      obtain ⟨u, r⟩ := p
      rw [hf] at h
      dsimp only at h
      split at h
      · cases h
      · split at h
        · rename_i b0 b1 b2 b3 b4 rest hlen
          split at h
          · rw [if_neg (by decide : ¬(1 : Int) = 0)] at h
            split at h
            · cases h
            · cases h
              exact sfx_trans (fws_sfx hf) ⟨[b0, b1, b2, b3, b4], rfl⟩
          · split at h
            · rw [if_neg (by decide : ¬(-1 : Int) = 0)] at h
              split at h
              · cases h
              · cases h
                exact sfx_trans (fws_sfx hf) ⟨[b0, b1, b2, b3, b4], rfl⟩
            · rw [if_pos rfl] at h
              cases h
        · cases h

theorem second_sfx {input rem : List Nat} {s : Second}
    (h : Second.parse input = .ok (s, rem)) : sfx input rem := by
  rcases input with _ | ⟨b0, _ | ⟨b1, rest⟩⟩ <;> simp only [Second.parse] at h
  · cases h
  · cases h
  · split at h
    · cases h
    · cases h
      exact ⟨[b0, b1], rfl⟩

theorem minute_sfx {input rem : List Nat} {m : Minute}
    (h : Minute.parse input = .ok (m, rem)) : sfx input rem := by
  rcases input with _ | ⟨b0, _ | ⟨b1, rest⟩⟩ <;> simp only [Minute.parse] at h
  · cases h
  · cases h
  · split at h
    · cases h
    · cases h
      exact ⟨[b0, b1], rfl⟩

theorem hour_sfx {input rem : List Nat} {hr : Hour}
    (h : Hour.parse input = .ok (hr, rem)) : sfx input rem := by
  rcases input with _ | ⟨b0, _ | ⟨b1, rest⟩⟩ <;> simp only [Hour.parse] at h
  · cases h
  · cases h
  · split at h
    · cases h
    · cases h
      exact ⟨[b0, b1], rfl⟩

theorem tod_sfx {input rem : List Nat} {t : TimeOfDay}
    (h : TimeOfDay.parse input = .ok (t, rem)) : sfx input rem := by
  unfold TimeOfDay.parse at h
  split at h
  · cases h
  · cases hh : Hour.parse input with
    | error e => rw [hh] at h; cases h
    | ok p =>
      obtain ⟨hr, r0⟩ := p
      rw [hh] at h
      dsimp only at h
      cases hr1 : req r0 [58] with
      | error e => rw [hr1] at h; cases h
      | ok rem1 =>
        rw [hr1] at h
        dsimp only at h
        cases hm : Minute.parse rem1 with
        | error e => rw [hm] at h; cases h
        | ok p2 =>
          obtain ⟨mi, rem2⟩ := p2
          rw [hm] at h
          dsimp only at h
          have hpre : sfx input rem2 :=
            sfx_trans (hour_sfx hh) (sfx_trans ⟨[58], req_ok hr1⟩ (minute_sfx hm))
          split at h
          · rename_i rest
            cases hs : Second.parse rest with
            | ok p3 =>
              obtain ⟨se, rem3⟩ := p3
              rw [hs] at h
              cases h
              exact sfx_trans hpre (sfx_trans ⟨[58], rfl⟩ (second_sfx hs))
            | error e =>
              rw [hs] at h
              cases h
              exact hpre
          · cases h
            exact hpre

theorem time_sfx {input rem : List Nat} {t : Time}
    (h : Time.parse input = .ok (t, rem)) : sfx input rem := by
  unfold Time.parse at h
  split at h
  · cases h
  · cases ht : TimeOfDay.parse input with
    | error e => rw [ht] at h; cases h
    | ok p =>
      obtain ⟨tod, r0⟩ := p
      rw [ht] at h
      dsimp only at h
      cases hz : Zone.parse r0 with
      | error e => rw [hz] at h; cases h
      | ok p2 =>
        obtain ⟨z, r1⟩ := p2
        rw [hz] at h
        cases h
        exact sfx_trans (tod_sfx ht) (zone_sfx hz)

theorem year_sfx {input rem : List Nat} {y : Year}
    (h : Year.parse input = .ok (y, rem)) : sfx input rem := by
  unfold Year.parse at h
  split at h
  · cases h
  · cases hf : FWS.parse input with
    | error e => rw [hf] at h; cases h
    | ok p =>
      obtain ⟨u, r⟩ := p
      rw [hf] at h
      dsimp only at h
      split at h
      · cases h
      · split at h
        · rename_i b0 b1 b2 b3 rest hlen
          split at h
          · cases h
          · cases hf2 : FWS.parse rest with
            | error e => rw [hf2] at h; cases h
            | ok p2 =>
              obtain ⟨u2, r2⟩ := p2
              rw [hf2] at h
              dsimp only at h
              cases h
              exact sfx_trans (fws_sfx hf)
                (sfx_trans ⟨[b0, b1, b2, b3], rfl⟩ (fws_sfx hf2))
        · cases h

theorem day_sfx {input rem : List Nat} {d : Day}
    (h : Day.parse input = .ok (d, rem)) : sfx input rem := by
  unfold Day.parse at h
  split at h
  · cases h
  · rcases htp : tryParse FWS.parse input with ⟨u, r⟩
    rw [htp] at h
    dsimp only at h
    split at h
    · cases h
    · split at h
      · rename_i b0 b1 rest hlen
        split at h
        · cases h
        · rcases hv : (if is_digit b1
              then (10 * (b0 - 48) + (b1 - 48), rest) else (b0 - 48, b1 :: rest))
            with ⟨v, rem2⟩
          rw [hv] at h
          dsimp only at h
          have hs2 : sfx (b0 :: b1 :: rest) rem2 := by
            by_cases hd1 : is_digit b1
            · rw [if_pos hd1] at hv
              cases hv
              exact ⟨[b0, b1], rfl⟩
            · rw [if_neg hd1] at hv
              cases hv
              exact ⟨[b0], rfl⟩
          cases hf2 : FWS.parse rem2 with
          | error e => rw [hf2] at h; cases h
          | ok p2 =>
            obtain ⟨u2, r2⟩ := p2
            rw [hf2] at h
            dsimp only at h
            cases h
            exact sfx_trans (tryParse_fws_sfx htp) (sfx_trans hs2 (fws_sfx hf2))
      · cases h

end EmailFormat
namespace EmailFormat

theorem month_pnc {input rem : List Nat} {m : Month}
    (h : Month.parse input = .ok (m, rem)) :
    sfx input rem ∧ ∃ s, Month.stream m = .ok s ∧ noCR s.1 := by
  rw [Month.parse.eq_def] at h
  dsimp only at h
  by_cases hL0 : input.length = 0
  · rw [if_pos hL0] at h
    cases h
  · rw [if_neg hL0] at h
    by_cases hL3 : input.length < 3
    · rw [if_pos hL3] at h
      cases h
    · rw [if_neg hL3] at h
      by_cases hc0 : List.map toLower (List.take 3 input) = strBytes "jan"
      · rw [if_pos hc0] at h
        cases h
        exact ⟨⟨input.take 3, (List.take_append_drop 3 input).symm⟩, _, rfl, by decide⟩
      · rw [if_neg hc0] at h
        by_cases hc1 : List.map toLower (List.take 3 input) = strBytes "feb"
        · rw [if_pos hc1] at h
          cases h
          exact ⟨⟨input.take 3, (List.take_append_drop 3 input).symm⟩, _, rfl, by decide⟩
        · rw [if_neg hc1] at h
          by_cases hc2 : List.map toLower (List.take 3 input) = strBytes "mar"
          · rw [if_pos hc2] at h
            cases h
            exact ⟨⟨input.take 3, (List.take_append_drop 3 input).symm⟩, _, rfl, by decide⟩
          · rw [if_neg hc2] at h
            by_cases hc3 : List.map toLower (List.take 3 input) = strBytes "apr"
            · rw [if_pos hc3] at h
              cases h
              exact ⟨⟨input.take 3, (List.take_append_drop 3 input).symm⟩, _, rfl, by decide⟩
            · rw [if_neg hc3] at h
              by_cases hc4 : List.map toLower (List.take 3 input) = strBytes "may"
              · rw [if_pos hc4] at h
                cases h
                exact ⟨⟨input.take 3, (List.take_append_drop 3 input).symm⟩, _, rfl, by decide⟩
              · rw [if_neg hc4] at h
                by_cases hc5 : List.map toLower (List.take 3 input) = strBytes "jun"
                · rw [if_pos hc5] at h
                  cases h
                  exact ⟨⟨input.take 3, (List.take_append_drop 3 input).symm⟩, _, rfl, by decide⟩
                · rw [if_neg hc5] at h
                  by_cases hc6 : List.map toLower (List.take 3 input) = strBytes "jul"
                  · rw [if_pos hc6] at h
                    cases h
                    exact ⟨⟨input.take 3, (List.take_append_drop 3 input).symm⟩, _, rfl, by decide⟩
                  · rw [if_neg hc6] at h
                    by_cases hc7 : List.map toLower (List.take 3 input) = strBytes "aug"
                    · rw [if_pos hc7] at h
                      cases h
                      exact ⟨⟨input.take 3, (List.take_append_drop 3 input).symm⟩, _, rfl, by decide⟩
                    · rw [if_neg hc7] at h
                      by_cases hc8 : List.map toLower (List.take 3 input) = strBytes "sep"
                      · rw [if_pos hc8] at h
                        cases h
                        exact ⟨⟨input.take 3, (List.take_append_drop 3 input).symm⟩, _, rfl, by decide⟩
                      · rw [if_neg hc8] at h
                        by_cases hc9 : List.map toLower (List.take 3 input) = strBytes "oct"
                        · rw [if_pos hc9] at h
                          cases h
                          exact ⟨⟨input.take 3, (List.take_append_drop 3 input).symm⟩, _, rfl, by decide⟩
                        · rw [if_neg hc9] at h
                          by_cases hc10 : List.map toLower (List.take 3 input) = strBytes "nov"
                          · rw [if_pos hc10] at h
                            cases h
                            exact ⟨⟨input.take 3, (List.take_append_drop 3 input).symm⟩, _, rfl, by decide⟩
                          · rw [if_neg hc10] at h
                            by_cases hc11 : List.map toLower (List.take 3 input) = strBytes "dec"
                            · rw [if_pos hc11] at h
                              cases h
                              exact ⟨⟨input.take 3, (List.take_append_drop 3 input).symm⟩, _, rfl, by decide⟩
                            · rw [if_neg hc11] at h
                              cases h

theorem dayName_pnc {input rem : List Nat} {d : DayName}
    (h : DayName.parse input = .ok (d, rem)) :
    sfx input rem ∧ ∃ s, DayName.stream d = .ok s ∧ noCR s.1 := by
  rw [DayName.parse.eq_def] at h
  dsimp only at h
  by_cases hL0 : input.length = 0
  · rw [if_pos hL0] at h
    cases h
  · rw [if_neg hL0] at h
    by_cases hL3 : input.length < 3
    · rw [if_pos hL3] at h
      cases h
    · rw [if_neg hL3] at h
      by_cases hc0 : List.map toLower (List.take 3 input) = strBytes "sun"
      · rw [if_pos hc0] at h
        cases h
        exact ⟨⟨input.take 3, (List.take_append_drop 3 input).symm⟩, _, rfl, by decide⟩
      · rw [if_neg hc0] at h
        by_cases hc1 : List.map toLower (List.take 3 input) = strBytes "mon"
        · rw [if_pos hc1] at h
          cases h
          exact ⟨⟨input.take 3, (List.take_append_drop 3 input).symm⟩, _, rfl, by decide⟩
        · rw [if_neg hc1] at h
          by_cases hc2 : List.map toLower (List.take 3 input) = strBytes "tue"
          · rw [if_pos hc2] at h
            cases h
            exact ⟨⟨input.take 3, (List.take_append_drop 3 input).symm⟩, _, rfl, by decide⟩
          · rw [if_neg hc2] at h
            by_cases hc3 : List.map toLower (List.take 3 input) = strBytes "wed"
            · rw [if_pos hc3] at h
              cases h
              exact ⟨⟨input.take 3, (List.take_append_drop 3 input).symm⟩, _, rfl, by decide⟩
            · rw [if_neg hc3] at h
              by_cases hc4 : List.map toLower (List.take 3 input) = strBytes "thu"
              · rw [if_pos hc4] at h
                cases h
                exact ⟨⟨input.take 3, (List.take_append_drop 3 input).symm⟩, _, rfl, by decide⟩
              · rw [if_neg hc4] at h
                by_cases hc5 : List.map toLower (List.take 3 input) = strBytes "fri"
                · rw [if_pos hc5] at h
                  cases h
                  exact ⟨⟨input.take 3, (List.take_append_drop 3 input).symm⟩, _, rfl, by decide⟩
                · rw [if_neg hc5] at h
                  by_cases hc6 : List.map toLower (List.take 3 input) = strBytes "sat"
                  · rw [if_pos hc6] at h
                    cases h
                    exact ⟨⟨input.take 3, (List.take_append_drop 3 input).symm⟩, _, rfl, by decide⟩
                  · rw [if_neg hc6] at h
                    cases h

theorem date_pnc {input rem : List Nat} {d : Date}
    (h : Date.parse input = .ok (d, rem)) :
    sfx input rem ∧ ∃ s, Date.stream d = .ok s ∧ noCR s.1 := by
  unfold Date.parse at h
  split at h
  · cases h
  · cases hd : Day.parse input with
    | error e => rw [hd] at h; cases h
    | ok p =>
      obtain ⟨dy, r0⟩ := p
      rw [hd] at h
      dsimp only at h
      cases hm : Month.parse r0 with
      | error e => rw [hm] at h; cases h
      | ok p2 =>
        obtain ⟨mo, r1⟩ := p2
        rw [hm] at h
        dsimp only at h
        cases hy : Year.parse r1 with
        | error e => rw [hy] at h; cases h
        | ok p3 =>
          obtain ⟨yr, r2⟩ := p3
          rw [hy] at h
          dsimp only at h
          obtain ⟨hsm, s, hss, hsn⟩ := month_pnc hm
          cases h
          refine ⟨sfx_trans (day_sfx hd) (sfx_trans hsm (year_sfx hy)), ?_⟩
          refine ⟨scat (Day.stream dy) (scat s (Year.stream yr)), ?_, ?_⟩
          · simp [Date.stream, scatE, hss]
          · simp only [scat]
            exact noCR_append (day_stream_noCR dy)
              (noCR_append hsn (year_stream_noCR yr))

theorem dow_pnc {input rem : List Nat} {d : DayOfWeek}
    (h : DayOfWeek.parse input = .ok (d, rem)) :
    sfx input rem ∧ ∃ s, DayOfWeek.stream d = .ok s ∧ noCR s.1 := by
  unfold DayOfWeek.parse at h
  split at h
  · cases h
  · rcases htp : tryParse FWS.parse input with ⟨f, r0⟩
    rw [htp] at h
    dsimp only at h
    cases hd : DayName.parse r0 with
    | error e => rw [hd] at h; cases h
    | ok p =>
      obtain ⟨dn, r1⟩ := p
      rw [hd] at h
      obtain ⟨hsm, s, hss, hsn⟩ := dayName_pnc hd
      cases h
      refine ⟨sfx_trans (tryParse_fws_sfx htp) hsm, ?_⟩
      cases f with
      | some x =>
        refine ⟨scat (FWS.stream x) s, ?_, ?_⟩
        · simp [DayOfWeek.stream, scatE, hss]
        · simp only [scat, FWS.stream]
          exact noCR_append (by decide) hsn
      | none =>
        refine ⟨scat ([], 0) s, ?_, ?_⟩
        · simp [DayOfWeek.stream, scatE, hss]
        · simp only [scat]
          exact noCR_append noCR_nil hsn

theorem dateTime_pnc {fuel : Nat} {input rem : List Nat} {dt : DateTime}
    (h : dateTimeParse fuel input = .ok (dt, rem)) :
    sfx input rem ∧ ∃ s, DateTime.stream dt = .ok s ∧ noCR s.1 := by
  unfold dateTimeParse at h
  split at h
  · cases h
  · have hdow : ∀ dp r0, (match DayOfWeek.parse input with
        | .ok (d, r) =>
          if r.length ≠ 0 ∧ r.head? = some 44 then (some d, r.drop 1) else (none, input)
        | .error _ => (none, input)) = (dp, r0) →
        sfx input r0 ∧ ∃ s2, (match dp with
          | some dow => scatE (DayOfWeek.stream dow) (.ok ([44], 1))
          | none => .ok ([], 0) : SR) = .ok s2 ∧ noCR s2.1 := by
      intro dp r0 hm
      cases hdp : DayOfWeek.parse input with
      | ok p =>
        obtain ⟨d, r⟩ := p
        rw [hdp] at hm
        dsimp only at hm
        split at hm
        · cases hm
          obtain ⟨hs1, s1, hss1, hsn1⟩ := dow_pnc hdp
          refine ⟨sfx_trans hs1 ⟨r.take 1, (List.take_append_drop 1 r).symm⟩, ?_⟩
          refine ⟨scat s1 ([44], 1), ?_, ?_⟩
          · simp [scatE, hss1]
          · simp only [scat]
            exact noCR_append hsn1 (by decide)
        · cases hm
          exact ⟨sfx_refl input, ([], 0), rfl, noCR_nil⟩
      | error e =>
        rw [hdp] at hm
        cases hm
        exact ⟨sfx_refl input, ([], 0), rfl, noCR_nil⟩
    rcases hm0 : (match DayOfWeek.parse input with
        | .ok (d, r) =>
          if r.length ≠ 0 ∧ r.head? = some 44 then (some d, r.drop 1) else (none, input)
        | .error _ => (none, input)) with ⟨dp, r0⟩
    rw [hm0] at h
    dsimp only at h
    obtain ⟨hs0, s0, hss0, hsn0⟩ := hdow dp r0 hm0
    cases hdt : Date.parse r0 with
    | error e => rw [hdt] at h; cases h
    | ok p =>
      obtain ⟨date, r1⟩ := p
      rw [hdt] at h
      dsimp only at h
      cases ht : Time.parse r1 with
      | error e => rw [ht] at h; cases h
      | ok p2 =>
        obtain ⟨time, r2⟩ := p2
        rw [ht] at h
        dsimp only at h
        rcases htp : tryParse (cfwsParse fuel) r2 with ⟨post, r3⟩
        rw [htp] at h
        dsimp only at h
        obtain ⟨hs3, hn3⟩ := tryParse_cfws_pnc htp
        obtain ⟨hs1, s1, hss1, hsn1⟩ := date_pnc hdt
        cases h
        constructor
        · exact sfx_trans hs0 (sfx_trans hs1 (sfx_trans (time_sfx ht) hs3))
        · refine ⟨scat s0 (scat s1 (scat (Time.stream time) (streamOptCFWS post))), ?_, ?_⟩
          · simp only [DateTime.stream]
            rw [hss0, hss1]
            simp [scatE]
          · simp only [scat]
            exact noCR_append hsn0 (noCR_append hsn1
              (noCR_append (time_stream_noCR time) hn3))
end EmailFormat
namespace EmailFormat

theorem noFoldLiteral_pnc {input rem : List Nat} {n : NoFoldLiteral}
    (h : NoFoldLiteral.parse input = .ok (n, rem)) :
    sfx input rem ∧ noCR (NoFoldLiteral.stream n).1 := by
  unfold NoFoldLiteral.parse at h
  split at h
  · cases h
  · cases hr1 : req input [91] with
    | error e => rw [hr1] at h; cases h
    | ok rem1 =>
      rw [hr1] at h
      dsimp only at h
      cases hd : DText.parse rem1 with
      | error e => rw [hd] at h; cases h
      | ok p =>
        obtain ⟨d, rem2⟩ := p
        rw [hd] at h
        dsimp only at h
        obtain ⟨he, hn, hne⟩ := dtext_pnc hd
        cases hr2 : req rem2 [93] with
        | error e => rw [hr2] at h; cases h
        | ok rem3 =>
          rw [hr2] at h
          cases h
          constructor
          · exact sfx_trans ⟨[91], req_ok hr1⟩
              (sfx_trans ⟨d.bytes, he⟩ ⟨[93], req_ok hr2⟩)
          · simp only [NoFoldLiteral.stream, scat, DText.stream, cclassStream]
            exact noCR_append (by decide) (noCR_append hn (by decide))

theorem idRight_pnc {fuel : Nat} {input rem : List Nat} {i : IdRight}
    (h : idRightParse fuel input = .ok (i, rem)) :
    sfx input rem ∧ noCR (IdRight.stream i).1 := by
  unfold idRightParse at h
  split at h
  · cases h
  · cases hp : dotAtomTextParse fuel input with
    | ok p =>
      obtain ⟨x, r⟩ := p
      rw [hp] at h
      obtain ⟨hs, hn⟩ := dotAtomText_pnc hp
      cases h
      exact ⟨hs, hn⟩
    | error e =>
      rw [hp] at h
      cases hq : NoFoldLiteral.parse input with
      | ok p =>
        obtain ⟨x, r⟩ := p
        rw [hq] at h
        obtain ⟨hs, hn⟩ := noFoldLiteral_pnc hq
        cases h
        exact ⟨hs, hn⟩
      | error e2 => rw [hq] at h; cases h

theorem idLeft_pnc {fuel : Nat} {input rem : List Nat} {i : IdLeft}
    (h : idLeftParse fuel input = .ok (i, rem)) :
    sfx input rem ∧ noCR (IdLeft.stream i).1 := by
  unfold idLeftParse at h
  split at h
  · cases h
  · cases hp : dotAtomTextParse fuel input with
    | ok p =>
      obtain ⟨x, r⟩ := p
      rw [hp] at h
      obtain ⟨hs, hn⟩ := dotAtomText_pnc hp
      cases h
      exact ⟨hs, hn⟩
    | error e => rw [hp] at h; cases h

theorem msgId_pnc {fuel : Nat} {input rem : List Nat} {m : MsgId}
    (h : msgIdParse fuel input = .ok (m, rem)) :
    sfx input rem ∧ noCR (MsgId.stream m).1 := by
  unfold msgIdParse at h
  split at h
  · cases h
  · rcases htp : tryParse (cfwsParse fuel) input with ⟨pre, r0⟩
    rw [htp] at h
    dsimp only at h
    obtain ⟨hs0, hn0⟩ := tryParse_cfws_pnc htp
    cases hr1 : req r0 [60] with
    | error e => rw [hr1] at h; cases h
    | ok rem1 =>
      rw [hr1] at h
      dsimp only at h
      cases hil : idLeftParse fuel rem1 with
      | error e => rw [hil] at h; cases h
      | ok p =>
        obtain ⟨idl, rem2⟩ := p
        rw [hil] at h
        dsimp only at h
        obtain ⟨hs1, hn1⟩ := idLeft_pnc hil
        cases hr2 : req rem2 [64] with
        | error e => rw [hr2] at h; cases h
        | ok rem3 =>
          rw [hr2] at h
          dsimp only at h
          cases hir : idRightParse fuel rem3 with
          | error e => rw [hir] at h; cases h
          | ok p2 =>
            obtain ⟨idr, rem4⟩ := p2
            rw [hir] at h
            dsimp only at h
            obtain ⟨hs2, hn2⟩ := idRight_pnc hir
            cases hr3 : req rem4 [62] with
            | error e => rw [hr3] at h; cases h
            | ok rem5 =>
              rw [hr3] at h
              dsimp only at h
              rcases htp2 : tryParse (cfwsParse fuel) rem5 with ⟨post, r6⟩
              rw [htp2] at h
              dsimp only at h
              obtain ⟨hs3, hn3⟩ := tryParse_cfws_pnc htp2
              cases h
              constructor
              · exact sfx_trans hs0 (sfx_trans ⟨[60], req_ok hr1⟩
                  (sfx_trans hs1 (sfx_trans ⟨[64], req_ok hr2⟩
                    (sfx_trans hs2 (sfx_trans ⟨[62], req_ok hr3⟩ hs3)))))
              · simp only [MsgId.stream, scat]
                exact noCR_append hn0 (noCR_append (by decide)
                  (noCR_append hn1 (noCR_append (by decide)
                    (noCR_append hn2 (noCR_append (by decide) hn3)))))

theorem receivedToken_pnc {fuel : Nat} {input rem : List Nat} {t : ReceivedToken}
    (h : receivedTokenParse fuel input = .ok (t, rem)) :
    sfx input rem ∧ noCR (ReceivedToken.stream t).1 := by
  unfold receivedTokenParse at h
  split at h
  · cases h
  · cases h1 : wordParse fuel input with
    | ok p =>
      obtain ⟨x, r⟩ := p
      rw [h1] at h
      obtain ⟨hs, hn⟩ := word_pnc h1
      cases h
      exact ⟨hs, hn⟩
    | error e1 =>
      rw [h1] at h
      cases h2 : angleAddrParse fuel input with
      | ok p =>
        obtain ⟨x, r⟩ := p
        rw [h2] at h
        obtain ⟨hs, hn⟩ := angleAddr_pnc h2
        cases h
        exact ⟨hs, hn⟩
      | error e2 =>
        rw [h2] at h
        cases h3 : addrSpecParse fuel input with
        | ok p =>
          obtain ⟨x, r⟩ := p
          rw [h3] at h
          obtain ⟨hs, hn⟩ := addrSpec_pnc h3
          cases h
          exact ⟨hs, hn⟩
        | error e3 =>
          rw [h3] at h
          cases h4 : domainParse fuel input with
          | ok p =>
            obtain ⟨x, r⟩ := p
            rw [h4] at h
            obtain ⟨hs, hn⟩ := domain_pnc h4
            cases h
            exact ⟨hs, hn⟩
          | error e4 => rw [h4] at h; cases h

theorem path_pnc {fuel : Nat} {input rem : List Nat} {p : Path}
    (h : pathParse fuel input = .ok (p, rem)) :
    sfx input rem ∧ noCR (Path.stream p).1 := by
  unfold pathParse at h
  cases h1 : angleAddrParse fuel input with
  | ok pp =>
    obtain ⟨aa, r⟩ := pp
    rw [h1] at h
    obtain ⟨hs, hn⟩ := angleAddr_pnc h1
    cases h
    exact ⟨hs, hn⟩
  | error e1 =>
    rw [h1] at h
    dsimp only at h
    rcases htp : tryParse (cfwsParse fuel) input with ⟨c1, r1⟩
    rw [htp] at h
    dsimp only at h
    obtain ⟨hs1, hn1⟩ := tryParse_cfws_pnc htp
    cases hr1 : req r1 [60] with
    | error e => rw [hr1] at h; cases h
    | ok rem2 =>
      rw [hr1] at h
      dsimp only at h
      rcases htp2 : tryParse (cfwsParse fuel) rem2 with ⟨c2, r3⟩
      rw [htp2] at h
      dsimp only at h
      obtain ⟨hs2, hn2⟩ := tryParse_cfws_pnc htp2
      cases hr2 : req r3 [62] with
      | error e => rw [hr2] at h; cases h
      | ok rem4 =>
        rw [hr2] at h
        dsimp only at h
        rcases htp3 : tryParse (cfwsParse fuel) rem4 with ⟨c3, r5⟩
        rw [htp3] at h
        dsimp only at h
        obtain ⟨hs3, hn3⟩ := tryParse_cfws_pnc htp3
        cases h
        constructor
        · exact sfx_trans hs1 (sfx_trans ⟨[60], req_ok hr1⟩
            (sfx_trans hs2 (sfx_trans ⟨[62], req_ok hr2⟩ hs3)))
        · simp only [Path.stream, scat]
          exact noCR_append hn1 (noCR_append (by decide)
            (noCR_append hn2 (noCR_append (by decide) hn3)))

theorem fieldName_pnc {input rem : List Nat} {f : FieldName}
    (h : FieldName.parse input = .ok (f, rem)) :
    sfx input rem ∧ noCR (FieldName.stream f).1 ∧ (FieldName.stream f).1 ≠ [] := by
  unfold FieldName.parse at h
  cases hf : FText.parse input with
  | ok p =>
    obtain ⟨x, r⟩ := p
    rw [hf] at h
    obtain ⟨he, hn, hne⟩ := ftext_pnc hf
    cases h
    exact ⟨⟨x.bytes, he⟩, hn, hne⟩
  | error e => rw [hf] at h; cases h

end EmailFormat
namespace EmailFormat

theorem cec_build {input rem0 rem1 rem2 : List Nat}
    (h0 : sfx input rem0) (h1 : sfx rem0 rem1) (h2 : rem1 = 13 :: 10 :: rem2) :
    cec input rem2 := by
  obtain ⟨a, ha⟩ := h0
  obtain ⟨b, hb⟩ := h1
  exact ⟨a ++ b, by rw [ha, hb, h2, List.append_assoc]⟩

theorem lineOK_scat {name : String} {v : List Nat × Nat}
    (hn : noCR (strBytes name)) (hne : strBytes name ≠ []) (hv : noCR v.1) :
    lineOK (scat (lit name) (scat v ([13, 10], 2))) := by
  refine ⟨strBytes name ++ v.1, ?_, noCR_append hn hv, ?_⟩
  · simp [scat, lit]
  · intro hh
    exact hne (List.append_eq_nil.1 hh).1

end EmailFormat
namespace EmailFormat

theorem from_lok {fuel : Nat} {input rem : List Nat} {x : From}
    (h : fromParse fuel input = .ok (x, rem)) :
    cec input rem ∧ lineOK (From.stream x) := by
  unfold fromParse at h
  split at h
  · cases h
  · cases hn : req_name input "from:" with
    | error e => rw [hn] at h; cases h
    | ok rem0 =>
      rw [hn] at h
      dsimp only at h
      cases hv : mailboxListParse fuel rem0 with
      | error e => rw [hv] at h; cases h
      | ok p =>
        obtain ⟨v, rem1⟩ := p
        rw [hv] at h
        dsimp only at h
        obtain ⟨hs1, hsn⟩ := mailboxList_pnc hv
        cases hc : req_crlf rem1 with
        | error e => rw [hc] at h; cases h
        | ok rem2 =>
          rw [hc] at h
          cases h
          exact ⟨cec_build (req_name_ok hn) hs1 (req_crlf_ok hc),
            lineOK_scat (by decide) (by decide) hsn⟩

theorem sender_lok {fuel : Nat} {input rem : List Nat} {x : Sender}
    (h : senderParse fuel input = .ok (x, rem)) :
    cec input rem ∧ lineOK (Sender.stream x) := by
  unfold senderParse at h
  split at h
  · cases h
  · cases hn : req_name input "sender:" with
    | error e => rw [hn] at h; cases h
    | ok rem0 =>
      rw [hn] at h
      dsimp only at h
      cases hv : mailboxParse fuel rem0 with
      | error e => rw [hv] at h; cases h
      | ok p =>
        obtain ⟨v, rem1⟩ := p
        rw [hv] at h
        dsimp only at h
        obtain ⟨hs1, hsn⟩ := mailbox_pnc hv
        cases hc : req_crlf rem1 with
        | error e => rw [hc] at h; cases h
        | ok rem2 =>
          rw [hc] at h
          cases h
          exact ⟨cec_build (req_name_ok hn) hs1 (req_crlf_ok hc),
            lineOK_scat (by decide) (by decide) hsn⟩

theorem replyTo_lok {fuel : Nat} {input rem : List Nat} {x : ReplyTo}
    (h : replyToParse fuel input = .ok (x, rem)) :
    cec input rem ∧ lineOK (ReplyTo.stream x) := by
  unfold replyToParse at h
  split at h
  · cases h
  · cases hn : req_name input "reply-to:" with
    | error e => rw [hn] at h; cases h
    | ok rem0 =>
      rw [hn] at h
      dsimp only at h
      cases hv : addressListParse fuel rem0 with
      | error e => rw [hv] at h; cases h
      | ok p =>
        obtain ⟨v, rem1⟩ := p
        rw [hv] at h
        dsimp only at h
        obtain ⟨hs1, hsn⟩ := addressList_pnc hv
        cases hc : req_crlf rem1 with
        | error e => rw [hc] at h; cases h
        | ok rem2 =>
          rw [hc] at h
          cases h
          exact ⟨cec_build (req_name_ok hn) hs1 (req_crlf_ok hc),
            lineOK_scat (by decide) (by decide) hsn⟩

theorem to_lok {fuel : Nat} {input rem : List Nat} {x : To}
    (h : toParse fuel input = .ok (x, rem)) :
    cec input rem ∧ lineOK (To.stream x) := by
  unfold toParse at h
  split at h
  · cases h
  · cases hn : req_name input "to:" with
    | error e => rw [hn] at h; cases h
    | ok rem0 =>
      rw [hn] at h
      dsimp only at h
      cases hv : addressListParse fuel rem0 with
      | error e => rw [hv] at h; cases h
      | ok p =>
        obtain ⟨v, rem1⟩ := p
        rw [hv] at h
        dsimp only at h
        obtain ⟨hs1, hsn⟩ := addressList_pnc hv
        cases hc : req_crlf rem1 with
        | error e => rw [hc] at h; cases h
        | ok rem2 =>
          rw [hc] at h
          cases h
          exact ⟨cec_build (req_name_ok hn) hs1 (req_crlf_ok hc),
            lineOK_scat (by decide) (by decide) hsn⟩

theorem cc_lok {fuel : Nat} {input rem : List Nat} {x : Cc}
    (h : ccParse fuel input = .ok (x, rem)) :
    cec input rem ∧ lineOK (Cc.stream x) := by
  unfold ccParse at h
  split at h
  · cases h
  · cases hn : req_name input "cc:" with
    | error e => rw [hn] at h; cases h
    | ok rem0 =>
      rw [hn] at h
      dsimp only at h
      cases hv : addressListParse fuel rem0 with
      | error e => rw [hv] at h; cases h
      | ok p =>
        obtain ⟨v, rem1⟩ := p
        rw [hv] at h
        dsimp only at h
        obtain ⟨hs1, hsn⟩ := addressList_pnc hv
        cases hc : req_crlf rem1 with
        | error e => rw [hc] at h; cases h
        | ok rem2 =>
          rw [hc] at h
          cases h
          exact ⟨cec_build (req_name_ok hn) hs1 (req_crlf_ok hc),
            lineOK_scat (by decide) (by decide) hsn⟩

theorem messageId_lok {fuel : Nat} {input rem : List Nat} {x : MessageId}
    (h : messageIdParse fuel input = .ok (x, rem)) :
    cec input rem ∧ lineOK (MessageId.stream x) := by
  unfold messageIdParse at h
  split at h
  · cases h
  · cases hn : req_name input "message-id:" with
    | error e => rw [hn] at h; cases h
    | ok rem0 =>
      rw [hn] at h
      dsimp only at h
      cases hv : msgIdParse fuel rem0 with
      | error e => rw [hv] at h; cases h
      | ok p =>
        obtain ⟨v, rem1⟩ := p
        rw [hv] at h
        dsimp only at h
        obtain ⟨hs1, hsn⟩ := msgId_pnc hv
        cases hc : req_crlf rem1 with
        | error e => rw [hc] at h; cases h
        | ok rem2 =>
          rw [hc] at h
          cases h
          exact ⟨cec_build (req_name_ok hn) hs1 (req_crlf_ok hc),
            lineOK_scat (by decide) (by decide) hsn⟩

theorem subject_lok {fuel : Nat} {input rem : List Nat} {x : Subject}
    (h : subjectParse fuel input = .ok (x, rem)) :
    cec input rem ∧ lineOK (Subject.stream x) := by
  unfold subjectParse at h
  split at h
  · cases h
  · cases hn : req_name input "subject:" with
    | error e => rw [hn] at h; cases h
    | ok rem0 =>
      rw [hn] at h
      dsimp only at h
      cases hv : unstructuredParse fuel rem0 with
      | error e => rw [hv] at h; cases h
      | ok p =>
        obtain ⟨v, rem1⟩ := p
        rw [hv] at h
        dsimp only at h
        obtain ⟨hs1, hsn⟩ := unstructured_pnc hv
        cases hc : req_crlf rem1 with
        | error e => rw [hc] at h; cases h
        | ok rem2 =>
          rw [hc] at h
          cases h
          exact ⟨cec_build (req_name_ok hn) hs1 (req_crlf_ok hc),
            lineOK_scat (by decide) (by decide) hsn⟩

theorem comments_lok {fuel : Nat} {input rem : List Nat} {x : Comments}
    (h : commentsParse fuel input = .ok (x, rem)) :
    cec input rem ∧ lineOK (Comments.stream x) := by
  unfold commentsParse at h
  split at h
  · cases h
  · cases hn : req_name input "comments:" with
    | error e => rw [hn] at h; cases h
    | ok rem0 =>
      rw [hn] at h
      dsimp only at h
      cases hv : unstructuredParse fuel rem0 with
      | error e => rw [hv] at h; cases h
      | ok p =>
        obtain ⟨v, rem1⟩ := p
        rw [hv] at h
        dsimp only at h
        obtain ⟨hs1, hsn⟩ := unstructured_pnc hv
        cases hc : req_crlf rem1 with
        | error e => rw [hc] at h; cases h
        | ok rem2 =>
          rw [hc] at h
          cases h
          exact ⟨cec_build (req_name_ok hn) hs1 (req_crlf_ok hc),
            lineOK_scat (by decide) (by decide) hsn⟩

theorem resentFrom_lok {fuel : Nat} {input rem : List Nat} {x : ResentFrom}
    (h : resentFromParse fuel input = .ok (x, rem)) :
    cec input rem ∧ lineOK (ResentFrom.stream x) := by
  unfold resentFromParse at h
  split at h
  · cases h
  · cases hn : req_name input "resent-from:" with
    | error e => rw [hn] at h; cases h
    | ok rem0 =>
      rw [hn] at h
      dsimp only at h
      cases hv : mailboxListParse fuel rem0 with
      | error e => rw [hv] at h; cases h
      | ok p =>
        obtain ⟨v, rem1⟩ := p
        rw [hv] at h
        dsimp only at h
        obtain ⟨hs1, hsn⟩ := mailboxList_pnc hv
        cases hc : req_crlf rem1 with
        | error e => rw [hc] at h; cases h
        | ok rem2 =>
          rw [hc] at h
          cases h
          exact ⟨cec_build (req_name_ok hn) hs1 (req_crlf_ok hc),
            lineOK_scat (by decide) (by decide) hsn⟩

theorem resentSender_lok {fuel : Nat} {input rem : List Nat} {x : ResentSender}
    (h : resentSenderParse fuel input = .ok (x, rem)) :
    cec input rem ∧ lineOK (ResentSender.stream x) := by
  unfold resentSenderParse at h
  split at h
  · cases h
  · cases hn : req_name input "resent-sender:" with
    | error e => rw [hn] at h; cases h
    | ok rem0 =>
      rw [hn] at h
      dsimp only at h
      cases hv : mailboxParse fuel rem0 with
      | error e => rw [hv] at h; cases h
      | ok p =>
        obtain ⟨v, rem1⟩ := p
        rw [hv] at h
        dsimp only at h
        obtain ⟨hs1, hsn⟩ := mailbox_pnc hv
        cases hc : req_crlf rem1 with
        | error e => rw [hc] at h; cases h
        | ok rem2 =>
          rw [hc] at h
          cases h
          exact ⟨cec_build (req_name_ok hn) hs1 (req_crlf_ok hc),
            lineOK_scat (by decide) (by decide) hsn⟩

theorem resentTo_lok {fuel : Nat} {input rem : List Nat} {x : ResentTo}
    (h : resentToParse fuel input = .ok (x, rem)) :
    cec input rem ∧ lineOK (ResentTo.stream x) := by
  unfold resentToParse at h
  split at h
  · cases h
  · cases hn : req_name input "resent-to:" with
    | error e => rw [hn] at h; cases h
    | ok rem0 =>
      rw [hn] at h
      dsimp only at h
      cases hv : addressListParse fuel rem0 with
      | error e => rw [hv] at h; cases h
      | ok p =>
        obtain ⟨v, rem1⟩ := p
        rw [hv] at h
        dsimp only at h
        obtain ⟨hs1, hsn⟩ := addressList_pnc hv
        cases hc : req_crlf rem1 with
        | error e => rw [hc] at h; cases h
        | ok rem2 =>
          rw [hc] at h
          cases h
          exact ⟨cec_build (req_name_ok hn) hs1 (req_crlf_ok hc),
            lineOK_scat (by decide) (by decide) hsn⟩

theorem resentCc_lok {fuel : Nat} {input rem : List Nat} {x : ResentCc}
    (h : resentCcParse fuel input = .ok (x, rem)) :
    cec input rem ∧ lineOK (ResentCc.stream x) := by
  unfold resentCcParse at h
  split at h
  · cases h
  · cases hn : req_name input "resent-cc:" with
    | error e => rw [hn] at h; cases h
    | ok rem0 =>
      rw [hn] at h
      dsimp only at h
      cases hv : addressListParse fuel rem0 with
      | error e => rw [hv] at h; cases h
      | ok p =>
        obtain ⟨v, rem1⟩ := p
        rw [hv] at h
        dsimp only at h
        obtain ⟨hs1, hsn⟩ := addressList_pnc hv
        cases hc : req_crlf rem1 with
        | error e => rw [hc] at h; cases h
        | ok rem2 =>
          rw [hc] at h
          cases h
          exact ⟨cec_build (req_name_ok hn) hs1 (req_crlf_ok hc),
            lineOK_scat (by decide) (by decide) hsn⟩

theorem resentMessageId_lok {fuel : Nat} {input rem : List Nat} {x : ResentMessageId}
    (h : resentMessageIdParse fuel input = .ok (x, rem)) :
    cec input rem ∧ lineOK (ResentMessageId.stream x) := by
  unfold resentMessageIdParse at h
  split at h
  · cases h
  · cases hn : req_name input "resent-message-id:" with
    | error e => rw [hn] at h; cases h
    | ok rem0 =>
      rw [hn] at h
      dsimp only at h
      cases hv : msgIdParse fuel rem0 with
      | error e => rw [hv] at h; cases h
      | ok p =>
        obtain ⟨v, rem1⟩ := p
        rw [hv] at h
        dsimp only at h
        obtain ⟨hs1, hsn⟩ := msgId_pnc hv
        cases hc : req_crlf rem1 with
        | error e => rw [hc] at h; cases h
        | ok rem2 =>
          rw [hc] at h
          cases h
          exact ⟨cec_build (req_name_ok hn) hs1 (req_crlf_ok hc),
            lineOK_scat (by decide) (by decide) hsn⟩

theorem origDate_lok {fuel : Nat} {input rem : List Nat} {x : OrigDate}
    (h : origDateParse fuel input = .ok (x, rem)) :
    cec input rem ∧ ∃ s, OrigDate.stream x = .ok s ∧ lineOK s := by
  unfold origDateParse at h
  split at h
  · cases h
  · cases hn : req_name input "date:" with
    | error e => rw [hn] at h; cases h
    | ok rem0 =>
      rw [hn] at h
      dsimp only at h
      cases hv : dateTimeParse fuel rem0 with
      | error e => rw [hv] at h; cases h
      | ok p =>
        obtain ⟨v, rem1⟩ := p
        rw [hv] at h
        dsimp only at h
        obtain ⟨hs1, s, hss, hsn⟩ := dateTime_pnc hv
        cases hc : req_crlf rem1 with
        | error e => rw [hc] at h; cases h
        | ok rem2 =>
          rw [hc] at h
          cases h
          refine ⟨cec_build (req_name_ok hn) hs1 (req_crlf_ok hc), ?_⟩
          refine ⟨scat (lit "Date:") (scat s ([13, 10], 2)), ?_, ?_⟩
          · simp [OrigDate.stream, scatE, hss]
          · exact lineOK_scat (by decide) (by decide) hsn

theorem resentDate_lok {fuel : Nat} {input rem : List Nat} {x : ResentDate}
    (h : resentDateParse fuel input = .ok (x, rem)) :
    cec input rem ∧ ∃ s, ResentDate.stream x = .ok s ∧ lineOK s := by
  unfold resentDateParse at h
  split at h
  · cases h
  · cases hn : req_name input "resent-date:" with
    | error e => rw [hn] at h; cases h
    | ok rem0 =>
      rw [hn] at h
      dsimp only at h
      cases hv : dateTimeParse fuel rem0 with
      | error e => rw [hv] at h; cases h
      | ok p =>
        obtain ⟨v, rem1⟩ := p
        rw [hv] at h
        dsimp only at h
        obtain ⟨hs1, s, hss, hsn⟩ := dateTime_pnc hv
        cases hc : req_crlf rem1 with
        | error e => rw [hc] at h; cases h
        | ok rem2 =>
          rw [hc] at h
          cases h
          refine ⟨cec_build (req_name_ok hn) hs1 (req_crlf_ok hc), ?_⟩
          refine ⟨scat (lit "Resent-Date:") (scat s ([13, 10], 2)), ?_, ?_⟩
          · simp [ResentDate.stream, scatE, hss]
          · exact lineOK_scat (by decide) (by decide) hsn

end EmailFormat
namespace EmailFormat

theorem lineOK_scat0 {name : String} (hn : noCR (strBytes name))
    (hne : strBytes name ≠ []) : lineOK (scat (lit name) ([13, 10], 2)) := by
  refine ⟨strBytes name, ?_, hn, hne⟩
  simp [scat, lit]

theorem bcc_lok {fuel : Nat} {input rem : List Nat} {x : Bcc}
    (h : bccParse fuel input = .ok (x, rem)) :
    cec input rem ∧ lineOK (Bcc.stream x) := by
  unfold bccParse at h
  split at h
  · cases h
  · cases hn : req_name input "bcc:" with
    | error e => rw [hn] at h; cases h
    | ok rem0 =>
      rw [hn] at h
      dsimp only at h
      cases hv : addressListParse fuel rem0 with
      | ok p =>
        obtain ⟨v, rem1⟩ := p
        rw [hv] at h
        dsimp only at h
        obtain ⟨hs1, hsn⟩ := addressList_pnc hv
        cases hc : req_crlf rem1 with
        | error e => rw [hc] at h; cases h
        | ok rem2 =>
          rw [hc] at h
          cases h
          exact ⟨cec_build (req_name_ok hn) hs1 (req_crlf_ok hc),
            lineOK_scat (by decide) (by decide) hsn⟩
      | error e1 =>
        rw [hv] at h
        cases hv2 : cfwsParse fuel rem0 with
        | ok p =>
          obtain ⟨v, rem1⟩ := p
          rw [hv2] at h
          dsimp only at h
          obtain ⟨hs1, hsn⟩ := cfws_pnc hv2
          cases hc : req_crlf rem1 with
          | error e => rw [hc] at h; cases h
          | ok rem2 =>
            rw [hc] at h
            cases h
            exact ⟨cec_build (req_name_ok hn) hs1 (req_crlf_ok hc),
              lineOK_scat (by decide) (by decide) hsn⟩
        | error e2 =>
          rw [hv2] at h
          cases hc : req_crlf rem0 with
          | error e => rw [hc] at h; cases h
          | ok rem1 =>
            rw [hc] at h
            cases h
            exact ⟨cec_build (req_name_ok hn) (sfx_refl rem0) (req_crlf_ok hc),
              lineOK_scat0 (by decide) (by decide)⟩

theorem resentBcc_lok {fuel : Nat} {input rem : List Nat} {x : ResentBcc}
    (h : resentBccParse fuel input = .ok (x, rem)) :
    cec input rem ∧ lineOK (ResentBcc.stream x) := by
  unfold resentBccParse at h
  split at h
  · cases h
  · cases hn : req_name input "resent-bcc:" with
    | error e => rw [hn] at h; cases h
    | ok rem0 =>
      rw [hn] at h
      dsimp only at h
      cases hv : addressListParse fuel rem0 with
      | ok p =>
        obtain ⟨v, rem1⟩ := p
        rw [hv] at h
        dsimp only at h
        obtain ⟨hs1, hsn⟩ := addressList_pnc hv
        cases hc : req_crlf rem1 with
        | error e => rw [hc] at h; cases h
        | ok rem2 =>
          rw [hc] at h
          cases h
          exact ⟨cec_build (req_name_ok hn) hs1 (req_crlf_ok hc),
            lineOK_scat (by decide) (by decide) hsn⟩
      | error e1 =>
        rw [hv] at h
        cases hv2 : cfwsParse fuel rem0 with
        | ok p =>
          obtain ⟨v, rem1⟩ := p
          rw [hv2] at h
          dsimp only at h
          obtain ⟨hs1, hsn⟩ := cfws_pnc hv2
          cases hc : req_crlf rem1 with
          | error e => rw [hc] at h; cases h
          | ok rem2 =>
            rw [hc] at h
            cases h
            exact ⟨cec_build (req_name_ok hn) hs1 (req_crlf_ok hc),
              lineOK_scat (by decide) (by decide) hsn⟩
        | error e2 =>
          rw [hv2] at h
          cases hc : req_crlf rem0 with
          | error e => rw [hc] at h; cases h
          | ok rem1 =>
            rw [hc] at h
            cases h
            exact ⟨cec_build (req_name_ok hn) (sfx_refl rem0) (req_crlf_ok hc),
              lineOK_scat0 (by decide) (by decide)⟩

theorem msgIdLoop_pnc : ∀ (fuel : Nat) (rem : List Nat) l e fin,
    msgIdLoop fuel rem = (l, e, fin) →
    sfx rem fin ∧ ∀ x ∈ l, noCR (MsgId.stream x).1
  | 0, rem, l, e, fin, h => by
    simp only [msgIdLoop] at h
    cases h
    exact ⟨sfx_refl rem, by simp⟩
  | fuel+1, rem, l, e, fin, h => by
    simp only [msgIdLoop] at h
    cases hm : msgIdParse fuel rem with
    | ok p =>
      obtain ⟨x, r⟩ := p
      rw [hm] at h
      dsimp only at h
      rcases hrec : msgIdLoop fuel r with ⟨xs, e2, f2⟩
      rw [hrec] at h
      dsimp only at h
      obtain ⟨hs1, hn1⟩ := msgId_pnc hm
      obtain ⟨hs2, hn2⟩ := msgIdLoop_pnc fuel r xs e2 f2 hrec
      cases h
      refine ⟨sfx_trans hs1 hs2, ?_⟩
      intro y hy
      rcases List.mem_cons.1 hy with h1 | h1
      · subst h1; exact hn1
      · exact hn2 y h1
    | error e0 =>
      rw [hm] at h
      cases h
      exact ⟨sfx_refl rem, by simp⟩

theorem phraseErrLoop_pnc : ∀ (fuel : Nat) (rem : List Nat) l e fin,
    phraseErrLoop fuel rem = (l, e, fin) →
    sfx rem fin ∧ ∀ x ∈ l, noCR (Phrase.stream x).1
  | 0, rem, l, e, fin, h => by
    simp only [phraseErrLoop] at h
    cases h
    exact ⟨sfx_refl rem, by simp⟩
  | fuel+1, rem, l, e, fin, h => by
    simp only [phraseErrLoop] at h
    cases hm : phraseParse fuel rem with
    | ok p =>
      obtain ⟨x, r⟩ := p
      rw [hm] at h
      dsimp only at h
      rcases hrec : phraseErrLoop fuel r with ⟨xs, e2, f2⟩
      rw [hrec] at h
      dsimp only at h
      obtain ⟨hs1, hn1⟩ := phrase_pnc hm
      obtain ⟨hs2, hn2⟩ := phraseErrLoop_pnc fuel r xs e2 f2 hrec
      cases h
      refine ⟨sfx_trans hs1 hs2, ?_⟩
      intro y hy
      rcases List.mem_cons.1 hy with h1 | h1
      · subst h1; exact hn1
      · exact hn2 y h1
    | error e0 =>
      rw [hm] at h
      cases h
      exact ⟨sfx_refl rem, by simp⟩

theorem rtokLoop_pnc : ∀ (fuel : Nat) (rem : List Nat) l e fin,
    rtokLoop fuel rem = (l, e, fin) →
    sfx rem fin ∧ ∀ x ∈ l, noCR (ReceivedToken.stream x).1
  | 0, rem, l, e, fin, h => by
    simp only [rtokLoop] at h
    cases h
    exact ⟨sfx_refl rem, by simp⟩
  | fuel+1, rem, l, e, fin, h => by
    simp only [rtokLoop] at h
    cases hm : receivedTokenParse fuel rem with
    | ok p =>
      obtain ⟨x, r⟩ := p
      rw [hm] at h
      dsimp only at h
      rcases hrec : rtokLoop fuel r with ⟨xs, e2, f2⟩
      rw [hrec] at h
      dsimp only at h
      obtain ⟨hs1, hn1⟩ := receivedToken_pnc hm
      obtain ⟨hs2, hn2⟩ := rtokLoop_pnc fuel r xs e2 f2 hrec
      cases h
      refine ⟨sfx_trans hs1 hs2, ?_⟩
      intro y hy
      rcases List.mem_cons.1 hy with h1 | h1
      · subst h1; exact hn1
      · exact hn2 y h1
    | error e0 =>
      rw [hm] at h
      cases h
      exact ⟨sfx_refl rem, by simp⟩

end EmailFormat
namespace EmailFormat

theorem inReplyTo_lok {fuel : Nat} {input rem : List Nat} {x : InReplyTo}
    (h : inReplyToParse fuel input = .ok (x, rem)) :
    cec input rem ∧ lineOK (InReplyTo.stream x) := by
  unfold inReplyToParse at h
  split at h
  · cases h
  · cases hn : req_name input "in-reply-to:" with
    | error e => rw [hn] at h; cases h
    | ok rem0 =>
      rw [hn] at h
      dsimp only at h
      rcases hl : msgIdLoop fuel rem0 with ⟨contents, err, rem1⟩
      rw [hl] at h
      dsimp only at h
      obtain ⟨hs1, hn1⟩ := msgIdLoop_pnc fuel rem0 contents err rem1 hl
      split at h
      · cases h
      · cases hc : req_crlf rem1 with
        | error e => rw [hc] at h; cases h
        | ok rem2 =>
          rw [hc] at h
          cases h
          exact ⟨cec_build (req_name_ok hn) hs1 (req_crlf_ok hc),
            lineOK_scat (by decide) (by decide) (streamList_noCR hn1)⟩

theorem references_lok {fuel : Nat} {input rem : List Nat} {x : References}
    (h : referencesParse fuel input = .ok (x, rem)) :
    cec input rem ∧ lineOK (References.stream x) := by
  unfold referencesParse at h
  split at h
  · cases h
  · cases hn : req_name input "references:" with
    | error e => rw [hn] at h; cases h
    | ok rem0 =>
      rw [hn] at h
      dsimp only at h
      rcases hl : msgIdLoop fuel rem0 with ⟨contents, err, rem1⟩
      rw [hl] at h
      dsimp only at h
      obtain ⟨hs1, hn1⟩ := msgIdLoop_pnc fuel rem0 contents err rem1 hl
      split at h
      · cases h
      · cases hc : req_crlf rem1 with
        | error e => rw [hc] at h; cases h
        | ok rem2 =>
          rw [hc] at h
          cases h
          exact ⟨cec_build (req_name_ok hn) hs1 (req_crlf_ok hc),
            lineOK_scat (by decide) (by decide) (streamList_noCR hn1)⟩

theorem keywords_lok {fuel : Nat} {input rem : List Nat} {x : Keywords}
    (h : keywordsParse fuel input = .ok (x, rem)) :
    cec input rem ∧ lineOK (Keywords.stream x) := by
  unfold keywordsParse at h
  split at h
  · cases h
  · cases hn : req_name input "keywords:" with
    | error e => rw [hn] at h; cases h
    | ok rem0 =>
      rw [hn] at h
      dsimp only at h
      rcases hl : phraseErrLoop fuel rem0 with ⟨output, err, rem1⟩
      rw [hl] at h
      dsimp only at h
      obtain ⟨hs1, hn1⟩ := phraseErrLoop_pnc fuel rem0 output err rem1 hl
      split at h
      · cases h
      · cases hc : req_crlf rem1 with
        | error e => rw [hc] at h; cases h
        | ok rem2 =>
          rw [hc] at h
          cases h
          exact ⟨cec_build (req_name_ok hn) hs1 (req_crlf_ok hc),
            lineOK_scat (by decide) (by decide) (streamCommaList_noCR hn1)⟩

theorem return_lok {fuel : Nat} {input rem : List Nat} {x : Return}
    (h : returnParse fuel input = .ok (x, rem)) :
    cec input rem ∧ lineOK (Return.stream x) := by
  unfold returnParse at h
  cases hn : req_name input "return-path:" with
  | error e => rw [hn] at h; cases h
  | ok rem0 =>
    rw [hn] at h
    dsimp only at h
    cases hv : pathParse fuel rem0 with
    | error e => rw [hv] at h; cases h
    | ok p =>
      obtain ⟨v, rem1⟩ := p
      rw [hv] at h
      dsimp only at h
      obtain ⟨hs1, hsn⟩ := path_pnc hv
      cases hc : req_crlf rem1 with
      | error e => rw [hc] at h; cases h
      | ok rem2 =>
        rw [hc] at h
        cases h
        exact ⟨cec_build (req_name_ok hn) hs1 (req_crlf_ok hc),
          lineOK_scat (by decide) (by decide) hsn⟩

theorem optionalField_lok {fuel : Nat} {input rem : List Nat} {x : OptionalField}
    (h : optionalFieldParse fuel input = .ok (x, rem)) :
    cec input rem ∧ lineOK (OptionalField.stream x) := by
  unfold optionalFieldParse at h
  cases hf : FieldName.parse input with
  | error e => rw [hf] at h; cases h
  | ok p =>
    obtain ⟨name, rem0⟩ := p
    rw [hf] at h
    dsimp only at h
    obtain ⟨hs0, hn0, hne0⟩ := fieldName_pnc hf
    cases hr : req rem0 [58] with
    | error e => rw [hr] at h; cases h
    | ok rem1 =>
      rw [hr] at h
      dsimp only at h
      cases hu : unstructuredParse fuel rem1 with
      | error e => rw [hu] at h; cases h
      | ok p2 =>
        obtain ⟨value, rem2⟩ := p2
        rw [hu] at h
        dsimp only at h
        obtain ⟨hs1, hn1⟩ := unstructured_pnc hu
        cases hc : req_crlf rem2 with
        | error e => rw [hc] at h; cases h
        | ok rem3 =>
          rw [hc] at h
          cases h
          constructor
          · exact cec_build hs0
              (sfx_trans ⟨[58], req_ok hr⟩ hs1) (req_crlf_ok hc)
          · refine ⟨(FieldName.stream name).1 ++ [58] ++ (Unstructured.stream value).1,
              ?_, ?_, ?_⟩
            · simp [OptionalField.stream, scat, List.append_assoc]
            · exact noCR_append (noCR_append hn0 (by decide)) hn1
            · intro hh
              rw [List.append_eq_nil, List.append_eq_nil] at hh
              exact absurd hh.1.2 (by decide)
end EmailFormat
namespace EmailFormat

theorem received_lineOK {tok sdt : List Nat × Nat} (hn : noCR tok.1) (hd : noCR sdt.1) :
    lineOK (scat (lit "Received:") (scat tok (scat ([59], 1) (scat sdt ([13, 10], 2))))) := by
  refine ⟨strBytes "Received:" ++ (tok.1 ++ ([59] ++ sdt.1)), ?_, ?_, ?_⟩
  · simp [scat, lit, List.append_assoc]
  · exact noCR_append (by decide) (noCR_append hn (noCR_append (by decide) hd))
  · intro hh
    rw [List.append_eq_nil] at hh
    exact absurd hh.1 (by decide)

theorem received_lok {fuel : Nat} {input rem : List Nat} {x : Received}
    (h : receivedParse fuel input = .ok (x, rem)) :
    cec input rem ∧ ∃ s, Received.stream x = .ok s ∧ lineOK s := by
  unfold receivedParse at h
  split at h
  · cases h
  · cases hn : req_name input "received:" with
    | error e => rw [hn] at h; cases h
    | ok rem0 =>
      rw [hn] at h
      dsimp only at h
      rcases hl : rtokLoop fuel rem0 with ⟨tokens, err, rem1⟩
      rw [hl] at h
      dsimp only at h
      obtain ⟨hs1, hn1⟩ := rtokLoop_pnc fuel rem0 tokens err rem1 hl
      split at h
      · cases h
      · rename_i rtoks rem2 heq
        have hrt : sfx rem1 rem2 ∧ noCR (match rtoks with
            | .Tokens vec => streamList ReceivedToken.stream vec
            | .Comment c => CFWS.stream c).1 := by
          split at heq
          · cases hcf : cfwsParse fuel rem1 with
            | error e => rw [hcf] at heq; cases heq
            | ok p =>
              obtain ⟨c, r2⟩ := p
              rw [hcf] at heq
              dsimp only at heq
              obtain ⟨hs2, hn2⟩ := cfws_pnc hcf
              cases heq
              exact ⟨hs2, hn2⟩
          · cases heq
            exact ⟨sfx_refl rem1, streamList_noCR hn1⟩
        obtain ⟨hs2, hn2⟩ := hrt
        cases hr : req rem2 [59] with
        | error e => rw [hr] at h; cases h
        | ok rem3 =>
          rw [hr] at h
          dsimp only at h
          cases hdt : dateTimeParse fuel rem3 with
          | error e => rw [hdt] at h; cases h
          | ok p2 =>
            obtain ⟨dt, rem4⟩ := p2
            rw [hdt] at h
            dsimp only at h
            obtain ⟨hs3, sdt, hss3, hsn3⟩ := dateTime_pnc hdt
            cases hc : req_crlf rem4 with
            | error e => rw [hc] at h; cases h
            | ok rem5 =>
              rw [hc] at h
              cases h
              constructor
              · exact cec_build (req_name_ok hn)
                  (sfx_trans hs1 (sfx_trans hs2
                    (sfx_trans ⟨[59], req_ok hr⟩ hs3))) (req_crlf_ok hc)
              · cases rtoks with
                | Tokens vec =>
                  refine ⟨scat (lit "Received:") (scat (streamList ReceivedToken.stream vec)
                    (scat ([59], 1) (scat sdt ([13, 10], 2)))), ?_, ?_⟩
                  · simp only [Received.stream]
                    rw [hss3]
                    simp [scatE]
                  · exact received_lineOK hn2 hsn3
                | Comment c =>
                  refine ⟨scat (lit "Received:") (scat (CFWS.stream c)
                    (scat ([59], 1) (scat sdt ([13, 10], 2)))), ?_, ?_⟩
                  · simp only [Received.stream]
                    rw [hss3]
                    simp [scatE]
                  · exact received_lineOK hn2 hsn3

end EmailFormat
namespace EmailFormat

theorem field_lok {fuel : Nat} {input rem : List Nat} {f : Field}
    (h : fieldParse fuel input = .ok (f, rem)) :
    cec input rem ∧ ∃ s, Field.stream f = .ok s ∧ lineOK s := by
  unfold fieldParse at h
  cases h0 : origDateParse fuel input with
  | ok p0 =>
    obtain ⟨x, r⟩ := p0
    rw [h0] at h
    obtain ⟨hc, s, hss, hlk⟩ := origDate_lok h0
    cases h
    exact ⟨hc, s, hss, hlk⟩
  | error e0 =>
    rw [h0] at h
    cases h1 : fromParse fuel input with
    | ok p1 =>
      obtain ⟨x, r⟩ := p1
      rw [h1] at h
      obtain ⟨hc, hlk⟩ := from_lok h1
      cases h
      exact ⟨hc, From.stream x, rfl, hlk⟩
    | error e1 =>
      rw [h1] at h
      cases h2 : senderParse fuel input with
      | ok p2 =>
        obtain ⟨x, r⟩ := p2
        rw [h2] at h
        obtain ⟨hc, hlk⟩ := sender_lok h2
        cases h
        exact ⟨hc, Sender.stream x, rfl, hlk⟩
      | error e2 =>
        rw [h2] at h
        cases h3 : replyToParse fuel input with
        | ok p3 =>
          obtain ⟨x, r⟩ := p3
          rw [h3] at h
          obtain ⟨hc, hlk⟩ := replyTo_lok h3
          cases h
          exact ⟨hc, ReplyTo.stream x, rfl, hlk⟩
        | error e3 =>
          rw [h3] at h
          cases h4 : toParse fuel input with
          | ok p4 =>
            obtain ⟨x, r⟩ := p4
            rw [h4] at h
            obtain ⟨hc, hlk⟩ := to_lok h4
            cases h
            exact ⟨hc, To.stream x, rfl, hlk⟩
          | error e4 =>
            rw [h4] at h
            cases h5 : ccParse fuel input with
            | ok p5 =>
              obtain ⟨x, r⟩ := p5
              rw [h5] at h
              obtain ⟨hc, hlk⟩ := cc_lok h5
              cases h
              exact ⟨hc, Cc.stream x, rfl, hlk⟩
            | error e5 =>
              rw [h5] at h
              cases h6 : bccParse fuel input with
              | ok p6 =>
                obtain ⟨x, r⟩ := p6
                rw [h6] at h
                obtain ⟨hc, hlk⟩ := bcc_lok h6
                cases h
                exact ⟨hc, Bcc.stream x, rfl, hlk⟩
              | error e6 =>
                rw [h6] at h
                cases h7 : messageIdParse fuel input with
                | ok p7 =>
                  obtain ⟨x, r⟩ := p7
                  rw [h7] at h
                  obtain ⟨hc, hlk⟩ := messageId_lok h7
                  cases h
                  exact ⟨hc, MessageId.stream x, rfl, hlk⟩
                | error e7 =>
                  rw [h7] at h
                  cases h8 : inReplyToParse fuel input with
                  | ok p8 =>
                    obtain ⟨x, r⟩ := p8
                    rw [h8] at h
                    obtain ⟨hc, hlk⟩ := inReplyTo_lok h8
                    cases h
                    exact ⟨hc, InReplyTo.stream x, rfl, hlk⟩
                  | error e8 =>
                    rw [h8] at h
                    cases h9 : referencesParse fuel input with
                    | ok p9 =>
                      obtain ⟨x, r⟩ := p9
                      rw [h9] at h
                      obtain ⟨hc, hlk⟩ := references_lok h9
                      cases h
                      exact ⟨hc, References.stream x, rfl, hlk⟩
                    | error e9 =>
                      rw [h9] at h
                      cases h10 : subjectParse fuel input with
                      | ok p10 =>
                        obtain ⟨x, r⟩ := p10
                        rw [h10] at h
                        obtain ⟨hc, hlk⟩ := subject_lok h10
                        cases h
                        exact ⟨hc, Subject.stream x, rfl, hlk⟩
                      | error e10 =>
                        rw [h10] at h
                        cases h11 : commentsParse fuel input with
                        | ok p11 =>
                          obtain ⟨x, r⟩ := p11
                          rw [h11] at h
                          obtain ⟨hc, hlk⟩ := comments_lok h11
                          cases h
                          exact ⟨hc, Comments.stream x, rfl, hlk⟩
                        | error e11 =>
                          rw [h11] at h
                          cases h12 : keywordsParse fuel input with
                          | ok p12 =>
                            obtain ⟨x, r⟩ := p12
                            rw [h12] at h
                            obtain ⟨hc, hlk⟩ := keywords_lok h12
                            cases h
                            exact ⟨hc, Keywords.stream x, rfl, hlk⟩
                          | error e12 =>
                            rw [h12] at h
                            cases h13 : optionalFieldParse fuel input with
                            | ok p13 =>
                              obtain ⟨x, r⟩ := p13
                              rw [h13] at h
                              obtain ⟨hc, hlk⟩ := optionalField_lok h13
                              cases h
                              exact ⟨hc, OptionalField.stream x, rfl, hlk⟩
                            | error e13 =>
                              rw [h13] at h
                              cases h

theorem resentField_lok {fuel : Nat} {input rem : List Nat} {f : ResentField}
    (h : resentFieldParse fuel input = .ok (f, rem)) :
    cec input rem ∧ ∃ s, ResentField.stream f = .ok s ∧ lineOK s := by
  unfold resentFieldParse at h
  cases h0 : resentDateParse fuel input with
  | ok p0 =>
    obtain ⟨x, r⟩ := p0
    rw [h0] at h
    obtain ⟨hc, s, hss, hlk⟩ := resentDate_lok h0
    cases h
    exact ⟨hc, s, hss, hlk⟩
  | error e0 =>
    rw [h0] at h
    cases h1 : resentFromParse fuel input with
    | ok p1 =>
      obtain ⟨x, r⟩ := p1
      rw [h1] at h
      obtain ⟨hc, hlk⟩ := resentFrom_lok h1
      cases h
      exact ⟨hc, ResentFrom.stream x, rfl, hlk⟩
    | error e1 =>
      rw [h1] at h
      cases h2 : resentSenderParse fuel input with
      | ok p2 =>
        obtain ⟨x, r⟩ := p2
        rw [h2] at h
        obtain ⟨hc, hlk⟩ := resentSender_lok h2
        cases h
        exact ⟨hc, ResentSender.stream x, rfl, hlk⟩
      | error e2 =>
        rw [h2] at h
        cases h3 : resentToParse fuel input with
        | ok p3 =>
          obtain ⟨x, r⟩ := p3
          rw [h3] at h
          obtain ⟨hc, hlk⟩ := resentTo_lok h3
          cases h
          exact ⟨hc, ResentTo.stream x, rfl, hlk⟩
        | error e3 =>
          rw [h3] at h
          cases h4 : resentCcParse fuel input with
          | ok p4 =>
            obtain ⟨x, r⟩ := p4
            rw [h4] at h
            obtain ⟨hc, hlk⟩ := resentCc_lok h4
            cases h
            exact ⟨hc, ResentCc.stream x, rfl, hlk⟩
          | error e4 =>
            rw [h4] at h
            cases h5 : resentBccParse fuel input with
            | ok p5 =>
              obtain ⟨x, r⟩ := p5
              rw [h5] at h
              obtain ⟨hc, hlk⟩ := resentBcc_lok h5
              cases h
              exact ⟨hc, ResentBcc.stream x, rfl, hlk⟩
            | error e5 =>
              rw [h5] at h
              cases h6 : resentMessageIdParse fuel input with
              | ok p6 =>
                obtain ⟨x, r⟩ := p6
                rw [h6] at h
                obtain ⟨hc, hlk⟩ := resentMessageId_lok h6
                cases h
                exact ⟨hc, ResentMessageId.stream x, rfl, hlk⟩
              | error e6 =>
                rw [h6] at h
                cases h

end EmailFormat
namespace EmailFormat

theorem fs_append : ∀ {a b : List Nat}, FieldSection a → FieldSection b →
    FieldSection (a ++ b) := by
  intro a b ha hb
  induction ha with
  | nil => simpa using hb
  | block C rest hne hnc hrest ih =>
    rw [List.append_assoc]
    exact .block C (rest ++ b) hne hnc ih

theorem fs_line {s : List Nat × Nat} (h : lineOK s) : FieldSection s.1 := by
  obtain ⟨C, hC, hnc, hne⟩ := h
  rw [hC]
  exact .block C [] hne hnc .nil

theorem cec_sfx {a b : List Nat} (h : cec a b) : sfx a b := by
  obtain ⟨C, hC⟩ := h
  exact ⟨C ++ [13, 10], by rw [hC]; simp⟩

theorem cec_left {a b c : List Nat} (h1 : sfx a b) (h2 : cec b c) : cec a c := by
  obtain ⟨C1, hC1⟩ := h1
  obtain ⟨C2, hC2⟩ := h2
  exact ⟨C1 ++ C2, by rw [hC1, hC2, List.append_assoc]⟩

theorem streamListE_fs {α : Type} {f : α → SR} :
    ∀ {l : List α}, (∀ x ∈ l, ∃ s, f x = .ok s ∧ lineOK s) →
      ∃ S, streamListE f l = .ok S ∧ FieldSection S.1
  | [], _ => ⟨([], 0), rfl, .nil⟩
  | x :: rest, h => by
    obtain ⟨s, hs, hlk⟩ := h x (List.mem_cons_self x rest)
    obtain ⟨S, hS, hfs⟩ := streamListE_fs (fun y hy => h y (List.mem_cons_of_mem x hy))
    refine ⟨scat s S, ?_, ?_⟩
    · simp [streamListE, scatE, hs, hS]
    · exact fs_append (fs_line hlk) hfs

theorem recvLoop_lok : ∀ (fuel : Nat) (rem : List Nat) rs fin,
    recvLoop fuel rem = (rs, fin) →
    sfx rem fin ∧ (rs = [] → fin = rem) ∧ (rs ≠ [] → cec rem fin) ∧
      ∃ S, streamListE Received.stream rs = .ok S ∧ FieldSection S.1
  | 0, rem, rs, fin, h => by
    simp only [recvLoop] at h
    cases h
    exact ⟨sfx_refl rem, fun _ => rfl, fun hh => absurd rfl hh, ([], 0), rfl, .nil⟩
  | fuel+1, rem, rs, fin, h => by
    simp only [recvLoop] at h
    cases hm : receivedParse fuel rem with
    | ok p =>
      obtain ⟨r1, rem1⟩ := p
      rw [hm] at h
      dsimp only at h
      rcases hrec : recvLoop fuel rem1 with ⟨rs2, f2⟩
      rw [hrec] at h
      dsimp only at h
      obtain ⟨hc1, s1, hss1, hlk1⟩ := received_lok hm
      obtain ⟨hs2, he2, hc2, S, hS, hfs⟩ := recvLoop_lok fuel rem1 rs2 f2 hrec
      cases h
      refine ⟨sfx_trans (cec_sfx hc1) hs2, ?_, ?_, ?_⟩
      · intro hh
        simp at hh
      · intro hne
        cases rs2 with
        | nil => rw [he2 rfl]; exact hc1
        | cons a b => exact cec_left (cec_sfx hc1) (hc2 (by simp))
      · refine ⟨scat s1 S, ?_, ?_⟩
        · simp [streamListE, scatE, hss1, hS]
        · exact fs_append (fs_line hlk1) hfs
    | error e =>
      rw [hm] at h
      cases h
      exact ⟨sfx_refl rem, fun _ => rfl, fun hh => absurd rfl hh, ([], 0), rfl, .nil⟩

end EmailFormat
namespace EmailFormat

theorem rfLoop_lok : ∀ (fuel : Nat) (rem : List Nat) l fin,
    rfLoop fuel rem = (l, fin) →
    sfx rem fin ∧ (l = [] → fin = rem) ∧ (l ≠ [] → cec rem fin) ∧
      ∃ S, streamListE ResentField.stream l = .ok S ∧ FieldSection S.1
  | 0, rem, l, fin, h => by
    simp only [rfLoop] at h
    cases h
    exact ⟨sfx_refl rem, fun _ => rfl, fun hh => absurd rfl hh, ([], 0), rfl, .nil⟩
  | fuel+1, rem, l, fin, h => by
    simp only [rfLoop] at h
    cases hm : resentFieldParse fuel rem with
    | ok p =>
      obtain ⟨x1, rem1⟩ := p
      rw [hm] at h
      dsimp only at h
      rcases hrec : rfLoop fuel rem1 with ⟨l2, f2⟩
      rw [hrec] at h
      dsimp only at h
      obtain ⟨hc1, s1, hss1, hlk1⟩ := resentField_lok hm
      obtain ⟨hs2, he2, hc2, S, hS, hfs⟩ := rfLoop_lok fuel rem1 l2 f2 hrec
      cases h
      refine ⟨sfx_trans (cec_sfx hc1) hs2, ?_, ?_, ?_⟩
      · intro hh
        simp at hh
      · intro hne
        cases l2 with
        | nil => rw [he2 rfl]; exact hc1
        | cons a b => exact cec_left (cec_sfx hc1) (hc2 (by simp))
      · refine ⟨scat s1 S, ?_, ?_⟩
        · simp [streamListE, scatE, hss1, hS]
        · exact fs_append (fs_line hlk1) hfs
    | error e =>
      rw [hm] at h
      cases h
      exact ⟨sfx_refl rem, fun _ => rfl, fun hh => absurd rfl hh, ([], 0), rfl, .nil⟩

theorem ofLoop_lok : ∀ (fuel : Nat) (rem : List Nat) l fin,
    ofLoop fuel rem = (l, fin) →
    sfx rem fin ∧ (l = [] → fin = rem) ∧ (l ≠ [] → cec rem fin) ∧
      ∃ S, streamListE (fun f => (.ok (OptionalField.stream f) : SR)) l = .ok S ∧ FieldSection S.1
  | 0, rem, l, fin, h => by
    simp only [ofLoop] at h
    cases h
    exact ⟨sfx_refl rem, fun _ => rfl, fun hh => absurd rfl hh, ([], 0), rfl, .nil⟩
  | fuel+1, rem, l, fin, h => by
    simp only [ofLoop] at h
    cases hm : optionalFieldParse fuel rem with
    | ok p =>
      obtain ⟨x1, rem1⟩ := p
      rw [hm] at h
      dsimp only at h
      rcases hrec : ofLoop fuel rem1 with ⟨l2, f2⟩
      rw [hrec] at h
      dsimp only at h
      obtain ⟨hc1, hlk1⟩ := optionalField_lok hm
      have hss1 : (fun f => (.ok (OptionalField.stream f) : SR)) x1
          = .ok (OptionalField.stream x1) := rfl
      set s1 := OptionalField.stream x1 with hs1def
      obtain ⟨hs2, he2, hc2, S, hS, hfs⟩ := ofLoop_lok fuel rem1 l2 f2 hrec
      cases h
      refine ⟨sfx_trans (cec_sfx hc1) hs2, ?_, ?_, ?_⟩
      · intro hh
        simp at hh
      · intro hne
        cases l2 with
        | nil => rw [he2 rfl]; exact hc1
        | cons a b => exact cec_left (cec_sfx hc1) (hc2 (by simp))
      · refine ⟨scat s1 S, ?_, ?_⟩
        · simp [streamListE, scatE, hss1, hS]
        · exact fs_append (fs_line hlk1) hfs
    | error e =>
      rw [hm] at h
      cases h
      exact ⟨sfx_refl rem, fun _ => rfl, fun hh => absurd rfl hh, ([], 0), rfl, .nil⟩

end EmailFormat
namespace EmailFormat

theorem trace_lok {fuel : Nat} {input rem : List Nat} {t : Trace}
    (h : traceParse fuel input = .ok (t, rem)) :
    cec input rem ∧ ∃ S, Trace.stream t = .ok S ∧ FieldSection S.1 := by
  unfold traceParse at h
  rcases htp : tryParse (returnParse fuel) input with ⟨ret, rem0⟩
  rw [htp] at h
  dsimp only at h
  rcases hl : recvLoop fuel rem0 with ⟨received, rem1⟩
  rw [hl] at h
  dsimp only at h
  obtain ⟨hs1, he1, hc1, S, hS, hfs⟩ := recvLoop_lok fuel rem0 received rem1 hl
  split at h
  · cases h
  · rename_i hlen
    cases h
    have hrcv : received ≠ [] := by
      intro hh
      rw [hh] at hlen
      simp at hlen
    have hret : sfx input rem0 ∧ ∃ R, (match ret with
        | some rp => Return.stream rp
        | none => (([] : List Nat), 0)) = R ∧ FieldSection R.1 := by
      unfold tryParse at htp
      cases hpe : returnParse fuel input with
      | ok p =>
        obtain ⟨x, rr⟩ := p
        rw [hpe] at htp
        obtain ⟨hcx, hlkx⟩ := return_lok hpe
        cases htp
        exact ⟨cec_sfx hcx, Return.stream x, rfl, fs_line hlkx⟩
      | error e =>
        rw [hpe] at htp
        cases htp
        exact ⟨sfx_refl input, ([], 0), rfl, .nil⟩
    obtain ⟨hs0, R, hR, hfsR⟩ := hret
    constructor
    · exact cec_left hs0 (hc1 hrcv)
    · refine ⟨scat R S, ?_, ?_⟩
      · simp only [Trace.stream]
        rw [hR, hS]
        simp [scatE]
      · exact fs_append hfsR hfs

theorem resentTraceBlock_lok {fuel : Nat} {input rem : List Nat} {b : ResentTraceBlock}
    (h : resentTraceBlockParse fuel input = .ok (b, rem)) :
    cec input rem ∧ ∃ S, ResentTraceBlock.stream b = .ok S ∧ FieldSection S.1 := by
  unfold resentTraceBlockParse at h
  cases ht : traceParse fuel input with
  | error e => rw [ht] at h; cases h
  | ok p =>
    obtain ⟨t, rem0⟩ := p
    rw [ht] at h
    dsimp only at h
    rcases hl : rfLoop fuel rem0 with ⟨fields, rem1⟩
    rw [hl] at h
    dsimp only at h
    obtain ⟨hct, St, hSt, hfst⟩ := trace_lok ht
    obtain ⟨hs1, he1, hc1, S, hS, hfs⟩ := rfLoop_lok fuel rem0 fields rem1 hl
    split at h
    · cases h
    · rename_i hlen
      cases h
      have hne : fields ≠ [] := by
        intro hh
        rw [hh] at hlen
        simp at hlen
      constructor
      · exact cec_left (cec_sfx hct) (hc1 hne)
      · refine ⟨scat St S, ?_, ?_⟩
        · simp only [ResentTraceBlock.stream]
          rw [hSt, hS]
          simp [scatE]
        · exact fs_append hfst hfs

theorem optTraceBlock_lok {fuel : Nat} {input rem : List Nat} {b : OptTraceBlock}
    (h : optTraceBlockParse fuel input = .ok (b, rem)) :
    cec input rem ∧ ∃ S, OptTraceBlock.stream b = .ok S ∧ FieldSection S.1 := by
  unfold optTraceBlockParse at h
  cases ht : traceParse fuel input with
  | error e => rw [ht] at h; cases h
  | ok p =>
    obtain ⟨t, rem0⟩ := p
    rw [ht] at h
    dsimp only at h
    rcases hl : ofLoop fuel rem0 with ⟨fields, rem1⟩
    rw [hl] at h
    dsimp only at h
    obtain ⟨hct, St, hSt, hfst⟩ := trace_lok ht
    obtain ⟨hs1, he1, hc1, S, hS, hfs⟩ := ofLoop_lok fuel rem0 fields rem1 hl
    split at h
    · cases h
    · rename_i hlen
      cases h
      have hne : fields ≠ [] := by
        intro hh
        rw [hh] at hlen
        simp at hlen
      constructor
      · exact cec_left (cec_sfx hct) (hc1 hne)
      · refine ⟨scat St S, ?_, ?_⟩
        · simp only [OptTraceBlock.stream]
          rw [hSt, hS]
          simp [scatE]
        · exact fs_append hfst hfs

theorem traceBlock_lok {fuel : Nat} {input rem : List Nat} {b : TraceBlock}
    (h : traceBlockParse fuel input = .ok (b, rem)) :
    cec input rem ∧ ∃ S, TraceBlock.stream b = .ok S ∧ FieldSection S.1 := by
  unfold traceBlockParse at h
  cases h1 : resentTraceBlockParse fuel input with
  | ok p =>
    obtain ⟨x, r⟩ := p
    rw [h1] at h
    obtain ⟨hc, S, hS, hfs⟩ := resentTraceBlock_lok h1
    cases h
    exact ⟨hc, S, hS, hfs⟩
  | error e1 =>
    rw [h1] at h
    cases h2 : optTraceBlockParse fuel input with
    | ok p =>
      obtain ⟨x, r⟩ := p
      rw [h2] at h
      obtain ⟨hc, S, hS, hfs⟩ := optTraceBlock_lok h2
      cases h
      exact ⟨hc, S, hS, hfs⟩
    | error e2 => rw [h2] at h; cases h

end EmailFormat
namespace EmailFormat

theorem tbLoop_lok : ∀ (fuel : Nat) (rem : List Nat) l fin,
    tbLoop fuel rem = (l, fin) →
    sfx rem fin ∧ (l = [] → fin = rem) ∧ (l ≠ [] → cec rem fin) ∧
      ∃ S, streamListE TraceBlock.stream l = .ok S ∧ FieldSection S.1
  | 0, rem, l, fin, h => by
    simp only [tbLoop] at h
    cases h
    exact ⟨sfx_refl rem, fun _ => rfl, fun hh => absurd rfl hh, ([], 0), rfl, .nil⟩
  | fuel+1, rem, l, fin, h => by
    simp only [tbLoop] at h
    cases hm : traceBlockParse fuel rem with
    | ok p =>
      obtain ⟨x1, rem1⟩ := p
      rw [hm] at h
      dsimp only at h
      rcases hrec : tbLoop fuel rem1 with ⟨l2, f2⟩
      rw [hrec] at h
      dsimp only at h
      obtain ⟨hc1, s1, hss1, hfs1⟩ := traceBlock_lok hm
      obtain ⟨hs2, he2, hc2, S, hS, hfs⟩ := tbLoop_lok fuel rem1 l2 f2 hrec
      cases h
      refine ⟨sfx_trans (cec_sfx hc1) hs2, ?_, ?_, ?_⟩
      · intro hh
        simp at hh
      · intro hne
        cases l2 with
        | nil => rw [he2 rfl]; exact hc1
        | cons a b => exact cec_left (cec_sfx hc1) (hc2 (by simp))
      · refine ⟨scat s1 S, ?_, ?_⟩
        · simp [streamListE, scatE, hss1, hS]
        · exact fs_append hfs1 hfs
    | error e =>
      rw [hm] at h
      cases h
      exact ⟨sfx_refl rem, fun _ => rfl, fun hh => absurd rfl hh, ([], 0), rfl, .nil⟩

theorem fLoop_lok : ∀ (fuel : Nat) (rem : List Nat) l fin,
    fLoop fuel rem = (l, fin) →
    sfx rem fin ∧ (l = [] → fin = rem) ∧ (l ≠ [] → cec rem fin) ∧
      ∃ S, streamListE Field.stream l = .ok S ∧ FieldSection S.1
  | 0, rem, l, fin, h => by
    simp only [fLoop] at h
    cases h
    exact ⟨sfx_refl rem, fun _ => rfl, fun hh => absurd rfl hh, ([], 0), rfl, .nil⟩
  | fuel+1, rem, l, fin, h => by
    simp only [fLoop] at h
    cases hm : fieldParse fuel rem with
    | ok p =>
      obtain ⟨x1, rem1⟩ := p
      rw [hm] at h
      dsimp only at h
      rcases hrec : fLoop fuel rem1 with ⟨l2, f2⟩
      rw [hrec] at h
      dsimp only at h
      obtain ⟨hc1, s1, hss1, hlk1⟩ := field_lok hm
      obtain ⟨hs2, he2, hc2, S, hS, hfs⟩ := fLoop_lok fuel rem1 l2 f2 hrec
      cases h
      refine ⟨sfx_trans (cec_sfx hc1) hs2, ?_, ?_, ?_⟩
      · intro hh
        simp at hh
      · intro hne
        cases l2 with
        | nil => rw [he2 rfl]; exact hc1
        | cons a b => exact cec_left (cec_sfx hc1) (hc2 (by simp))
      · refine ⟨scat s1 S, ?_, ?_⟩
        · simp [streamListE, scatE, hss1, hS]
        · exact fs_append (fs_line hlk1) hfs
    | error e =>
      rw [hm] at h
      cases h
      exact ⟨sfx_refl rem, fun _ => rfl, fun hh => absurd rfl hh, ([], 0), rfl, .nil⟩

theorem fieldsParse_struct {fuel : Nat} {input rem0 : List Nat} {flds : Fields}
    (h : fieldsParse fuel input = .ok (flds, rem0)) :
    sfx input rem0 ∧
      ((flds.trace_blocks = [] ∧ flds.fields = [] ∧ rem0 = input) ∨ cec input rem0) ∧
      ∃ S, Fields.stream flds = .ok S ∧ FieldSection S.1 := by
  unfold fieldsParse at h
  rcases htb : tbLoop fuel input with ⟨tbs, r1⟩
  rw [htb] at h
  dsimp only at h
  rcases hf : fLoop fuel r1 with ⟨fs, r2⟩
  rw [hf] at h
  dsimp only at h
  obtain ⟨hs1, he1, hc1, S1, hS1, hfs1⟩ := tbLoop_lok fuel input tbs r1 htb
  obtain ⟨hs2, he2, hc2, S2, hS2, hfs2⟩ := fLoop_lok fuel r1 fs r2 hf
  cases h
  refine ⟨sfx_trans hs1 hs2, ?_, ?_⟩
  · cases hfs0 : fs with
    | cons a b => exact Or.inr (cec_left hs1 (hc2 (by simp [hfs0])))
    | nil =>
      subst hfs0
      rw [he2 rfl]
      cases htbs0 : tbs with
      | cons a b => exact Or.inr (hc1 (by simp [htbs0]))
      | nil =>
        subst htbs0
        exact Or.inl ⟨rfl, rfl, he1 rfl⟩
  · refine ⟨scat S1 S2, ?_, ?_⟩
    · simp only [Fields.stream]
      rw [hS1, hS2]
      simp [scatE]
    · exact fs_append hfs1 hfs2

end EmailFormat

namespace EmailFormat

theorem sut_len : ∀ (input : List Nat),
    (stream_until_token input).1.length +
      (match (stream_until_token input).2 with
        | none => 0 | some rest => 2 + rest.length) = input.length := by
  intro input
  induction input using stream_until_token.induct with
  | case1 => rfl
  | case2 rest =>
    have hstep : stream_until_token (13 :: 10 :: rest) = ([], some rest) := rfl
    rw [hstep]
    dsimp only
    simp only [List.length_cons, List.length_nil]
    exact Nat.zero_add _ ▸ by
      rw [Nat.add_comm 2 rest.length]
  | case3 b rest hne l r heq ih =>
    have hstep : stream_until_token (b :: rest) = (b :: l, r) := by
      rw [stream_until_token.eq_def]
      split
      · rename_i heq2
        cases heq2
      · rename_i rr heq2
        injection heq2 with h1 h2
        exact (hne rr h1 h2).elim
      · rename_i x rr hne2 heq2
        injection heq2 with h1 h2
        subst h1
        subst h2
        rw [heq]
    rw [hstep] at *
    rw [heq] at ih
    dsimp only at ih ⊢
    cases r with
    | none =>
      simp only [List.length_cons] at ih ⊢
      omega
    | some rr =>
      simp only [List.length_cons] at ih ⊢
      omega

end EmailFormat
namespace EmailFormat

theorem text_bytes_append {line rem : List Nat} {t : Text}
    (h : Text.parse line = .ok (t, rem)) : t.bytes ++ rem = line :=
  (@cclassMap_append _ _ _ _ Text.mk Text.bytes (fun l => rfl) _ h).1

theorem sut_len_some {input line rest : List Nat}
    (hsut : stream_until_token input = (line, some rest)) :
    line.length + 2 + rest.length = input.length := by
  have hlen := sut_len input
  rw [hsut] at hlen
  dsimp only at hlen
  have hlen2 : line.length + (2 + rest.length) = input.length := hlen
  omega

theorem sut_len_none {input line : List Nat}
    (hsut : stream_until_token input = (line, none)) :
    line.length = input.length := by
  have hlen := sut_len input
  rw [hsut] at hlen
  dsimp only at hlen
  have hlen2 : line.length + 0 = input.length := hlen
  omega

theorem bodyAux_len : ∀ (fuel n : Nat) (input bytes : List Nat),
    bodyAux fuel n input = .ok bytes → bytes.length ≤ input.length
  | 0, n, input, bytes, h => by
    simp [bodyAux] at h
  | fuel+1, n, input, bytes, h => by
    rw [bodyAux_succ] at h
    rcases hsut : stream_until_token input with ⟨line, found⟩
    rw [hsut] at h
    dsimp only at h
    cases htx : Text.parse line with
    | ok p =>
      obtain ⟨text, rm⟩ := p
      rw [htx] at h
      dsimp only at h
      split at h
      · cases h
      · split at h
        · cases h
        · have htb : text.bytes.length ≤ line.length := by
            have hx := congrArg List.length (text_bytes_append htx)
            simp only [List.length_append] at hx
            omega
          cases found with
          | none =>
            dsimp only at h
            cases h
            have := sut_len_none hsut
            omega
          | some rest =>
            dsimp only at h
            cases hrec : bodyAux fuel (n+1) rest with
            | ok b =>
              rw [hrec] at h
              simp only [Except.map] at h
              cases h
              have hb := bodyAux_len fuel (n+1) rest b hrec
              have hst := sut_len_some hsut
              simp only [List.length_append, List.length_cons, List.length_nil]
              omega
            | error e =>
              rw [hrec] at h
              simp [Except.map] at h
    | error e =>
      rw [htx] at h
      cases found with
      | none =>
        dsimp only at h
        cases h
        simp
      | some rest =>
        dsimp only at h
        cases hrec : bodyAux fuel (n+1) rest with
        | ok b =>
          rw [hrec] at h
          simp only [Except.map] at h
          cases h
          have hb := bodyAux_len fuel (n+1) rest b hrec
          have hst := sut_len_some hsut
          simp only [List.length_append, List.length_cons, List.length_nil]
          omega
        | error e2 =>
          rw [hrec] at h
          simp [Except.map] at h

end EmailFormat
namespace EmailFormat

theorem noCR_align : ∀ (C : List Nat), noCR C → ∀ (X Y rest : List Nat),
    C ++ 13 :: 10 :: rest = X ++ 13 :: 10 :: 13 :: 10 :: Y →
    (X = C ∧ rest = 13 :: 10 :: Y) ∨
    (∃ X2, X = C ++ 13 :: 10 :: X2 ∧ rest = X2 ++ 13 :: 10 :: 13 :: 10 :: Y)
  | [], _, X, Y, rest, h => by
    cases X with
    | nil =>
      simp only [List.nil_append] at h
      injection h with h1 h2
      injection h2 with h3 h4
      exact Or.inl ⟨rfl, h4⟩
    | cons x X1 =>
      simp only [List.nil_append, List.cons_append] at h
      injection h with h1 h2
      cases X1 with
      | nil =>
        simp only [List.nil_append] at h2
        injection h2 with h3 h4
        cases h3
      | cons x1 X2 =>
        simp only [List.cons_append] at h2
        injection h2 with h3 h4
        subst h1
        subst h3
        exact Or.inr ⟨X2, rfl, h4⟩
  | c :: C2, hnc, X, Y, rest, h => by
    cases X with
    | nil =>
      simp only [List.cons_append, List.nil_append] at h
      injection h with h1 _
      exact absurd h1 (hnc c (List.mem_cons_self _ _))
    | cons x X1 =>
      simp only [List.cons_append] at h
      injection h with h1 h2
      subst h1
      have hnc2 : noCR C2 := fun b hb => hnc b (List.mem_cons_of_mem _ hb)
      rcases noCR_align C2 hnc2 X1 Y rest h2 with ⟨hX, hr⟩ | ⟨X2, hX, hr⟩
      · exact Or.inl ⟨by rw [hX], hr⟩
      · exact Or.inr ⟨X2, by rw [hX, List.cons_append], hr⟩

theorem fs_head_ne13 {F : List Nat} (hF : FieldSection F) :
    ∀ z, F = 13 :: z → False := by
  intro z h
  cases hF with
  | nil => cases h
  | block C rest hne hnc _ =>
    cases C with
    | nil => exact hne rfl
    | cons c C2 =>
      rw [List.cons_append] at h
      injection h with h1 _
      exact hnc c (List.mem_cons_self _ _) h1

theorem fs_no_crlf2 {F : List Nat} (hF : FieldSection F) :
    ∀ X Y, F = X ++ 13 :: 10 :: 13 :: 10 :: Y → False := by
  induction hF with
  | nil =>
    intro X Y h
    cases X <;> simp at h
  | block C rest hne hnc hrest ih =>
    intro X Y h
    rcases noCR_align C hnc X Y rest h with ⟨hX, hr⟩ | ⟨X2, hX, hr⟩
    · exact fs_head_ne13 (hr ▸ hrest) (10 :: Y) rfl
    · exact ih X2 Y hr

theorem take_pattern {P R fbB bB : List Nat}
    (h : P ++ 13 :: 10 :: 13 :: 10 :: R = fbB ++ bB) (hlen : bB.length ≤ R.length) :
    ∃ Z, fbB = P ++ 13 :: 10 :: 13 :: 10 :: Z := by
  have hfb : fbB = (fbB ++ bB).take fbB.length := by simp
  rw [← h] at hfb
  have hl : P.length + 4 + R.length = fbB.length + bB.length := by
    have hx := congrArg List.length h
    simp only [List.length_append, List.length_cons] at hx
    omega
  have h4 : (P ++ [13, 10, 13, 10]).length ≤ fbB.length := by
    simp only [List.length_append]
    simp only [List.length_cons, List.length_nil]
    omega
  rw [show P ++ 13 :: 10 :: 13 :: 10 :: R = (P ++ [13, 10, 13, 10]) ++ R by simp] at hfb
  rw [List.take_append_eq_append_take, List.take_of_length_le h4] at hfb
  refine ⟨R.take (fbB.length - (P ++ [13, 10, 13, 10]).length), ?_⟩
  simpa using hfb

end EmailFormat
namespace EmailFormat

theorem msg_no_reconstruct : ∀ (m : Message) (b : Body) (out : List Nat × Nat)
    (rem : List Nat), m.body = some b → b.bytes ≠ [] → Message.stream m = .ok out →
    Message.parse out.1 ≠ .returned (.ok (m, rem)) := by
  intro m b out rem hb hbne hs hp
  unfold Message.parse messageParse at hp
  cases hfp : fieldsParse (parseFuel out.1) out.1 with
  | error e =>
    rw [hfp] at hp
    injection hp with h1
    exact Except.noConfusion h1
  | ok p =>
    obtain ⟨flds, rem0⟩ := p
    rw [hfp] at hp
    dsimp only at hp
    split at hp
    · exact PanicOr.noConfusion hp
    · rename_i hlen2
      split at hp
      · injection hp with h1
        injection h1 with h2
        injection h2 with hm hr
        rw [← hm] at hb
        simp at hb
      · rename_i hcrlf
        rw [not_ne_iff] at hcrlf
        cases hbp : bodyParse (parseFuel out.1) (rem0.drop 2) with
        | error e =>
          rw [hbp] at hp
          injection hp with h1
          exact Except.noConfusion h1
        | ok p2 =>
          obtain ⟨bod, rem2⟩ := p2
          rw [hbp] at hp
          injection hp with h1
          injection h1 with h2
          injection h2 with hm hr
          have hbod : bod = b := by
            rw [← hm] at hb
            simpa using hb
          subst hbod
          subst hm
          obtain ⟨hsx, hdisj, S, hSS, hfs⟩ := fieldsParse_struct hfp
          unfold Message.stream at hs
          simp only at hs
          cases hf : Fields.stream flds with
          | error e =>
            rw [hf] at hs
            simp [scatE] at hs
          | ok fb =>
            rw [hf] at hs
            simp only [scatE] at hs
            injection hs with hout
            have hout1 : out.1 = fb.1 ++ bod.bytes := by
              rw [← hout]
              rfl
            have hfsfb : FieldSection fb.1 := by
              rw [hf] at hSS
              injection hSS with hSfb
              rw [hSfb]
              exact hfs
            have hblen : bod.bytes.length ≤ (rem0.drop 2).length := by
              unfold bodyParse at hbp
              cases hba : bodyAux (parseFuel out.1) 1 (rem0.drop 2) with
              | ok bs =>
                rw [hba] at hbp
                simp only [Except.map] at hbp
                injection hbp with h3
                injection h3 with h4 h5
                rw [← h4]
                exact bodyAux_len _ _ _ _ hba
              | error e =>
                rw [hba] at hbp
                simp [Except.map] at hbp
            have hrem0 : rem0 = 13 :: 10 :: rem0.drop 2 := by
              conv_lhs => rw [← List.take_append_drop 2 rem0]
              rw [hcrlf]
              rfl
            rcases hdisj with ⟨htb0, hfd0, hrem0in⟩ | hcec
            · have hfldsE : flds = ⟨[], []⟩ := by
                obtain ⟨tbs, fs⟩ := flds
                simp only at htb0 hfd0
                rw [htb0, hfd0]
              have hfbE : fb = ([], 0) := by
                rw [hfldsE] at hf
                rw [show Fields.stream ⟨[], []⟩ = Except.ok (([] : List Nat), 0) from rfl] at hf
                injection hf with h6
                rw [h6]
              have hO : out.1 = bod.bytes := by
                rw [hout1, hfbE]
                rfl
              have h1 : rem0.length = bod.bytes.length := by
                rw [hrem0in, hO]
              have h2 : (rem0.drop 2).length = rem0.length - 2 := by
                simp
              have h3 : ¬ rem0.length < 2 := hlen2
              omega
            · obtain ⟨P, hP⟩ := hcec
              rw [hrem0] at hP
              rw [hout1] at hP
              obtain ⟨Z, hZ⟩ := take_pattern hP.symm hblen
              exact fs_no_crlf2 hfsfb P Z hZ

end EmailFormat

namespace EmailFormat

/-- Claim C8: `Message::stream` writes the streamed header fields immediately
followed by the body bytes, with no blank-line CRLF separator between header
section and body, even though `Message::parse` demands a CRLF blank line
before a body; consequently, for every message with a non-empty body,
parsing the bytes produced by `Message::stream` never returns the original
message. -/
theorem c8_stream_no_separator :
    (∀ (m : Message) (b : Body) (fb : List Nat × Nat), m.body = some b →
      Fields.stream m.fields = .ok fb →
      Message.stream m = .ok (fb.1 ++ b.bytes, fb.2 + b.bytes.length)) ∧
    (∀ (m : Message) (b : Body) (out : List Nat × Nat) (rem : List Nat),
      m.body = some b → b.bytes ≠ [] → Message.stream m = .ok out →
      Message.parse out.1 ≠ .returned (.ok (m, rem))) := by
  constructor
  · intro m b fb hb hf
    simp [Message.stream, hb, hf, scatE, scat, Body.stream]
  · exact msg_no_reconstruct

/-- Witness for C8 at the concrete message `msgWithBody`: its streamed bytes
are the separator-free concatenation of its header line and its body, and
parsing those bytes does not return `msgWithBody`. -/
theorem c8_witness :
    (Message.stream msgWithBody
      = .ok (strBytes "Subject:test\r\n" ++ strBytes "Hi", 14 + (strBytes "Hi").length)) ∧
    Message.parse (strBytes "Subject:test\r\nHi")
      ≠ .returned (.ok (msgWithBody, strBytes "Hi")) :=
  ⟨c8_stream_no_separator.1 msgWithBody ⟨strBytes "Hi"⟩ (strBytes "Subject:test\r\n", 14)
      rfl rfl,
   c8_stream_no_separator.2 msgWithBody ⟨strBytes "Hi"⟩ (strBytes "Subject:test\r\nHi", 16)
      (strBytes "Hi") rfl (by decide) rfl⟩

end EmailFormat
